import Mathlib

/-!
# gpt2gpt: a verification development of `main.go`

The program reads one command-line argument, marshals a completion request,
POSTs it, reads the response body, unmarshals it and prints the first choice.

Go strings and byte slices are modelled as lists of bytes (`Nat`, each below 256).
The calls `main` makes into the Go standard library are fields of a record `Lib`,
so that every error branch of `main` is reachable in the model; `goLib` fills
the record with models of `encoding/json` and `net/http` as documented by Go.
-/

namespace Gpt2gpt

/-- A Go `string` or `[]byte`: a sequence of bytes. -/
abbrev Bytes := List Nat

/-- The bytes of an ASCII string literal. -/
def ascii (s : String) : Bytes := s.data.map Char.toNat

/-- Go `error` values that can reach `main`. The text of `err.Error()` is not modelled. -/
inductive GoError where
  /-- A `*json.SyntaxError`. -/
  | syntaxError
  /-- A `*json.UnmarshalTypeError`, with its `Value` field. -/
  | unmarshalTypeError (value : Bytes)
  /-- Any other error (marshalling, request construction, transport, body read). -/
  | other (text : String)
  deriving DecidableEq, Repr

/-- Source: `type OpenAIRequest struct` (main.go lines 12-16). -/
structure OpenAIRequest where
  Model : Bytes
  Prompt : Bytes
  MaxTokens : Int
  deriving DecidableEq, Repr

/-- The anonymous element type of `OpenAIResponse.Choices` (main.go lines 19-21). -/
structure Choice where
  Text : Bytes
  deriving DecidableEq, Repr

/-- Source: `type OpenAIResponse struct` (main.go lines 18-22). -/
structure OpenAIResponse where
  Choices : List Choice
  deriving DecidableEq, Repr

/-- The part of `*http.Request` that `main` sets. -/
structure Request where
  method : String
  url : String
  header : List (String × Bytes)
  body : Bytes
  deriving DecidableEq, Repr

/-- The part of `*http.Response` visible to `main`: the status code, and what
`ioutil.ReadAll(resp.Body)` returns for the body stream. -/
structure Response where
  statusCode : Nat
  body : Except GoError Bytes

/-- The standard-library calls of `main` whose outcome `main` branches on. -/
structure Lib where
  /-- The call `json.Marshal(req)`. -/
  Marshal : OpenAIRequest → Except GoError Bytes
  /-- The call `http.NewRequest(method, url, bytes.NewBuffer(body))`. -/
  NewRequest : String → String → Bytes → Except GoError Request
  /-- The call `client.Do(request)`. -/
  Do : Request → Except GoError Response
  /-- The call `json.Unmarshal(data, &v)`: the value of `v` afterwards and the returned error. -/
  Unmarshal : Bytes → OpenAIResponse → OpenAIResponse × Option GoError

/-- What `fmt.Println` is given: a string, or an error (printed as its `Error()` text). -/
inductive Line where
  | text (s : Bytes)
  | error (e : GoError)
  deriving DecidableEq, Repr

/-- The observable steps of one run of `main`, in program order. -/
inductive Event where
  /-- The call `json.Marshal` was made. -/
  | marshal (req : OpenAIRequest)
  /-- The call `http.NewRequest` was made. -/
  | newRequest
  /-- The call `client.Do` was made: the request was handed to the transport. -/
  | send (r : Request)
  /-- The call `ioutil.ReadAll(resp.Body)` was made. -/
  | readAll
  /-- The call `json.Unmarshal` was made on these bytes. -/
  | unmarshal (data : Bytes)
  /-- The call `fmt.Println` wrote one line to standard output. -/
  | println (l : Line)
  /-- The call `resp.Body.Close()` was made. -/
  | closeBody
  deriving DecidableEq, Repr

/-- How the process ends. -/
inductive Termination where
  /-- The call `os.Exit(code)`: the process ends at once, deferred calls are not run. -/
  | exit (code : Nat)
  /-- Function `main` returned: deferred calls run, exit status 0. -/
  | returned
  /-- A run-time panic reached the top of the goroutine: deferred calls run, the
  panic is reported on standard error, exit status 2. -/
  | panicked
  deriving DecidableEq, Repr

/-- The exit status of the process. -/
def Termination.status : Termination → Nat
  | .exit code => code
  | .returned => 0
  | .panicked => 2

/-- One run of `main`: its steps and how it ended. -/
structure Run where
  events : List Event
  termination : Termination
  deriving DecidableEq, Repr

/-- The lines written to standard output. -/
def Run.stdout (r : Run) : List Line :=
  r.events.filterMap fun e => match e with
    | .println l => some l
    | _ => none

/-- The requests handed to the transport. -/
def Run.requests (r : Run) : List Request :=
  r.events.filterMap fun e => match e with
    | .send q => some q
    | _ => none

/-- The call `os.Exit(code)` after the steps `trace`: pending deferred calls are dropped. -/
def osExit (trace : List Event) (code : Nat) : Run := ⟨trace, .exit code⟩

/-- Return from `main` after the steps `trace`, running the deferred calls. -/
def mainReturn (trace deferred : List Event) : Run := ⟨trace ++ deferred, .returned⟩

/-- A run-time panic after the steps `trace`: the deferred calls run while panicking. -/
def runtimePanic (trace deferred : List Event) : Run := ⟨trace ++ deferred, .panicked⟩

/-- The method `Header.Add(key, value)`; both keys used are already in canonical form. -/
def Request.headerAdd (r : Request) (key : String) (value : Bytes) : Request :=
  { r with header := r.header ++ [(key, value)] }

/-- Source: the literal assigned to `apiKey` (main.go line 26). -/
def apiKey : Bytes := ascii "SET_YOUR_API_KEY"

/-- Source: the URL literal (main.go line 53). -/
def completionsURL : String := "https://api.openai.com/v1/completions"

/-- Source: the request value built at main.go lines 38-42. -/
def payload (query : Bytes) : OpenAIRequest :=
  { Model := ascii "text-davinci-002", Prompt := query, MaxTokens := 4000 }

/-- Source: the two `request.Header.Add` calls (main.go lines 58-59). -/
def setHeaders (request : Request) : Request :=
  (request.headerAdd "Content-Type" (ascii "application/json")).headerAdd
    "Authorization" (ascii "Bearer " ++ apiKey)

/-- Source: `func main()` (main.go lines 24-84), with `os.Args` as `args`. -/
def main (lib : Lib) (args : List Bytes) : Run :=
  -- Check if a query was provided as an argument
  if args.length < 2 then
    osExit [.println (.text (ascii "No query was provided."))] 1
  else
    -- Set the query as a variable
    let query := args.getD 1 []
    -- Create a new OpenAI request
    let req := payload query
    -- Convert the request to JSON
    let t1 := [Event.marshal req]
    match lib.Marshal req with
    | .error err => osExit (t1 ++ [.println (.error err)]) 1
    | .ok reqBody =>
      -- Send the request and store the response in a variable
      let t2 := t1 ++ [.newRequest]
      match lib.NewRequest "POST" completionsURL reqBody with
      | .error err => osExit (t2 ++ [.println (.error err)]) 1
      | .ok request0 =>
        let request := setHeaders request0
        let t3 := t2 ++ [.send request]
        match lib.Do request with
        | .error err => osExit (t3 ++ [.println (.error err)]) 1
        | .ok resp =>
          -- defer resp.Body.Close()
          let deferred := [Event.closeBody]
          -- Read the response body
          let t4 := t3 ++ [.readAll]
          match resp.body with
          | .error err => osExit (t4 ++ [.println (.error err)]) 1
          | .ok respBody =>
            -- Unmarshal the response into an OpenAI response struct
            let t5 := t4 ++ [.unmarshal respBody]
            match lib.Unmarshal respBody ⟨[]⟩ with
            | (_, some err) => osExit (t5 ++ [.println (.error err)]) 1
            | (openAIResp, none) =>
              -- Print the text
              match openAIResp.Choices with
              | [] => runtimePanic t5 deferred
              | c :: _ => mainReturn (t5 ++ [.println (.text c.Text)]) deferred

/-! ## Package `unicode/utf8` -/

/-- Constant `utf8.RuneError`, the replacement character U+FFFD. -/
def RuneError : Nat := 0xFFFD

/-- Table `first` of package `utf8`: information about the first byte of an encoding.
`0xF0` is ASCII, `0xF1` is invalid; otherwise the low 3 bits are the size and the
high 4 bits index `acceptRanges`. -/
def first (b : Nat) : Nat :=
  if b < 0x80 then 0xF0
  else if b < 0xC2 then 0xF1
  else if b < 0xE0 then 0x02
  else if b = 0xE0 then 0x13
  else if b < 0xED then 0x03
  else if b = 0xED then 0x23
  else if b < 0xF0 then 0x03
  else if b = 0xF0 then 0x34
  else if b < 0xF4 then 0x04
  else if b = 0xF4 then 0x44
  else 0xF1

/-- Table `acceptRanges` of package `utf8`: the range of valid second bytes. -/
def acceptRanges (i : Nat) : Nat × Nat :=
  match i with
  | 0 => (0x80, 0xBF)
  | 1 => (0xA0, 0xBF)
  | 2 => (0x80, 0x9F)
  | 3 => (0x90, 0xBF)
  | 4 => (0x80, 0x8F)
  | _ => (0, 0)

/-- Function `utf8.DecodeRune`: the first rune of `p` and its width in bytes;
`(RuneError, 1)` for an invalid encoding, `(RuneError, 0)` for empty input.
Masks and shifts are written as `%` and `*` on byte values. -/
def decodeRune (p : Bytes) : Nat × Nat :=
  match p with
  | [] => (RuneError, 0)
  | p0 :: rest =>
    let x := first p0
    if x ≥ 0xF0 then
      (if x = 0xF1 then RuneError else p0, 1)
    else
      let sz := x % 8
      let accept := acceptRanges (x / 16)
      match rest with
      | [] => (RuneError, 1)
      | b1 :: rest1 =>
        if b1 < accept.1 ∨ accept.2 < b1 then (RuneError, 1)
        else if sz ≤ 2 then ((p0 % 32) * 64 + b1 % 64, 2)
        else
          match rest1 with
          | [] => (RuneError, 1)
          | b2 :: rest2 =>
            if b2 < 0x80 ∨ 0xBF < b2 then (RuneError, 1)
            else if sz ≤ 3 then ((p0 % 16) * 4096 + (b1 % 64) * 64 + b2 % 64, 3)
            else
              match rest2 with
              | [] => (RuneError, 1)
              | b3 :: _ =>
                if b3 < 0x80 ∨ 0xBF < b3 then (RuneError, 1)
                else ((p0 % 8) * 262144 + (b1 % 64) * 4096 + (b2 % 64) * 64 + b3 % 64, 4)

/-- Function `utf8.EncodeRune` (also `utf8.AppendRune`): the UTF-8 encoding of `r`;
surrogates and values above U+10FFFF are encoded as U+FFFD. -/
def encodeRune (r : Nat) : Bytes :=
  if r ≤ 0x7F then [r]
  else if r ≤ 0x7FF then [0xC0 + r / 64, 0x80 + r % 64]
  else if r > 0x10FFFF ∨ (0xD800 ≤ r ∧ r ≤ 0xDFFF) then [0xEF, 0xBF, 0xBD]
  else if r ≤ 0xFFFF then [0xE0 + r / 4096, 0x80 + (r / 64) % 64, 0x80 + r % 64]
  else [0xF0 + r / 262144, 0x80 + (r / 4096) % 64, 0x80 + (r / 64) % 64, 0x80 + r % 64]

/-- Function `utf8.Valid`, as a loop with a count of continuation bytes still to pass. -/
def validLoop : Nat → Bytes → Bool
  | _, [] => true
  | skip + 1, _ :: rest => validLoop skip rest
  | 0, b :: rest =>
    if b < 0x80 then validLoop 0 rest
    else
      let d := decodeRune (b :: rest)
      if d.1 = RuneError ∧ d.2 = 1 then false
      else validLoop (d.2 - 1) rest

/-- Function `utf8.Valid`: whether `p` consists entirely of valid UTF-8 encoded runes. -/
def utf8Valid (p : Bytes) : Bool := validLoop 0 p

/-! ## Package `encoding/json`: encoding -/

/-- Constant `hex` of package `json`. -/
def hexDigit (n : Nat) : Nat := (ascii "0123456789abcdef").getD n 0

/-- Table `htmlSafeSet`: the ASCII bytes the encoder copies unescaped when HTML
escaping is on (as it is in `json.Marshal`): all of `0x20..0x7F` except
the double quote, the ampersand, the angle brackets and the backslash. -/
def htmlSafe (b : Nat) : Bool :=
  decide (0x20 ≤ b ∧ b < 0x80 ∧ b ≠ 0x22 ∧ b ≠ 0x26 ∧ b ≠ 0x3C ∧ b ≠ 0x3E ∧ b ≠ 0x5C)

/-- The escape the encoder writes for an ASCII byte outside `htmlSafeSet`
(the `switch b` of `appendString`). -/
def escapeByte (b : Nat) : Bytes :=
  if b = 0x5C ∨ b = 0x22 then [0x5C, b]
  else if b = 0x08 then ascii "\\b"
  else if b = 0x0C then ascii "\\f"
  else if b = 0x0A then ascii "\\n"
  else if b = 0x0D then ascii "\\r"
  else if b = 0x09 then ascii "\\t"
  else ascii "\\u00" ++ [hexDigit (b / 16), hexDigit (b % 16)]

/-- The loop of `appendString` over the source bytes from index `i` on; `skip`
counts bytes of the current rune that the loop has already stepped over
(`i += size`). -/
def appendStringLoop : Nat → Bytes → Bytes
  | _, [] => []
  | skip + 1, _ :: rest => appendStringLoop skip rest
  | 0, b :: rest =>
    if b < 0x80 then
      if htmlSafe b then b :: appendStringLoop 0 rest
      else escapeByte b ++ appendStringLoop 0 rest
    else
      let d := decodeRune (b :: rest)
      if d.1 = RuneError ∧ d.2 = 1 then
        ascii "\\ufffd" ++ appendStringLoop 0 rest
      else if d.1 = 0x2028 ∨ d.1 = 0x2029 then
        ascii "\\u202" ++ [hexDigit (d.1 % 16)] ++ appendStringLoop (d.2 - 1) rest
      else
        (b :: rest).take d.2 ++ appendStringLoop (d.2 - 1) rest

/-- Function `appendString` of `encoding/json` with `escapeHTML = true`: the JSON
string literal for `src`, quotes included. -/
def appendString (src : Bytes) : Bytes :=
  [0x22] ++ appendStringLoop 0 src ++ [0x22]

/-- Function `strconv.AppendInt(dst, i, 10)`. -/
def formatInt (i : Int) : Bytes :=
  match i with
  | .ofNat n => (Nat.toDigits 10 n).map Char.toNat
  | .negSucc n => 0x2D :: (Nat.toDigits 10 (n + 1)).map Char.toNat

/-- The call `json.Marshal(req)` for `req *OpenAIRequest`: the struct encoder writes
the tagged field names in declaration order, without whitespace. It cannot fail
for this type. -/
def marshalRequest (r : OpenAIRequest) : Bytes :=
  ascii "\x7b\"model\":" ++ appendString r.Model ++
  ascii ",\"prompt\":" ++ appendString r.Prompt ++
  ascii ",\"max_tokens\":" ++ formatInt r.MaxTokens ++ ascii "\x7d"

/-! ## Package `encoding/json`: decoding -/

/-- A JSON value as the decoder sees it: a number keeps its literal, a string is
already unquoted, an object keeps its members in input order (duplicates included). -/
inductive JVal where
  | null
  | bool (b : Bool)
  | number (lit : Bytes)
  | string (s : Bytes)
  | array (vs : List JVal)
  | object (ms : List (Bytes × JVal))

/-- Function `getu4`: the value of the escape `\uXXXX` at the start of `s`, or `none`
(Go returns -1) when `s` does not start with one. -/
def getu4 (s : Bytes) : Option Nat :=
  match s with
  | 0x5C :: 0x75 :: a :: b :: c :: d :: _ =>
    let hexVal (c : Nat) : Option Nat :=
      if 0x30 ≤ c ∧ c ≤ 0x39 then some (c - 0x30)
      else if 0x61 ≤ c ∧ c ≤ 0x66 then some (c - 0x61 + 10)
      else if 0x41 ≤ c ∧ c ≤ 0x46 then some (c - 0x41 + 10)
      else none
    match hexVal a, hexVal b, hexVal c, hexVal d with
    | some x, some y, some z, some w => some (((x * 16 + y) * 16 + z) * 16 + w)
    | _, _, _, _ => none
  | _ => none

/-- Function `utf16.DecodeRune`: the code point of a surrogate pair, U+FFFD when
`(r1, r2)` is not a valid pair (`r2 = none` stands for Go's -1). -/
def utf16DecodeRune (r1 : Nat) (r2 : Option Nat) : Nat :=
  match r2 with
  | some r2 =>
    if 0xD800 ≤ r1 ∧ r1 < 0xDC00 ∧ 0xDC00 ≤ r2 ∧ r2 < 0xE000 then
      (r1 - 0xD800) * 1024 + (r2 - 0xDC00) + 0x10000
    else 0xFFFD
  | none => 0xFFFD

/-- The loop of `unquoteBytes` over the contents of a string literal (quotes
removed); `skip` counts bytes already consumed by the current escape or rune.
`none` is Go's `ok = false`. -/
def unquoteLoop : Nat → Bytes → Option Bytes
  | _, [] => some []
  | skip + 1, _ :: rest => unquoteLoop skip rest
  | 0, c :: rest =>
    if c = 0x5C then
      match rest with
      | [] => none
      | e :: _ =>
        if e = 0x22 ∨ e = 0x5C ∨ e = 0x2F ∨ e = 0x27 then (unquoteLoop 1 rest).map (e :: ·)
        else if e = 0x62 then (unquoteLoop 1 rest).map (0x08 :: ·)
        else if e = 0x66 then (unquoteLoop 1 rest).map (0x0C :: ·)
        else if e = 0x6E then (unquoteLoop 1 rest).map (0x0A :: ·)
        else if e = 0x72 then (unquoteLoop 1 rest).map (0x0D :: ·)
        else if e = 0x74 then (unquoteLoop 1 rest).map (0x09 :: ·)
        else if e = 0x75 then
          match getu4 (c :: rest) with
          | none => none
          | some rr =>
            if 0xD800 ≤ rr ∧ rr < 0xE000 then
              let dec := utf16DecodeRune rr (getu4 (rest.drop 5))
              if dec ≠ 0xFFFD then
                -- A valid pair; consume.
                (unquoteLoop 11 rest).map (encodeRune dec ++ ·)
              else
                -- Invalid surrogate; fall back to replacement rune.
                (unquoteLoop 5 rest).map (encodeRune 0xFFFD ++ ·)
            else (unquoteLoop 5 rest).map (encodeRune rr ++ ·)
        else none
    else if c = 0x22 ∨ c < 0x20 then none
    else if c < 0x80 then (unquoteLoop 0 rest).map (c :: ·)
    else
      -- Coerce to well-formed UTF-8.
      let d := decodeRune (c :: rest)
      (unquoteLoop (d.2 - 1) rest).map (encodeRune d.1 ++ ·)

/-- Function `unquoteBytes` applied to the contents of a string literal. -/
def unquote (s : Bytes) : Option Bytes := unquoteLoop 0 s

/-- The states of the scanner (the functions `stateXxx` of `scanner.go`). -/
inductive Step where
  | beginValueOrEmpty | beginValue | beginStringOrEmpty | beginString
  | endValue | endTop
  | inString | inStringEsc | inStringEscU | inStringEscU1 | inStringEscU12 | inStringEscU123
  | neg | one | zero | dot | dot0 | e | eSign | e0
  | t | tr | tru | f | fa | fal | fals | n | nu | nul
  | error
  deriving DecidableEq, Repr

/-- An entry of the scanner's `parseState` stack, together with what the decoder has
read of that composite value so far. -/
inductive Frame where
  /-- Go `parseObjectKey`: parsing an object key (before the colon). -/
  | objectKey (ms : List (Bytes × JVal)) (key : Option Bytes)
  /-- Go `parseObjectValue`: parsing an object value (after the colon). -/
  | objectValue (ms : List (Bytes × JVal)) (key : Bytes)
  /-- Go `parseArrayValue`: parsing an array value. -/
  | arrayValue (vs : List JVal)

/-- The scanner with the decoder's partial results. -/
structure Scanner where
  /-- The state function. -/
  step : Step
  /-- The stack of composite values being scanned, innermost first. -/
  parseState : List Frame
  /-- The bytes of the literal being scanned. -/
  tok : Bytes
  /-- The finished top-level value. -/
  top : Option JVal

/-- Constant `maxNestingDepth`. -/
def maxNestingDepth : Nat := 10000

/-- Function `isSpace`. -/
def isSpace (c : Nat) : Bool := c = 0x20 ∨ c = 0x09 ∨ c = 0x0D ∨ c = 0x0A

/-- Method `scanner.error`. -/
def Scanner.error (s : Scanner) : Scanner := { s with step := .error }

/-- A value has been read in full: hand it to the enclosing composite value. -/
def Scanner.complete (s : Scanner) (v : JVal) : Scanner :=
  match s.parseState with
  | [] => { s with top := some v, tok := [] }
  | .arrayValue vs :: fs => { s with parseState := .arrayValue (vs ++ [v]) :: fs, tok := [] }
  | .objectValue ms key :: fs =>
    { s with parseState := .objectValue (ms ++ [(key, v)]) key :: fs, tok := [] }
  | .objectKey ms key :: fs =>
    match v with
    | .string k => { s with parseState := .objectKey ms (some k) :: fs, tok := [] }
    | _ => { s with parseState := .objectKey ms key :: fs, tok := [] }

/-- Method `pushParseState`: enter a composite value; fails beyond `maxNestingDepth`. -/
def Scanner.pushParseState (s : Scanner) (f : Frame) (successState : Step) : Scanner :=
  if s.parseState.length + 1 ≤ maxNestingDepth then
    { s with parseState := f :: s.parseState, step := successState }
  else s.error

/-- Method `popParseState`, handing the finished composite value `v` on. -/
def Scanner.popParseState (s : Scanner) (v : JVal) : Scanner :=
  let fs := s.parseState.tail
  let s1 : Scanner := { s with parseState := fs }
  { s1.complete v with step := if fs.isEmpty then .endTop else .endValue }

/-- Function `stateEndTop`. -/
def stateEndTop (s : Scanner) (c : Nat) : Scanner :=
  if !isSpace c then s.error else s

/-- Function `stateEndValue`. -/
def stateEndValue (s : Scanner) (c : Nat) : Scanner :=
  match s.parseState with
  | [] => stateEndTop { s with step := .endTop } c
  | f :: fs =>
    if isSpace c then { s with step := .endValue }
    else
      match f with
      | .objectKey ms key =>
        if c = 0x3A then
          { s with parseState := .objectValue ms (key.getD []) :: fs, step := .beginValue }
        else s.error
      | .objectValue ms _ =>
        if c = 0x2C then
          { s with parseState := .objectKey ms none :: fs, step := .beginString }
        else if c = 0x7D then s.popParseState (.object ms)
        else s.error
      | .arrayValue vs =>
        if c = 0x2C then { s with step := .beginValue }
        else if c = 0x5D then s.popParseState (.array vs)
        else s.error

/-- Function `stateBeginValue`. -/
def stateBeginValue (s : Scanner) (c : Nat) : Scanner :=
  if isSpace c then s
  else if c = 0x7B then s.pushParseState (.objectKey [] none) .beginStringOrEmpty
  else if c = 0x5B then s.pushParseState (.arrayValue []) .beginValueOrEmpty
  else if c = 0x22 then { s with step := .inString, tok := [] }
  else if c = 0x2D then { s with step := .neg, tok := [c] }
  else if c = 0x30 then { s with step := .zero, tok := [c] }
  else if c = 0x74 then { s with step := .t }
  else if c = 0x66 then { s with step := .f }
  else if c = 0x6E then { s with step := .n }
  else if 0x31 ≤ c ∧ c ≤ 0x39 then { s with step := .one, tok := [c] }
  else s.error

/-- Function `stateBeginValueOrEmpty`. -/
def stateBeginValueOrEmpty (s : Scanner) (c : Nat) : Scanner :=
  if isSpace c then s
  else if c = 0x5D then stateEndValue s c
  else stateBeginValue s c

/-- Function `stateBeginString`. -/
def stateBeginString (s : Scanner) (c : Nat) : Scanner :=
  if isSpace c then s
  else if c = 0x22 then { s with step := .inString, tok := [] }
  else s.error

/-- Function `stateBeginStringOrEmpty`. -/
def stateBeginStringOrEmpty (s : Scanner) (c : Nat) : Scanner :=
  if isSpace c then s
  else if c = 0x7D then
    match s.parseState with
    | .objectKey ms _ :: fs => stateEndValue { s with parseState := .objectValue ms [] :: fs } c
    | _ => stateEndValue s c
  else stateBeginString s c

/-- Function `stateInString`; at the closing quote the literal is unquoted. -/
def stateInString (s : Scanner) (c : Nat) : Scanner :=
  if c = 0x22 then
    match unquote s.tok with
    | some str => { s.complete (.string str) with step := .endValue }
    | none => s.error
  else if c = 0x5C then { s with step := .inStringEsc, tok := s.tok ++ [c] }
  else if c < 0x20 then s.error
  else { s with tok := s.tok ++ [c] }

/-- Function `stateInStringEsc`. -/
def stateInStringEsc (s : Scanner) (c : Nat) : Scanner :=
  if c = 0x62 ∨ c = 0x66 ∨ c = 0x6E ∨ c = 0x72 ∨ c = 0x74 ∨ c = 0x5C ∨ c = 0x2F ∨ c = 0x22 then
    { s with step := .inString, tok := s.tok ++ [c] }
  else if c = 0x75 then { s with step := .inStringEscU, tok := s.tok ++ [c] }
  else s.error

/-- The hexadecimal digit test of `stateInStringEscU` to `stateInStringEscU123`. -/
def isHex (c : Nat) : Bool :=
  (0x30 ≤ c ∧ c ≤ 0x39) ∨ (0x61 ≤ c ∧ c ≤ 0x66) ∨ (0x41 ≤ c ∧ c ≤ 0x46)

/-- Functions `stateInStringEscU`, `...U1`, `...U12`, `...U123`, going on to `next`. -/
def stateInStringEscHex (next : Step) (s : Scanner) (c : Nat) : Scanner :=
  if isHex c then { s with step := next, tok := s.tok ++ [c] } else s.error

/-- The digit test of the number states. -/
def isDigit (c : Nat) : Bool := 0x30 ≤ c ∧ c ≤ 0x39

/-- The number literal has ended at `c`: hand it on and go on with `stateEndValue`. -/
def endNumber (s : Scanner) (c : Nat) : Scanner :=
  stateEndValue (s.complete (.number s.tok)) c

/-- Function `stateNeg`. -/
def stateNeg (s : Scanner) (c : Nat) : Scanner :=
  if c = 0x30 then { s with step := .zero, tok := s.tok ++ [c] }
  else if 0x31 ≤ c ∧ c ≤ 0x39 then { s with step := .one, tok := s.tok ++ [c] }
  else s.error

/-- Function `state0`. -/
def state0 (s : Scanner) (c : Nat) : Scanner :=
  if c = 0x2E then { s with step := .dot, tok := s.tok ++ [c] }
  else if c = 0x65 ∨ c = 0x45 then { s with step := .e, tok := s.tok ++ [c] }
  else endNumber s c

/-- Function `state1`. -/
def state1 (s : Scanner) (c : Nat) : Scanner :=
  if isDigit c then { s with step := .one, tok := s.tok ++ [c] }
  else state0 s c

/-- Function `stateDot`. -/
def stateDot (s : Scanner) (c : Nat) : Scanner :=
  if isDigit c then { s with step := .dot0, tok := s.tok ++ [c] } else s.error

/-- Function `stateDot0`. -/
def stateDot0 (s : Scanner) (c : Nat) : Scanner :=
  if isDigit c then { s with tok := s.tok ++ [c] }
  else if c = 0x65 ∨ c = 0x45 then { s with step := .e, tok := s.tok ++ [c] }
  else endNumber s c

/-- Function `stateESign`. -/
def stateESign (s : Scanner) (c : Nat) : Scanner :=
  if isDigit c then { s with step := .e0, tok := s.tok ++ [c] } else s.error

/-- Function `stateE`. -/
def stateE (s : Scanner) (c : Nat) : Scanner :=
  if c = 0x2B ∨ c = 0x2D then { s with step := .eSign, tok := s.tok ++ [c] }
  else stateESign s c

/-- Function `stateE0`. -/
def stateE0 (s : Scanner) (c : Nat) : Scanner :=
  if isDigit c then { s with tok := s.tok ++ [c] } else endNumber s c

/-- The states inside `true`, `false` and `null`: the byte `want` leads to `next`. -/
def stateLetter (want : Nat) (next : Step) (s : Scanner) (c : Nat) : Scanner :=
  if c = want then { s with step := next } else s.error

/-- The last letter of `true`, `false` or `null`: the literal `v` has been read. -/
def stateLastLetter (want : Nat) (v : JVal) (s : Scanner) (c : Nat) : Scanner :=
  if c = want then { s.complete v with step := .endValue } else s.error

/-- One call `s.step(s, c)`. -/
def Scanner.next (s : Scanner) (c : Nat) : Scanner :=
  match s.step with
  | .beginValueOrEmpty => stateBeginValueOrEmpty s c
  | .beginValue => stateBeginValue s c
  | .beginStringOrEmpty => stateBeginStringOrEmpty s c
  | .beginString => stateBeginString s c
  | .endValue => stateEndValue s c
  | .endTop => stateEndTop s c
  | .inString => stateInString s c
  | .inStringEsc => stateInStringEsc s c
  | .inStringEscU => stateInStringEscHex .inStringEscU1 s c
  | .inStringEscU1 => stateInStringEscHex .inStringEscU12 s c
  | .inStringEscU12 => stateInStringEscHex .inStringEscU123 s c
  | .inStringEscU123 => stateInStringEscHex .inString s c
  | .neg => stateNeg s c
  | .one => state1 s c
  | .zero => state0 s c
  | .dot => stateDot s c
  | .dot0 => stateDot0 s c
  | .e => stateE s c
  | .eSign => stateESign s c
  | .e0 => stateE0 s c
  | .t => stateLetter 0x72 .tr s c
  | .tr => stateLetter 0x75 .tru s c
  | .tru => stateLastLetter 0x65 (.bool true) s c
  | .f => stateLetter 0x61 .fa s c
  | .fa => stateLetter 0x6C .fal s c
  | .fal => stateLetter 0x73 .fals s c
  | .fals => stateLastLetter 0x65 (.bool false) s c
  | .n => stateLetter 0x75 .nu s c
  | .nu => stateLetter 0x6C .nul s c
  | .nul => stateLastLetter 0x6C .null s c
  | .error => s

/-- Method `scanner.reset`. -/
def Scanner.reset : Scanner := ⟨.beginValue, [], [], none⟩

/-- Method `scanner.eof`: the top-level value if the input may end here. -/
def Scanner.eof (s : Scanner) : Option JVal :=
  if s.step = .error then none
  else if s.step = .endTop then s.top
  else
    let s1 := s.next 0x20
    if s1.step = .endTop then s1.top else none

/-- Function `checkValid` run over `data`, with the value the decoder then reads:
`none` is a `*SyntaxError`. -/
def scan (data : Bytes) : Option JVal := (data.foldl Scanner.next Scanner.reset).eof

/-- Function `appendFoldedName`: ASCII letters are put in upper case, every other
rune is replaced by `foldRune` of it. `foldRune` (the smallest rune of the
simple-fold orbit, computed from the tables of package `unicode`) is a parameter. -/
def appendFoldedName (foldRune : Nat → Nat) : Nat → Bytes → Bytes
  | _, [] => []
  | skip + 1, _ :: rest => appendFoldedName foldRune skip rest
  | 0, c :: rest =>
    if c < 0x80 then
      (if 0x61 ≤ c ∧ c ≤ 0x7A then c - 0x20 else c) :: appendFoldedName foldRune 0 rest
    else
      let d := decodeRune (c :: rest)
      encodeRune (foldRune d.1) ++ appendFoldedName foldRune (d.2 - 1) rest

/-- Function `foldName`. -/
def foldName (foldRune : Nat → Nat) (name : Bytes) : Bytes := appendFoldedName foldRune 0 name

/-- The field an object key selects in `d.object`: the index of the field with exactly
that name (`byExactName`), else of the first one with the same folded name
(`byFoldedName`), else none (the member is skipped). -/
def lookupField (foldRune : Nat → Nat) (names : List Bytes) (key : Bytes) : Option Nat :=
  match names.indexOf? key with
  | some i => some i
  | none => (names.map (foldName foldRune)).indexOf? (foldName foldRune key)

/-- Method `saveError`: the first error is kept. -/
def saveError (saved err : Option GoError) : Option GoError :=
  match saved with
  | some e => some e
  | none => err

/-- A `*json.UnmarshalTypeError` for a JSON value of the kind `value`. -/
def typeError (value : String) : Option GoError := some (.unmarshalTypeError (ascii value))

/-- Decoding the JSON value `v` into a Go `string` that holds `cur`. -/
def decodeString (v : JVal) (cur : Bytes) : Bytes × Option GoError :=
  match v with
  | .null => (cur, none)
  | .string s => (s, none)
  | .bool _ => (cur, typeError "bool")
  | .number _ => (cur, typeError "number")
  | .array _ => (cur, typeError "array")
  | .object _ => (cur, typeError "object")

/-- The digits of `strconv.ParseUint(s, 10, 64)`, most significant first, added to `acc`. -/
def parseDigits (acc : Nat) : Bytes → Option Nat
  | [] => some acc
  | c :: rest => if isDigit c then parseDigits (acc * 10 + (c - 0x30)) rest else none

/-- Function `strconv.ParseUint(s, 10, 64)`. -/
def parseUint (s : Bytes) : Option Nat :=
  match s with
  | [] => none
  | _ => (parseDigits 0 s).bind fun n => if n < 2 ^ 64 then some n else none

/-- Function `strconv.ParseInt(s, 10, 64)`. -/
def parseInt (s : Bytes) : Option Int :=
  match s with
  | [] => none
  | 0x2B :: rest => (parseUint rest).bind fun n => if n < 2 ^ 63 then some (n : Int) else none
  | 0x2D :: rest => (parseUint rest).bind fun n => if n ≤ 2 ^ 63 then some (-(n : Int)) else none
  | _ => (parseUint s).bind fun n => if n < 2 ^ 63 then some (n : Int) else none

/-- Decoding the JSON value `v` into a Go `int` (64 bits) that holds `cur`. -/
def decodeInt (v : JVal) (cur : Int) : Int × Option GoError :=
  match v with
  | .null => (cur, none)
  | .number lit =>
    match parseInt lit with
    | some n => (n, none)
    | none => (cur, some (.unmarshalTypeError (ascii "number " ++ lit)))
  | .string _ => (cur, typeError "string")
  | .bool _ => (cur, typeError "bool")
  | .array _ => (cur, typeError "array")
  | .object _ => (cur, typeError "object")

/-- The members of a JSON object decoded one after the other into a value of type `α`
(`d.object` for a struct), `store` decoding one member. -/
def decodeMembers {α : Type} (store : Bytes → JVal → α → α × Option GoError)
    (ms : List (Bytes × JVal)) (cur : α) : α × Option GoError :=
  ms.foldl (fun acc m => let r := store m.1 m.2 acc.1; (r.1, saveError acc.2 r.2)) (cur, none)

/-- Decoding the JSON value `v` into a Go struct that holds `cur` (`d.value`): an
object is decoded member by member, `null` leaves the struct alone, anything
else is a type error. -/
def decodeStruct {α : Type} (store : Bytes → JVal → α → α × Option GoError)
    (v : JVal) (cur : α) : α × Option GoError :=
  match v with
  | .object ms => decodeMembers store ms cur
  | .null => (cur, none)
  | .array _ => (cur, typeError "array")
  | .string _ => (cur, typeError "string")
  | .number _ => (cur, typeError "number")
  | .bool _ => (cur, typeError "bool")

/-- One member of an element of `Choices`: the key selects the field `text` or nothing. -/
def storeChoiceField (foldRune : Nat → Nat) (key : Bytes) (v : JVal) (cur : Choice) :
    Choice × Option GoError :=
  match lookupField foldRune [ascii "text"] key with
  | some _ => let r := decodeString v cur.Text; (⟨r.1⟩, r.2)
  | none => (cur, none)

/-- Decoding into one element of `Choices`. -/
def decodeChoice (foldRune : Nat → Nat) (v : JVal) (cur : Choice) : Choice × Option GoError :=
  decodeStruct (storeChoiceField foldRune) v cur

/-- The slice `Choices` while decoding: its elements, and what its backing array holds
beyond its length (elements of an earlier, longer value), which `d.array` reuses. -/
structure ChoiceSlice where
  elems : List Choice
  spare : List Choice

/-- The loop of `d.array` from index `i` on: `mem` is the backing array from `i` on; the
element `i` is decoded into what `mem` holds there, or into a zero element beyond it.
Returns the decoded elements, the backing array beyond them, and the error. -/
def decodeElems (foldRune : Nat → Nat) : List JVal → List Choice →
    List Choice × List Choice × Option GoError
  | [], mem => ([], mem, none)
  | v :: vs, mem =>
    let r := decodeChoice foldRune v (mem.headD ⟨[]⟩)
    let rs := decodeElems foldRune vs mem.tail
    (r.1 :: rs.1, rs.2.1, saveError r.2 rs.2.2)

/-- Decoding the JSON value `v` into the slice `Choices` (`d.array`, `d.literalStore`). -/
def decodeChoices (foldRune : Nat → Nat) (v : JVal) (cur : ChoiceSlice) :
    ChoiceSlice × Option GoError :=
  match v with
  | .array [] => (⟨[], []⟩, none)
  | .array vs =>
    let r := decodeElems foldRune vs (cur.elems ++ cur.spare)
    (⟨r.1, r.2.1⟩, r.2.2)
  | .null => (⟨[], []⟩, none)
  | .object _ => (cur, typeError "object")
  | .string _ => (cur, typeError "string")
  | .number _ => (cur, typeError "number")
  | .bool _ => (cur, typeError "bool")

/-- One member of the response object: the key selects the field `choices` or nothing. -/
def storeResponseField (foldRune : Nat → Nat) (key : Bytes) (v : JVal) (cur : ChoiceSlice) :
    ChoiceSlice × Option GoError :=
  match lookupField foldRune [ascii "choices"] key with
  | some _ => decodeChoices foldRune v cur
  | none => (cur, none)

/-- Decoding the JSON value `v` into an `OpenAIResponse` that holds `cur`. -/
def decodeResponse (foldRune : Nat → Nat) (v : JVal) (cur : OpenAIResponse) :
    OpenAIResponse × Option GoError :=
  let r := decodeStruct (storeResponseField foldRune) v ⟨cur.Choices, []⟩
  (⟨r.1.elems⟩, r.2)

/-- The call `json.Unmarshal(data, &v)` for `v` of type `OpenAIResponse` holding `cur`:
a syntax error if `checkValid` fails (and `v` is untouched), else the value is
decoded into `v` and the first saved error is returned. -/
def Unmarshal (foldRune : Nat → Nat) (data : Bytes) (cur : OpenAIResponse) :
    OpenAIResponse × Option GoError :=
  match scan data with
  | none => (cur, some .syntaxError)
  | some v => decodeResponse foldRune v cur

/-- One member of the request object: the key selects `model`, `prompt`, `max_tokens`
or nothing. -/
def storeRequestField (foldRune : Nat → Nat) (key : Bytes) (v : JVal) (cur : OpenAIRequest) :
    OpenAIRequest × Option GoError :=
  match lookupField foldRune [ascii "model", ascii "prompt", ascii "max_tokens"] key with
  | some 0 => let r := decodeString v cur.Model; ({ cur with Model := r.1 }, r.2)
  | some 1 => let r := decodeString v cur.Prompt; ({ cur with Prompt := r.1 }, r.2)
  | some _ => let r := decodeInt v cur.MaxTokens; ({ cur with MaxTokens := r.1 }, r.2)
  | none => (cur, none)

/-- The call `json.Unmarshal(data, &v)` for `v` of type `OpenAIRequest` holding `cur`. -/
def UnmarshalRequest (foldRune : Nat → Nat) (data : Bytes) (cur : OpenAIRequest) :
    OpenAIRequest × Option GoError :=
  match scan data with
  | none => (cur, some .syntaxError)
  | some v => decodeStruct (storeRequestField foldRune) v cur

/-- The simple-fold orbits that reach an ASCII letter: U+017F (long s) folds to `S` and
U+212A (Kelvin sign) to `K`; used where a concrete table is needed. -/
def foldRuneKS (r : Nat) : Nat :=
  if r = 0x17F then 0x53 else if r = 0x212A then 0x4B else r

/-- The Go standard library as `main` uses it, over a transport `transport` (what
`client.Do` does with a request) and the fold table `foldRune`. `json.Marshal`
cannot fail on an `OpenAIRequest`; `http.NewRequest` is given only for a valid
method and URL, as the literals of `main` are, where it returns the request
with no header set. -/
def goLib (foldRune : Nat → Nat) (transport : Request → Except GoError Response) : Lib where
  Marshal := fun r => .ok (marshalRequest r)
  NewRequest := fun method url body => .ok ⟨method, url, [], body⟩
  Do := transport
  Unmarshal := Unmarshal foldRune

/-- A transport that answers every request with the status `status` and a body stream
that reads as `body`. -/
def replyWith (status : Nat) (body : Except GoError Bytes) : Request → Except GoError Response :=
  fun _ => .ok ⟨status, body⟩

/-- A transport on which every request fails with the error `err`. -/
def failWith (err : GoError) : Request → Except GoError Response :=
  fun _ => .error err

/-! ## Notions used in the proofs -/

/-- The bytes `chunk` are a valid multi-byte UTF-8 encoding of the rune `r` at the head of
`b :: rest`: `decodeRune` reads `r` from them and `encodeRune r` writes them. -/
def RuneAt (b : Nat) (rest : Bytes) (chunk : Bytes) (r : Nat) : Prop :=
  (∃ tl, b :: rest = chunk ++ tl) ∧ 2 ≤ chunk.length ∧ (∀ c ∈ chunk, 0x80 ≤ c) ∧
  encodeRune r = chunk ∧ (∀ ys, decodeRune (chunk ++ ys) = (r, chunk.length)) ∧
  (r = 0x2028 → chunk = [0xE2, 0x80, 0xA8]) ∧ (r = 0x2029 → chunk = [0xE2, 0x80, 0xA9]) ∧
  0x80 ≤ r

/-! ## The JSON grammar (RFC 8259), over bytes

The grammar is written the way a reader going left to right meets it: the elements of an
array and the members of an object are described up to the value that is expected next.
Whether the bytes inside a string literal are valid UTF-8 is not part of the grammar. -/

/-- Insignificant whitespace: spaces, tabs, line feeds and carriage returns. -/
def IsWs (w : Bytes) : Prop := ∀ c ∈ w, isSpace c = true

/-- A run of decimal digits. -/
def IsDigits (ds : Bytes) : Prop := ∀ c ∈ ds, isDigit c = true

/-- The characters of a string literal, between the quotes: bytes from `0x20` on other than
the quote and the backslash, two-character escapes, and `\u` with four hex digits. -/
inductive IsChars : Bytes → Prop where
  | nil : IsChars []
  | plain (cs : Bytes) (c : Nat) : IsChars cs → 0x20 ≤ c → c ≠ 0x22 → c ≠ 0x5C →
      IsChars (cs ++ [c])
  | escape (cs : Bytes) (e : Nat) : IsChars cs →
      (e = 0x22 ∨ e = 0x5C ∨ e = 0x2F ∨ e = 0x62 ∨ e = 0x66 ∨ e = 0x6E ∨ e = 0x72 ∨ e = 0x74) →
      IsChars (cs ++ [0x5C, e])
  | unicode (cs : Bytes) (a b c d : Nat) : IsChars cs →
      isHex a = true → isHex b = true → isHex c = true → isHex d = true →
      IsChars (cs ++ [0x5C, 0x75, a, b, c, d])

/-- A string literal: `"` chars `"`. -/
def IsString (s : Bytes) : Prop := ∃ cs, s = 0x22 :: (cs ++ [0x22]) ∧ IsChars cs

/-- The integer part of a number: `0`, or a digit from 1 to 9 followed by digits. -/
def IsInt (i : Bytes) : Prop :=
  i = [0x30] ∨ ∃ d ds, i = d :: ds ∧ 0x31 ≤ d ∧ d ≤ 0x39 ∧ IsDigits ds

/-- The optional fraction of a number: `.` and at least one digit. -/
def IsFrac (f : Bytes) : Prop :=
  f = [] ∨ ∃ ds, f = 0x2E :: ds ∧ ds ≠ [] ∧ IsDigits ds

/-- The optional exponent of a number: `e` or `E`, an optional sign, at least one digit. -/
def IsExp (x : Bytes) : Prop :=
  x = [] ∨ ∃ e sg ds, x = e :: (sg ++ ds) ∧ (e = 0x65 ∨ e = 0x45) ∧
    (sg = [] ∨ sg = [0x2B] ∨ sg = [0x2D]) ∧ ds ≠ [] ∧ IsDigits ds

/-- A number: optional minus, integer part, optional fraction, optional exponent. -/
def IsNumber (n : Bytes) : Prop :=
  ∃ sg i f x, n = sg ++ i ++ f ++ x ∧ (sg = [] ∨ sg = [0x2D]) ∧ IsInt i ∧ IsFrac f ∧ IsExp x

mutual
/-- A JSON value. -/
inductive IsValue : Bytes → Prop where
  | null : IsValue [0x6E, 0x75, 0x6C, 0x6C]
  | true : IsValue [0x74, 0x72, 0x75, 0x65]
  | false : IsValue [0x66, 0x61, 0x6C, 0x73, 0x65]
  | number (n : Bytes) : IsNumber n → IsValue n
  | string (s : Bytes) : IsString s → IsValue s
  | emptyArray (w : Bytes) : IsWs w → IsValue (0x5B :: (w ++ [0x5D]))
  | array (body v w : Bytes) : IsElements body → IsValue v → IsWs w →
      IsValue (0x5B :: (body ++ v ++ w ++ [0x5D]))
  | emptyObject (w : Bytes) : IsWs w → IsValue (0x7B :: (w ++ [0x7D]))
  | object (body v w : Bytes) : IsMembers body → IsValue v → IsWs w →
      IsValue (0x7B :: (body ++ v ++ w ++ [0x7D]))
/-- What stands in an array between `[` and the element expected next:
whitespace, then any number of `value ws , ws`. -/
inductive IsElements : Bytes → Prop where
  | ws (w : Bytes) : IsWs w → IsElements w
  | more (body v w1 w2 : Bytes) : IsElements body → IsValue v → IsWs w1 → IsWs w2 →
      IsElements (body ++ v ++ w1 ++ 0x2C :: w2)
/-- What stands in an object between `{` and the member value expected next:
any number of `ws string ws : ws value ws ,`, then `ws string ws : ws`. -/
inductive IsMembers : Bytes → Prop where
  | first (w1 k w2 w3 : Bytes) : IsWs w1 → IsString k → IsWs w2 → IsWs w3 →
      IsMembers (w1 ++ k ++ w2 ++ 0x3A :: w3)
  | more (body v w1 w2 k w3 w4 : Bytes) : IsMembers body → IsValue v → IsWs w1 → IsWs w2 →
      IsString k → IsWs w3 → IsWs w4 →
      IsMembers (body ++ v ++ w1 ++ 0x2C :: w2 ++ k ++ w3 ++ 0x3A :: w4)
end

/-- A JSON text: one value with whitespace around it. -/
def IsJSON (p : Bytes) : Prop :=
  ∃ w1 v w2, p = w1 ++ v ++ w2 ∧ IsWs w1 ∧ IsValue v ∧ IsWs w2

/-- A JSON text in the strict sense of RFC 8259, section 8.1 included: a text of the
grammar whose bytes are valid UTF-8. -/
def IsStrictJSON (p : Bytes) : Prop := IsJSON p ∧ utf8Valid p = true

/-! ## The JSON grammar with the value a text denotes

The same grammar, rule for rule, with two attributes: the value the text denotes (numbers
keep their literal, string literals are unquoted, members and elements keep their order)
and a bound on how deep arrays and objects are nested in it. -/

mutual
/-- The text `t` is a JSON value that denotes `v`, with arrays and objects nested at most
`d` deep (a scalar is nested 0 deep, an array or object one deeper than its parts). -/
inductive Reads : Nat → Bytes → JVal → Prop where
  | null (d : Nat) : Reads d [0x6E, 0x75, 0x6C, 0x6C] .null
  | true (d : Nat) : Reads d [0x74, 0x72, 0x75, 0x65] (.bool Bool.true)
  | false (d : Nat) : Reads d [0x66, 0x61, 0x6C, 0x73, 0x65] (.bool Bool.false)
  | number (d : Nat) (n : Bytes) : IsNumber n → Reads d n (.number n)
  | string (d : Nat) (cs : Bytes) : IsChars cs →
      Reads d (0x22 :: (cs ++ [0x22])) (.string ((unquote cs).getD []))
  | emptyArray (d : Nat) (w : Bytes) : IsWs w → Reads (d + 1) (0x5B :: (w ++ [0x5D])) (.array [])
  | array (d : Nat) (body v w : Bytes) (vs : List JVal) (jv : JVal) :
      ReadsElements d body vs → Reads d v jv → IsWs w →
      Reads (d + 1) (0x5B :: (body ++ v ++ w ++ [0x5D])) (.array (vs ++ [jv]))
  | emptyObject (d : Nat) (w : Bytes) : IsWs w →
      Reads (d + 1) (0x7B :: (w ++ [0x7D])) (.object [])
  | object (d : Nat) (body v w : Bytes) (ms : List (Bytes × JVal)) (k : Bytes) (jv : JVal) :
      ReadsMembers d body ms k → Reads d v jv → IsWs w →
      Reads (d + 1) (0x7B :: (body ++ v ++ w ++ [0x7D])) (.object (ms ++ [(k, jv)]))
/-- The text `body` stands in an array between `[` and the element expected next, and
the elements in it denote `vs`. -/
inductive ReadsElements : Nat → Bytes → List JVal → Prop where
  | ws (d : Nat) (w : Bytes) : IsWs w → ReadsElements d w []
  | more (d : Nat) (body v w1 w2 : Bytes) (vs : List JVal) (jv : JVal) :
      ReadsElements d body vs → Reads d v jv → IsWs w1 → IsWs w2 →
      ReadsElements d (body ++ v ++ w1 ++ 0x2C :: w2) (vs ++ [jv])
/-- The text `body` stands in an object between `{` and the member value expected next;
the members complete in it denote `ms`, and `k` is the key of the member whose value is
expected. -/
inductive ReadsMembers : Nat → Bytes → List (Bytes × JVal) → Bytes → Prop where
  | first (d : Nat) (w1 cs w2 w3 : Bytes) : IsWs w1 → IsChars cs → IsWs w2 → IsWs w3 →
      ReadsMembers d (w1 ++ 0x22 :: (cs ++ [0x22]) ++ w2 ++ 0x3A :: w3) []
        ((unquote cs).getD [])
  | more (d : Nat) (body v w1 w2 cs w3 w4 : Bytes) (ms : List (Bytes × JVal)) (k : Bytes)
      (jv : JVal) :
      ReadsMembers d body ms k → Reads d v jv → IsWs w1 → IsWs w2 → IsChars cs → IsWs w3 →
      IsWs w4 →
      ReadsMembers d (body ++ v ++ w1 ++ 0x2C :: w2 ++ 0x22 :: (cs ++ [0x22]) ++ w3 ++ 0x3A :: w4)
        (ms ++ [(k, jv)]) ((unquote cs).getD [])
end

/-- The text `p` is a JSON text that denotes `v`, nested at most `d` deep: one value with
whitespace around it. -/
def ReadsText (d : Nat) (p : Bytes) (v : JVal) : Prop :=
  ∃ w1 t w2, p = w1 ++ t ++ w2 ∧ IsWs w1 ∧ Reads d t v ∧ IsWs w2

/-- The state of the scanner once the value `jv` has been read and handed on, the stack
being `fs` before. -/
def post (fs : List Frame) (top : Option JVal) (jv : JVal) : Scanner :=
  Scanner.complete ⟨.endValue, fs, [], top⟩ jv

/-- The byte `c` can follow a value: whitespace, a comma, a closing bracket or brace. -/
def isDelim (c : Nat) : Bool := isSpace c ∨ c = 0x2C ∨ c = 0x5D ∨ c = 0x7D

/-! ## What the scanner has read so far

The scanner's state after reading the bytes `p` is described in terms of the grammar:
the stack of open arrays and objects says how `p` is cut into the text before the value
expected next, and the state function says how far into a literal the scanner is. The
values the decoder has collected play no part in it. -/

/-- The kind of an entry of `parseState`. -/
inductive Kind where
  /-- Go `parseObjectKey`. -/
  | key
  /-- Go `parseObjectValue`. -/
  | member
  /-- Go `parseArrayValue`. -/
  | element
  deriving DecidableEq

/-- The kind of a stack entry. -/
def Frame.kind : Frame → Kind
  | .objectKey _ _ => .key
  | .objectValue _ _ => .member
  | .arrayValue _ => .element

/-- The kinds of the entries of a stack, innermost first. -/
def shape (fs : List Frame) : List Kind := fs.map Frame.kind

/-- The innermost open composite value, if any, expects a value (not an object key). -/
def ValTop : List Kind → Prop
  | .key :: _ => False
  | _ => True

/-- What stands in an object between the opening brace and the key expected next:
whitespace, or members, a value, whitespace, a comma and whitespace. -/
def IsKeyCtx (pre : Bytes) : Prop :=
  IsWs pre ∨ ∃ body v w1 w2, pre = body ++ v ++ w1 ++ 0x2C :: w2 ∧
    IsMembers body ∧ IsValue v ∧ IsWs w1 ∧ IsWs w2

/-- The text `p` read so far ends where the next value (or key) of the innermost open
composite value is expected, the open composite values being of the kinds `ks`. -/
def Ctx : List Kind → Bytes → Prop
  | [], p => IsWs p
  | .element :: ks, p =>
    ∃ p0 body, p = p0 ++ 0x5B :: body ∧ Ctx ks p0 ∧ ValTop ks ∧ IsElements body
  | .member :: ks, p =>
    ∃ p0 body, p = p0 ++ 0x7B :: body ∧ Ctx ks p0 ∧ ValTop ks ∧ IsMembers body
  | .key :: ks, p =>
    ∃ p0 pre, p = p0 ++ 0x7B :: pre ∧ Ctx ks p0 ∧ ValTop ks ∧ IsKeyCtx pre

/-- The text `p` read so far ends after a value of the innermost open composite value
(a string where a key stands) and whitespace. -/
def After (ks : List Kind) (p : Bytes) : Prop :=
  ∃ q v w, p = q ++ v ++ w ∧ Ctx ks q ∧ IsValue v ∧ IsWs w ∧ (¬ ValTop ks → IsString v)

/-- An optional minus sign. -/
def IsSign (sg : Bytes) : Prop := sg = [] ∨ sg = [0x2D]

/-- The bytes `t` of a literal read so far when the scanner is in the state `st`. -/
def InToken (st : Step) (t : Bytes) : Prop :=
  match st with
  | .inString => ∃ cs, t = 0x22 :: cs ∧ IsChars cs
  | .inStringEsc => ∃ cs, t = 0x22 :: (cs ++ [0x5C]) ∧ IsChars cs
  | .inStringEscU => ∃ cs, t = 0x22 :: (cs ++ [0x5C, 0x75]) ∧ IsChars cs
  | .inStringEscU1 => ∃ cs a, t = 0x22 :: (cs ++ [0x5C, 0x75, a]) ∧ IsChars cs ∧ isHex a = true
  | .inStringEscU12 => ∃ cs a b, t = 0x22 :: (cs ++ [0x5C, 0x75, a, b]) ∧ IsChars cs ∧
      isHex a = true ∧ isHex b = true
  | .inStringEscU123 => ∃ cs a b c, t = 0x22 :: (cs ++ [0x5C, 0x75, a, b, c]) ∧ IsChars cs ∧
      isHex a = true ∧ isHex b = true ∧ isHex c = true
  | .neg => t = [0x2D]
  | .zero => ∃ sg, t = sg ++ [0x30] ∧ IsSign sg
  | .one => ∃ sg d ds, t = sg ++ d :: ds ∧ IsSign sg ∧ 0x31 ≤ d ∧ d ≤ 0x39 ∧ IsDigits ds
  | .dot => ∃ sg i, t = sg ++ i ++ [0x2E] ∧ IsSign sg ∧ IsInt i
  | .dot0 => ∃ sg i ds, t = sg ++ i ++ 0x2E :: ds ∧ IsSign sg ∧ IsInt i ∧ ds ≠ [] ∧ IsDigits ds
  | .e => ∃ sg i f e, t = sg ++ i ++ f ++ [e] ∧ IsSign sg ∧ IsInt i ∧ IsFrac f ∧
      (e = 0x65 ∨ e = 0x45)
  | .eSign => ∃ sg i f e x, t = sg ++ i ++ f ++ [e, x] ∧ IsSign sg ∧ IsInt i ∧ IsFrac f ∧
      (e = 0x65 ∨ e = 0x45) ∧ (x = 0x2B ∨ x = 0x2D)
  | .e0 => ∃ sg i f e x ds, t = sg ++ i ++ f ++ e :: (x ++ ds) ∧ IsSign sg ∧ IsInt i ∧
      IsFrac f ∧ (e = 0x65 ∨ e = 0x45) ∧ (x = [] ∨ x = [0x2B] ∨ x = [0x2D]) ∧ ds ≠ [] ∧
      IsDigits ds
  | .t => t = [0x74]
  | .tr => t = [0x74, 0x72]
  | .tru => t = [0x74, 0x72, 0x75]
  | .f => t = [0x66]
  | .fa => t = [0x66, 0x61]
  | .fal => t = [0x66, 0x61, 0x6C]
  | .fals => t = [0x66, 0x61, 0x6C, 0x73]
  | .n => t = [0x6E]
  | .nu => t = [0x6E, 0x75]
  | .nul => t = [0x6E, 0x75, 0x6C]
  | _ => False

/-- The state is inside a string literal. -/
def Step.inStr : Step → Bool
  | .inString | .inStringEsc | .inStringEscU | .inStringEscU1 | .inStringEscU12
  | .inStringEscU123 => true
  | _ => false

/-- The invariant of the scanner in the state `st` with open composite values of the
kinds `ks`, after reading `p`. -/
def InvAt (st : Step) (ks : List Kind) (p : Bytes) : Prop :=
  match st with
  | .error => True
  | .endTop => ks = [] ∧ IsJSON p
  | .endValue => After ks p
  | .beginValue => Ctx ks p ∧ ValTop ks
  | .beginString => Ctx ks p
  | .beginValueOrEmpty =>
    ∃ ks0 p0 w, ks = .element :: ks0 ∧ p = p0 ++ 0x5B :: w ∧ Ctx ks0 p0 ∧ ValTop ks0 ∧ IsWs w
  | .beginStringOrEmpty =>
    ∃ ks0 p0 w, ks = .key :: ks0 ∧ p = p0 ++ 0x7B :: w ∧ Ctx ks0 p0 ∧ ValTop ks0 ∧ IsWs w
  | st => ∃ q t, p = q ++ t ∧ Ctx ks q ∧ (st.inStr = false → ValTop ks) ∧ InToken st t

/-- The invariant of the scanner `s` after reading `p`. -/
def Inv (s : Scanner) (p : Bytes) : Prop := InvAt s.step (shape s.parseState) p

/-- The byte `c` can be the first of a value: a brace, a bracket, a quote, a minus sign, a
digit, or the first letter of `true`, `false` or `null`. -/
def canStart (c : Nat) : Bool :=
  c = 0x7B ∨ c = 0x5B ∨ c = 0x22 ∨ c = 0x2D ∨ (0x30 ≤ c ∧ c ≤ 0x39) ∨ c = 0x74 ∨ c = 0x66 ∨
    c = 0x6E

/-- The first byte of `p` that is not whitespace can start a value. -/
def startsValue (p : Bytes) : Bool :=
  match p.dropWhile isSpace with
  | [] => false
  | c :: _ => canStart c

/-! ## What the scanner does on a text of the grammar

The three statements below are proved for the three kinds of text of the grammar; they say
where the scanner stands after reading such a text. -/

/-- The scanner reads the value text `t`: started where a value may begin and followed by
a byte that can follow a value, it goes on as from the state `post`, in which the value
`jv` has been handed on; the stack has room for `d` more levels. -/
def RunsValue (d : Nat) (t : Bytes) (jv : JVal) : Prop :=
  ∀ (st : Step) (fs : List Frame) (tok : Bytes) (top : Option JVal) (x : Nat) (rest : Bytes),
    (st = .beginValue ∨ st = .beginValueOrEmpty) → fs.length + d ≤ maxNestingDepth →
    isDelim x = true →
    (t ++ x :: rest).foldl Scanner.next ⟨st, fs, tok, top⟩
      = (x :: rest).foldl Scanner.next (post fs top jv)

/-- The scanner reads the elements `body` of an array: started after `[`, it ends where
the next element is expected, with the values `vs` collected. -/
def RunsElements (d : Nat) (body : Bytes) (vs : List JVal) : Prop :=
  ∀ (fs : List Frame) (tok : Bytes) (top : Option JVal), fs.length + 1 + d ≤ maxNestingDepth →
    ∃ st tok1, (st = .beginValue ∨ st = .beginValueOrEmpty) ∧
      body.foldl Scanner.next ⟨.beginValueOrEmpty, .arrayValue [] :: fs, tok, top⟩
        = ⟨st, .arrayValue vs :: fs, tok1, top⟩

/-- The scanner reads the members `body` of an object: started after `{`, it ends where
the value of the member with key `k` is expected, with the members `ms` collected. -/
def RunsMembers (d : Nat) (body : Bytes) (ms : List (Bytes × JVal)) (k : Bytes) : Prop :=
  ∀ (fs : List Frame) (tok : Bytes) (top : Option JVal), fs.length + 1 + d ≤ maxNestingDepth →
    ∃ tok1, body.foldl Scanner.next ⟨.beginStringOrEmpty, .objectKey [] none :: fs, tok, top⟩
      = ⟨.beginValue, .objectValue ms k :: fs, tok1, top⟩

/-! ## Texts nested deeper than the scanner allows -/

/-- The text of `n + 1` arrays nested in one another, the innermost empty: `[[...[]...]]`. -/
def deepText : Nat → Bytes
  | 0 => [0x5B, 0x5D]
  | n + 1 => 0x5B :: (deepText n ++ [0x5D])

/-- The value `deepText n` denotes. -/
def deepValue : Nat → JVal
  | 0 => .array []
  | n + 1 => .array [deepValue n]

/-! # Theorems -/

/-! ## The grammar: whitespace and contexts -/

theorem IsWs_nil : IsWs [] := by
  intro c hc
  cases hc

theorem IsWs_snoc (w : Bytes) (c : Nat) (hw : IsWs w) (hc : isSpace c = true) :
    IsWs (w ++ [c]) := by
  intro x hx
  rcases List.mem_append.mp hx with h | h
  · exact hw x h
  · rw [List.mem_singleton.mp h]
    exact hc

theorem IsDigits_nil : IsDigits [] := by
  intro c hc
  cases hc

theorem IsDigits_snoc (ds : Bytes) (c : Nat) (hd : IsDigits ds) (hc : isDigit c = true) :
    IsDigits (ds ++ [c]) := by
  intro x hx
  rcases List.mem_append.mp hx with h | h
  · exact hd x h
  · rw [List.mem_singleton.mp h]
    exact hc

theorem IsElements_snoc (body : Bytes) (c : Nat) (h : IsElements body)
    (hc : isSpace c = true) : IsElements (body ++ [c]) := by
  cases h with
  | ws _ hw => exact .ws _ (IsWs_snoc _ c hw hc)
  | more body v w1 w2 hb hv h1 h2 =>
    have e : body ++ v ++ w1 ++ 0x2C :: w2 ++ [c] = body ++ v ++ w1 ++ 0x2C :: (w2 ++ [c]) := by
      simp
    rw [e]
    exact .more body v w1 (w2 ++ [c]) hb hv h1 (IsWs_snoc w2 c h2 hc)

theorem IsMembers_snoc (body : Bytes) (c : Nat) (h : IsMembers body)
    (hc : isSpace c = true) : IsMembers (body ++ [c]) := by
  cases h with
  | first w1 k w2 w3 h1 hk h2 h3 =>
    have e : w1 ++ k ++ w2 ++ 0x3A :: w3 ++ [c] = w1 ++ k ++ w2 ++ 0x3A :: (w3 ++ [c]) := by
      simp
    rw [e]
    exact .first w1 k w2 (w3 ++ [c]) h1 hk h2 (IsWs_snoc w3 c h3 hc)
  | more body v w1 w2 k w3 w4 hb hv h1 h2 hk h3 h4 =>
    have e : body ++ v ++ w1 ++ 0x2C :: w2 ++ k ++ w3 ++ 0x3A :: w4 ++ [c]
        = body ++ v ++ w1 ++ 0x2C :: w2 ++ k ++ w3 ++ 0x3A :: (w4 ++ [c]) := by
      simp
    rw [e]
    exact .more body v w1 w2 k w3 (w4 ++ [c]) hb hv h1 h2 hk h3 (IsWs_snoc w4 c h4 hc)

theorem IsKeyCtx_snoc (pre : Bytes) (c : Nat) (h : IsKeyCtx pre)
    (hc : isSpace c = true) : IsKeyCtx (pre ++ [c]) := by
  rcases h with h | ⟨body, v, w1, w2, rfl, hb, hv, h1, h2⟩
  · exact Or.inl (IsWs_snoc pre c h hc)
  · exact Or.inr ⟨body, v, w1, w2 ++ [c], by simp, hb, hv, h1, IsWs_snoc w2 c h2 hc⟩

/-- A context stays one when whitespace follows. -/
theorem Ctx_snoc (ks : List Kind) (p : Bytes) (c : Nat) (h : Ctx ks p)
    (hc : isSpace c = true) : Ctx ks (p ++ [c]) := by
  cases ks with
  | nil => exact IsWs_snoc p c h hc
  | cons k ks =>
    cases k with
    | key =>
      obtain ⟨p0, pre, rfl, h0, hv, hp⟩ := h
      exact ⟨p0, pre ++ [c], by simp, h0, hv, IsKeyCtx_snoc pre c hp hc⟩
    | member =>
      obtain ⟨p0, body, rfl, h0, hv, hp⟩ := h
      exact ⟨p0, body ++ [c], by simp, h0, hv, IsMembers_snoc body c hp hc⟩
    | element =>
      obtain ⟨p0, body, rfl, h0, hv, hp⟩ := h
      exact ⟨p0, body ++ [c], by simp, h0, hv, IsElements_snoc body c hp hc⟩

/-- Whitespace after a value. -/
theorem After_snoc (ks : List Kind) (p : Bytes) (c : Nat) (h : After ks p)
    (hc : isSpace c = true) : After ks (p ++ [c]) := by
  obtain ⟨q, v, w, rfl, hq, hv, hw, hk⟩ := h
  exact ⟨q, v, w ++ [c], by simp, hq, hv, IsWs_snoc w c hw hc, hk⟩

/-- A value read in full where one was expected. -/
theorem After_value (ks : List Kind) (q v : Bytes) (hq : Ctx ks q) (hv : IsValue v)
    (hk : ¬ ValTop ks → IsString v) : After ks (q ++ v) :=
  ⟨q, v, [], by simp, hq, hv, IsWs_nil, hk⟩

theorem After_nil (p : Bytes) (h : After [] p) : IsJSON p := by
  obtain ⟨q, v, w, rfl, hq, hv, hw, _⟩ := h
  exact ⟨q, v, w, rfl, hq, hv, hw⟩

/-! ## The stack -/

theorem shape_nil_iff (fs : List Frame) : shape fs = [] ↔ fs = [] := by
  cases fs <;> simp [shape]

theorem shape_complete (s : Scanner) (v : JVal) :
    shape (s.complete v).parseState = shape s.parseState := by
  unfold Scanner.complete
  rcases hps : s.parseState with _ | ⟨f, fs⟩
  · rfl
  · cases f with
    | objectKey ms key => cases v <;> rfl
    | objectValue ms key => rfl
    | arrayValue vs => rfl

theorem step_complete (s : Scanner) (v : JVal) : (s.complete v).step = s.step := by
  unfold Scanner.complete
  rcases hps : s.parseState with _ | ⟨f, fs⟩
  · rfl
  · cases f with
    | objectKey ms key => cases v <;> rfl
    | objectValue ms key => rfl
    | arrayValue vs => rfl

/-! ## The scanner keeps its invariant: after a value -/

theorem InvAt_end (ks : List Kind) (p : Bytes) (h : After ks p) :
    InvAt (if ks = [] then .endTop else .endValue) ks p := by
  by_cases hk : ks = []
  · rw [if_pos hk]
    subst hk
    exact ⟨rfl, After_nil p h⟩
  · rw [if_neg hk]
    exact h

/-- Method `popParseState` where the text read ends after a value of the composite value
that is now innermost. -/
theorem popParseState_inv (s : Scanner) (v : JVal) (p : Bytes)
    (h : After (shape s.parseState.tail) p) : Inv (s.popParseState v) p := by
  unfold Inv Scanner.popParseState
  simp only [shape_complete]
  have e : (if s.parseState.tail.isEmpty = true then Step.endTop else Step.endValue)
      = (if shape s.parseState.tail = [] then Step.endTop else Step.endValue) := by
    cases s.parseState.tail <;> rfl
  rw [e]
  exact InvAt_end _ p h

theorem IsMembers_of_key (pre k w : Bytes) (hp : IsKeyCtx pre) (hk : IsString k) (hw : IsWs w) :
    IsMembers (pre ++ k ++ w ++ [0x3A]) := by
  rcases hp with hp | ⟨body, v, w1, w2, rfl, hb, hv, h1, h2⟩
  · exact .first pre k w [] hp hk hw IsWs_nil
  · have e : body ++ v ++ w1 ++ 0x2C :: w2 ++ k ++ w ++ [0x3A]
        = body ++ v ++ w1 ++ 0x2C :: w2 ++ k ++ w ++ 0x3A :: [] := by simp
    exact .more body v w1 w2 k w [] hb hv h1 h2 hk hw IsWs_nil

/-- Function `stateEndValue` keeps the invariant. -/
theorem stateEndValue_inv (s : Scanner) (p : Bytes) (c : Nat)
    (h : After (shape s.parseState) p) : Inv (stateEndValue s c) (p ++ [c]) := by
  unfold stateEndValue
  rcases hps : s.parseState with _ | ⟨f, fs⟩
  · rw [hps] at h
    simp only [stateEndTop]
    by_cases hc : isSpace c = true
    · simp only [hc, Bool.not_true, Bool.false_eq_true, if_false]
      exact ⟨by simp [shape, hps], After_nil _ (After_snoc [] p c h hc)⟩
    · simp only [hc, Bool.not_false, if_true]
      exact trivial
  · rw [hps] at h
    simp only []
    by_cases hc : isSpace c = true
    · rw [if_pos hc]
      exact After_snoc _ p c h hc
    · rw [if_neg hc]
      obtain ⟨q, v, w, rfl, hq, hv, hw, hk⟩ := h
      cases f with
      | objectKey ms key =>
        simp only []
        by_cases h3 : c = 0x3A
        · rw [if_pos h3]
          subst h3
          obtain ⟨p0, pre, rfl, h0, hv0, hpre⟩ := hq
          refine ⟨⟨p0, pre ++ v ++ w ++ [0x3A], by simp, h0, hv0, ?_⟩, trivial⟩
          exact IsMembers_of_key pre v w hpre (hk (fun x => x)) hw
        · rw [if_neg h3]
          exact trivial
      | objectValue ms key =>
        simp only []
        obtain ⟨p0, body, rfl, h0, hv0, hb⟩ := hq
        by_cases h2 : c = 0x2C
        · rw [if_pos h2]
          subst h2
          exact ⟨p0, body ++ v ++ w ++ [0x2C], by simp, h0, hv0,
            Or.inr ⟨body, v, w, [], by simp, hb, hv, hw, IsWs_nil⟩⟩
        · rw [if_neg h2]
          by_cases h7 : c = 0x7D
          · rw [if_pos h7]
            subst h7
            apply popParseState_inv
            rw [hps]
            have e : p0 ++ 0x7B :: body ++ v ++ w ++ [0x7D]
                = p0 ++ 0x7B :: (body ++ v ++ w ++ [0x7D]) := by simp
            rw [e]
            exact After_value _ p0 _ h0 (.object body v w hb hv hw) (fun x => absurd hv0 x)
          · rw [if_neg h7]
            exact trivial
      | arrayValue vs =>
        simp only []
        obtain ⟨p0, body, rfl, h0, hv0, hb⟩ := hq
        by_cases h2 : c = 0x2C
        · rw [if_pos h2]
          subst h2
          exact ⟨⟨p0, body ++ v ++ w ++ [0x2C], by simp, h0, hv0,
            .more body v w [] hb hv hw IsWs_nil⟩, trivial⟩
        · rw [if_neg h2]
          by_cases h5 : c = 0x5D
          · rw [if_pos h5]
            subst h5
            apply popParseState_inv
            rw [hps]
            have e : p0 ++ 0x5B :: body ++ v ++ w ++ [0x5D]
                = p0 ++ 0x5B :: (body ++ v ++ w ++ [0x5D]) := by simp
            rw [e]
            exact After_value _ p0 _ h0 (.array body v w hb hv hw) (fun x => absurd hv0 x)
          · rw [if_neg h5]
            exact trivial

/-! ## The scanner keeps its invariant: where a value or a key begins -/

/-- Function `stateBeginValue` at a byte that is not whitespace. -/
theorem stateBeginValue_inv (s : Scanner) (p : Bytes) (c : Nat)
    (h : Ctx (shape s.parseState) p) (hv : ValTop (shape s.parseState))
    (hc : ¬ isSpace c = true) : Inv (stateBeginValue s c) (p ++ [c]) := by
  unfold stateBeginValue
  rw [if_neg hc]
  by_cases h1 : c = 0x7B
  · rw [if_pos h1]
    subst h1
    unfold Scanner.pushParseState
    by_cases hd : s.parseState.length + 1 ≤ maxNestingDepth
    · rw [if_pos hd]
      exact ⟨shape s.parseState, p, [], rfl, rfl, h, hv, IsWs_nil⟩
    · rw [if_neg hd]
      exact trivial
  rw [if_neg h1]
  by_cases h2 : c = 0x5B
  · rw [if_pos h2]
    subst h2
    unfold Scanner.pushParseState
    by_cases hd : s.parseState.length + 1 ≤ maxNestingDepth
    · rw [if_pos hd]
      exact ⟨shape s.parseState, p, [], rfl, rfl, h, hv, IsWs_nil⟩
    · rw [if_neg hd]
      exact trivial
  rw [if_neg h2]
  by_cases h3 : c = 0x22
  · rw [if_pos h3]
    subst h3
    exact ⟨p, [0x22], rfl, h, fun x => absurd x (by decide), [], rfl, .nil⟩
  rw [if_neg h3]
  by_cases h4 : c = 0x2D
  · rw [if_pos h4]
    subst h4
    exact ⟨p, [0x2D], rfl, h, fun _ => hv, rfl⟩
  rw [if_neg h4]
  by_cases h5 : c = 0x30
  · rw [if_pos h5]
    subst h5
    exact ⟨p, [0x30], rfl, h, fun _ => hv, [], rfl, Or.inl rfl⟩
  rw [if_neg h5]
  by_cases h6 : c = 0x74
  · rw [if_pos h6]
    subst h6
    exact ⟨p, [0x74], rfl, h, fun _ => hv, rfl⟩
  rw [if_neg h6]
  by_cases h7 : c = 0x66
  · rw [if_pos h7]
    subst h7
    exact ⟨p, [0x66], rfl, h, fun _ => hv, rfl⟩
  rw [if_neg h7]
  by_cases h8 : c = 0x6E
  · rw [if_pos h8]
    subst h8
    exact ⟨p, [0x6E], rfl, h, fun _ => hv, rfl⟩
  rw [if_neg h8]
  by_cases h9 : 0x31 ≤ c ∧ c ≤ 0x39
  · rw [if_pos h9]
    exact ⟨p, [c], rfl, h, fun _ => hv, [], c, [], rfl, Or.inl rfl, h9.1, h9.2, IsDigits_nil⟩
  rw [if_neg h9]
  exact trivial

/-- Function `stateBeginValue` in the state of that name. -/
theorem beginValue_inv (ps : List Frame) (tok : Bytes) (top : Option JVal) (p : Bytes) (c : Nat)
    (h : Inv ⟨.beginValue, ps, tok, top⟩ p) :
    Inv (stateBeginValue ⟨.beginValue, ps, tok, top⟩ c) (p ++ [c]) := by
  by_cases hc : isSpace c = true
  · unfold stateBeginValue
    rw [if_pos hc]
    exact ⟨Ctx_snoc _ p c h.1 hc, h.2⟩
  · exact stateBeginValue_inv _ p c h.1 h.2 hc

/-- Function `stateBeginValueOrEmpty`. -/
theorem beginValueOrEmpty_inv (ps : List Frame) (tok : Bytes) (top : Option JVal) (p : Bytes)
    (c : Nat) (h : Inv ⟨.beginValueOrEmpty, ps, tok, top⟩ p) :
    Inv (stateBeginValueOrEmpty ⟨.beginValueOrEmpty, ps, tok, top⟩ c) (p ++ [c]) := by
  obtain ⟨ks0, p0, w, hks, rfl, h0, hv0, hw⟩ := h
  change shape ps = .element :: ks0 at hks
  unfold stateBeginValueOrEmpty
  by_cases hc : isSpace c = true
  · rw [if_pos hc]
    exact ⟨ks0, p0, w ++ [c], hks, by simp, h0, hv0, IsWs_snoc w c hw hc⟩
  rw [if_neg hc]
  rcases ps with _ | ⟨f, fs⟩
  · simp [shape] at hks
  cases f with
  | objectKey ms key => simp [shape, Frame.kind] at hks
  | objectValue ms key => simp [shape, Frame.kind] at hks
  | arrayValue vs =>
    have hfs : shape fs = ks0 := by
      simpa [shape, Frame.kind] using hks
    subst hfs
    by_cases h5 : c = 0x5D
    · rw [if_pos h5]
      subst h5
      unfold stateEndValue
      simp only []
      rw [if_neg hc, if_neg (by decide), if_pos trivial]
      apply popParseState_inv
      have e : p0 ++ 0x5B :: w ++ [0x5D] = p0 ++ 0x5B :: (w ++ [0x5D]) := by simp
      rw [e]
      exact After_value _ p0 _ h0 (.emptyArray w hw) (fun x => absurd hv0 x)
    · rw [if_neg h5]
      exact stateBeginValue_inv _ _ c ⟨p0, w, rfl, h0, hv0, .ws w hw⟩ trivial hc

/-- Function `stateBeginString`. -/
theorem beginString_inv (ps : List Frame) (tok : Bytes) (top : Option JVal) (p : Bytes)
    (c : Nat) (h : Inv ⟨.beginString, ps, tok, top⟩ p) :
    Inv (stateBeginString ⟨.beginString, ps, tok, top⟩ c) (p ++ [c]) := by
  unfold stateBeginString
  by_cases hc : isSpace c = true
  · rw [if_pos hc]
    exact Ctx_snoc _ p c h hc
  rw [if_neg hc]
  by_cases h3 : c = 0x22
  · rw [if_pos h3]
    subst h3
    exact ⟨p, [0x22], rfl, h, fun x => absurd x (by decide), [], rfl, .nil⟩
  rw [if_neg h3]
  exact trivial

/-- Function `stateBeginStringOrEmpty`. -/
theorem beginStringOrEmpty_inv (ps : List Frame) (tok : Bytes) (top : Option JVal) (p : Bytes)
    (c : Nat) (h : Inv ⟨.beginStringOrEmpty, ps, tok, top⟩ p) :
    Inv (stateBeginStringOrEmpty ⟨.beginStringOrEmpty, ps, tok, top⟩ c) (p ++ [c]) := by
  obtain ⟨ks0, p0, w, hks, rfl, h0, hv0, hw⟩ := h
  change shape ps = .key :: ks0 at hks
  unfold stateBeginStringOrEmpty
  by_cases hc : isSpace c = true
  · rw [if_pos hc]
    exact ⟨ks0, p0, w ++ [c], hks, by simp, h0, hv0, IsWs_snoc w c hw hc⟩
  rw [if_neg hc]
  rcases ps with _ | ⟨f, fs⟩
  · simp [shape] at hks
  cases f with
  | objectValue ms key => simp [shape, Frame.kind] at hks
  | arrayValue vs => simp [shape, Frame.kind] at hks
  | objectKey ms key =>
    have hfs : shape fs = ks0 := by
      simpa [shape, Frame.kind] using hks
    subst hfs
    by_cases h7 : c = 0x7D
    · rw [if_pos h7]
      subst h7
      simp only []
      unfold stateEndValue
      simp only []
      rw [if_neg hc, if_neg (by decide), if_pos trivial]
      apply popParseState_inv
      have e : p0 ++ 0x7B :: w ++ [0x7D] = p0 ++ 0x7B :: (w ++ [0x7D]) := by simp
      rw [e]
      exact After_value _ p0 _ h0 (.emptyObject w hw) (fun x => absurd hv0 x)
    · rw [if_neg h7]
      unfold stateBeginString
      rw [if_neg hc]
      by_cases h3 : c = 0x22
      · rw [if_pos h3]
        subst h3
        exact ⟨p0 ++ 0x7B :: w, [0x22], rfl, ⟨p0, w, rfl, h0, hv0, Or.inl hw⟩,
          fun x => absurd x (by decide), [], rfl, .nil⟩
      rw [if_neg h3]
      exact trivial

/-! ## The scanner keeps its invariant: inside a string literal -/

/-- Function `stateInString`. -/
theorem inString_inv (ps : List Frame) (tok : Bytes) (top : Option JVal) (p : Bytes) (c : Nat)
    (h : Inv ⟨.inString, ps, tok, top⟩ p) :
    Inv (stateInString ⟨.inString, ps, tok, top⟩ c) (p ++ [c]) := by
  obtain ⟨q, t, rfl, hq, hvt, cs, rfl, hcs⟩ := h
  unfold stateInString
  by_cases h1 : c = 0x22
  · rw [if_pos h1]
    subst h1
    simp only []
    cases unquote tok with
    | none => exact trivial
    | some str =>
      show After (shape (Scanner.complete _ _).parseState) _
      rw [shape_complete]
      have e : q ++ 0x22 :: cs ++ [0x22] = q ++ 0x22 :: (cs ++ [0x22]) := by simp
      rw [e]
      exact After_value _ q _ hq (.string _ ⟨cs, rfl, hcs⟩) (fun _ => ⟨cs, rfl, hcs⟩)
  rw [if_neg h1]
  by_cases h2 : c = 0x5C
  · rw [if_pos h2]
    subst h2
    exact ⟨q, 0x22 :: (cs ++ [0x5C]), by simp, hq, hvt, cs, rfl, hcs⟩
  rw [if_neg h2]
  by_cases h3 : c < 0x20
  · rw [if_pos h3]
    exact trivial
  rw [if_neg h3]
  exact ⟨q, 0x22 :: (cs ++ [c]), by simp, hq, hvt, cs ++ [c], rfl,
    .plain cs c hcs (Nat.le_of_not_lt h3) h1 h2⟩

/-- Function `stateInStringEsc`. -/
theorem inStringEsc_inv (ps : List Frame) (tok : Bytes) (top : Option JVal) (p : Bytes)
    (c : Nat) (h : Inv ⟨.inStringEsc, ps, tok, top⟩ p) :
    Inv (stateInStringEsc ⟨.inStringEsc, ps, tok, top⟩ c) (p ++ [c]) := by
  obtain ⟨q, t, rfl, hq, hvt, cs, rfl, hcs⟩ := h
  unfold stateInStringEsc
  by_cases h1 : c = 0x62 ∨ c = 0x66 ∨ c = 0x6E ∨ c = 0x72 ∨ c = 0x74 ∨ c = 0x5C ∨ c = 0x2F ∨
      c = 0x22
  · rw [if_pos h1]
    refine ⟨q, 0x22 :: (cs ++ [0x5C, c]), by simp, hq, hvt, cs ++ [0x5C, c], rfl,
      .escape cs c hcs ?_⟩
    omega
  rw [if_neg h1]
  by_cases h2 : c = 0x75
  · rw [if_pos h2]
    subst h2
    exact ⟨q, 0x22 :: (cs ++ [0x5C, 0x75]), by simp, hq, hvt, cs, rfl, hcs⟩
  rw [if_neg h2]
  exact trivial

/-- Function `stateInStringEscU`. -/
theorem inStringEscU_inv (ps : List Frame) (tok : Bytes) (top : Option JVal) (p : Bytes)
    (c : Nat) (h : Inv ⟨.inStringEscU, ps, tok, top⟩ p) :
    Inv (stateInStringEscHex .inStringEscU1 ⟨.inStringEscU, ps, tok, top⟩ c) (p ++ [c]) := by
  obtain ⟨q, t, rfl, hq, hvt, cs, rfl, hcs⟩ := h
  unfold stateInStringEscHex
  by_cases h1 : isHex c = true
  · rw [if_pos h1]
    exact ⟨q, 0x22 :: (cs ++ [0x5C, 0x75, c]), by simp, hq, hvt, cs, c, rfl, hcs, h1⟩
  rw [if_neg h1]
  exact trivial

/-- Function `stateInStringEscU1`. -/
theorem inStringEscU1_inv (ps : List Frame) (tok : Bytes) (top : Option JVal) (p : Bytes)
    (c : Nat) (h : Inv ⟨.inStringEscU1, ps, tok, top⟩ p) :
    Inv (stateInStringEscHex .inStringEscU12 ⟨.inStringEscU1, ps, tok, top⟩ c) (p ++ [c]) := by
  obtain ⟨q, t, rfl, hq, hvt, cs, a, rfl, hcs, ha⟩ := h
  unfold stateInStringEscHex
  by_cases h1 : isHex c = true
  · rw [if_pos h1]
    exact ⟨q, 0x22 :: (cs ++ [0x5C, 0x75, a, c]), by simp, hq, hvt, cs, a, c, rfl, hcs, ha, h1⟩
  rw [if_neg h1]
  exact trivial

/-- Function `stateInStringEscU12`. -/
theorem inStringEscU12_inv (ps : List Frame) (tok : Bytes) (top : Option JVal) (p : Bytes)
    (c : Nat) (h : Inv ⟨.inStringEscU12, ps, tok, top⟩ p) :
    Inv (stateInStringEscHex .inStringEscU123 ⟨.inStringEscU12, ps, tok, top⟩ c)
      (p ++ [c]) := by
  obtain ⟨q, t, rfl, hq, hvt, cs, a, b, rfl, hcs, ha, hb⟩ := h
  unfold stateInStringEscHex
  by_cases h1 : isHex c = true
  · rw [if_pos h1]
    exact ⟨q, 0x22 :: (cs ++ [0x5C, 0x75, a, b, c]), by simp, hq, hvt, cs, a, b, c, rfl, hcs,
      ha, hb, h1⟩
  rw [if_neg h1]
  exact trivial

/-- Function `stateInStringEscU123`. -/
theorem inStringEscU123_inv (ps : List Frame) (tok : Bytes) (top : Option JVal) (p : Bytes)
    (c : Nat) (h : Inv ⟨.inStringEscU123, ps, tok, top⟩ p) :
    Inv (stateInStringEscHex .inString ⟨.inStringEscU123, ps, tok, top⟩ c) (p ++ [c]) := by
  obtain ⟨q, t, rfl, hq, hvt, cs, a, b, d, rfl, hcs, ha, hb, hd⟩ := h
  unfold stateInStringEscHex
  by_cases h1 : isHex c = true
  · rw [if_pos h1]
    exact ⟨q, 0x22 :: (cs ++ [0x5C, 0x75, a, b, d, c]), by simp, hq, hvt,
      cs ++ [0x5C, 0x75, a, b, d, c], rfl, .unicode cs a b d c hcs ha hb hd h1⟩
  rw [if_neg h1]
  exact trivial

/-! ## The scanner keeps its invariant: inside `true`, `false` and `null` -/

/-- Function `stateLetter` (the states inside a literal name other than the last). -/
theorem stateLetter_inv (st next : Step) (want : Nat) (lit : Bytes)
    (hst : st.inStr = false)
    (h1 : ∀ t, InToken st t → t = lit) (h2 : InToken next (lit ++ [want]))
    (hne : ∀ ks p, InvAt st ks p →
      ∃ q t, p = q ++ t ∧ Ctx ks q ∧ (st.inStr = false → ValTop ks) ∧ InToken st t)
    (hnx : ∀ ks p, (∃ q t, p = q ++ t ∧ Ctx ks q ∧ (next.inStr = false → ValTop ks) ∧
      InToken next t) → InvAt next ks p)
    (ps : List Frame) (tok : Bytes) (top : Option JVal) (p : Bytes) (c : Nat)
    (h : Inv ⟨st, ps, tok, top⟩ p) :
    Inv (stateLetter want next ⟨st, ps, tok, top⟩ c) (p ++ [c]) := by
  obtain ⟨q, t, rfl, hq, hvt, ht⟩ := hne _ _ h
  unfold stateLetter
  by_cases hc : c = want
  · rw [if_pos hc]
    subst hc
    apply hnx
    refine ⟨q, lit ++ [c], ?_, hq, fun _ => hvt hst, h2⟩
    rw [h1 t ht]
    simp
  · rw [if_neg hc]
    exact trivial

/-- Function `stateLastLetter` (the states before the last letter of a literal name). -/
theorem stateLastLetter_inv (st : Step) (want : Nat) (lit : Bytes) (v : JVal)
    (hst : st.inStr = false)
    (h1 : ∀ t, InToken st t → t = lit) (h2 : IsValue (lit ++ [want]))
    (hne : ∀ ks p, InvAt st ks p →
      ∃ q t, p = q ++ t ∧ Ctx ks q ∧ (st.inStr = false → ValTop ks) ∧ InToken st t)
    (ps : List Frame) (tok : Bytes) (top : Option JVal) (p : Bytes) (c : Nat)
    (h : Inv ⟨st, ps, tok, top⟩ p) :
    Inv (stateLastLetter want v ⟨st, ps, tok, top⟩ c) (p ++ [c]) := by
  obtain ⟨q, t, rfl, hq, hvt, ht⟩ := hne _ _ h
  unfold stateLastLetter
  by_cases hc : c = want
  · rw [if_pos hc]
    subst hc
    show After (shape (Scanner.complete _ _).parseState) _
    rw [shape_complete, h1 t ht]
    have e : q ++ lit ++ [c] = q ++ (lit ++ [c]) := by simp
    rw [e]
    exact After_value _ q _ hq h2 (fun x => absurd (hvt hst) x)
  · rw [if_neg hc]
    exact trivial

/-! ## The scanner keeps its invariant: inside a number -/

/-- Function `endNumber` after a complete number literal. -/
theorem endNumber_inv (s : Scanner) (q n : Bytes) (c : Nat)
    (hq : Ctx (shape s.parseState) q) (hv : ValTop (shape s.parseState)) (hn : IsNumber n) :
    Inv (endNumber s c) (q ++ n ++ [c]) := by
  unfold endNumber
  apply stateEndValue_inv
  rw [shape_complete]
  exact After_value _ q n hq (.number n hn) (fun x => absurd hv x)

theorem IsFrac_nil : IsFrac [] := Or.inl rfl

theorem IsExp_nil : IsExp [] := Or.inl rfl

theorem IsNumber_int (sg i : Bytes) (hs : IsSign sg) (hi : IsInt i) : IsNumber (sg ++ i) :=
  ⟨sg, i, [], [], by simp, hs, hi, IsFrac_nil, IsExp_nil⟩

/-- Function `stateNeg`. -/
theorem neg_inv (ps : List Frame) (tok : Bytes) (top : Option JVal) (p : Bytes) (c : Nat)
    (h : Inv ⟨.neg, ps, tok, top⟩ p) :
    Inv (stateNeg ⟨.neg, ps, tok, top⟩ c) (p ++ [c]) := by
  obtain ⟨q, t, rfl, hq, hvt, rfl⟩ := h
  unfold stateNeg
  by_cases h1 : c = 0x30
  · rw [if_pos h1]
    subst h1
    exact ⟨q, [0x2D, 0x30], by simp, hq, hvt, [0x2D], rfl, Or.inr rfl⟩
  rw [if_neg h1]
  by_cases h2 : 0x31 ≤ c ∧ c ≤ 0x39
  · rw [if_pos h2]
    exact ⟨q, [0x2D, c], by simp, hq, hvt, [0x2D], c, [], rfl, Or.inr rfl, h2.1, h2.2,
      IsDigits_nil⟩
  rw [if_neg h2]
  exact trivial

/-- Function `state0` after the integer part `i` of a number. -/
theorem state0_inv (st : Step) (ps : List Frame) (tok : Bytes) (top : Option JVal)
    (q sg i : Bytes) (c : Nat) (hq : Ctx (shape ps) q) (hv : ValTop (shape ps))
    (hs : IsSign sg) (hi : IsInt i) :
    Inv (state0 ⟨st, ps, tok, top⟩ c) (q ++ (sg ++ i) ++ [c]) := by
  unfold state0
  by_cases h1 : c = 0x2E
  · rw [if_pos h1]
    subst h1
    exact ⟨q, sg ++ i ++ [0x2E], by simp, hq, fun _ => hv, sg, i, rfl, hs, hi⟩
  rw [if_neg h1]
  by_cases h2 : c = 0x65 ∨ c = 0x45
  · rw [if_pos h2]
    exact ⟨q, sg ++ i ++ [] ++ [c], by simp, hq, fun _ => hv, sg, i, [], c, rfl, hs, hi,
      IsFrac_nil, h2⟩
  rw [if_neg h2]
  exact endNumber_inv _ q (sg ++ i) c hq hv (IsNumber_int sg i hs hi)

/-- Function `state0` in the state of that name. -/
theorem zero_inv (ps : List Frame) (tok : Bytes) (top : Option JVal) (p : Bytes) (c : Nat)
    (h : Inv ⟨.zero, ps, tok, top⟩ p) :
    Inv (state0 ⟨.zero, ps, tok, top⟩ c) (p ++ [c]) := by
  obtain ⟨q, t, rfl, hq, hvt, sg, rfl, hs⟩ := h
  exact state0_inv _ ps tok top q sg [0x30] c hq (hvt rfl) hs (Or.inl rfl)

/-- Function `state1`. -/
theorem one_inv (ps : List Frame) (tok : Bytes) (top : Option JVal) (p : Bytes) (c : Nat)
    (h : Inv ⟨.one, ps, tok, top⟩ p) :
    Inv (state1 ⟨.one, ps, tok, top⟩ c) (p ++ [c]) := by
  obtain ⟨q, t, rfl, hq, hvt, sg, d, ds, rfl, hs, hd1, hd2, hds⟩ := h
  unfold state1
  by_cases h1 : isDigit c = true
  · rw [if_pos h1]
    exact ⟨q, sg ++ d :: (ds ++ [c]), by simp, hq, hvt, sg, d, ds ++ [c], rfl, hs, hd1, hd2,
      IsDigits_snoc ds c hds h1⟩
  rw [if_neg h1]
  exact state0_inv _ ps tok top q sg (d :: ds) c hq (hvt rfl) hs
    (Or.inr ⟨d, ds, rfl, hd1, hd2, hds⟩)

/-- Function `stateDot`. -/
theorem dot_inv (ps : List Frame) (tok : Bytes) (top : Option JVal) (p : Bytes) (c : Nat)
    (h : Inv ⟨.dot, ps, tok, top⟩ p) :
    Inv (stateDot ⟨.dot, ps, tok, top⟩ c) (p ++ [c]) := by
  obtain ⟨q, t, rfl, hq, hvt, sg, i, rfl, hs, hi⟩ := h
  unfold stateDot
  by_cases h1 : isDigit c = true
  · rw [if_pos h1]
    exact ⟨q, sg ++ i ++ 0x2E :: [c], by simp, hq, hvt, sg, i, [c], rfl, hs, hi, by simp,
      IsDigits_snoc [] c IsDigits_nil h1⟩
  rw [if_neg h1]
  exact trivial

/-- Function `stateDot0`. -/
theorem dot0_inv (ps : List Frame) (tok : Bytes) (top : Option JVal) (p : Bytes) (c : Nat)
    (h : Inv ⟨.dot0, ps, tok, top⟩ p) :
    Inv (stateDot0 ⟨.dot0, ps, tok, top⟩ c) (p ++ [c]) := by
  obtain ⟨q, t, rfl, hq, hvt, sg, i, ds, rfl, hs, hi, hne, hds⟩ := h
  unfold stateDot0
  by_cases h1 : isDigit c = true
  · rw [if_pos h1]
    exact ⟨q, sg ++ i ++ 0x2E :: (ds ++ [c]), by simp, hq, hvt, sg, i, ds ++ [c], rfl, hs, hi,
      by simp, IsDigits_snoc ds c hds h1⟩
  rw [if_neg h1]
  have hf : IsFrac (0x2E :: ds) := Or.inr ⟨ds, rfl, hne, hds⟩
  by_cases h2 : c = 0x65 ∨ c = 0x45
  · rw [if_pos h2]
    exact ⟨q, sg ++ i ++ 0x2E :: ds ++ [c], by simp, hq, hvt, sg, i, 0x2E :: ds, c, by simp,
      hs, hi, hf, h2⟩
  rw [if_neg h2]
  exact endNumber_inv _ q _ c hq (hvt rfl) ⟨sg, i, 0x2E :: ds, [], by simp, hs, hi, hf, IsExp_nil⟩

/-- Function `stateESign` after `e` and the optional sign `x`. -/
theorem stateESign_inv (st : Step) (ps : List Frame) (tok : Bytes) (top : Option JVal)
    (q sg i f : Bytes) (e : Nat) (x : Bytes) (c : Nat) (hq : Ctx (shape ps) q)
    (hv : ValTop (shape ps)) (hs : IsSign sg) (hi : IsInt i) (hf : IsFrac f)
    (he : e = 0x65 ∨ e = 0x45) (hx : x = [] ∨ x = [0x2B] ∨ x = [0x2D]) :
    Inv (stateESign ⟨st, ps, tok, top⟩ c) (q ++ (sg ++ i ++ f ++ e :: x) ++ [c]) := by
  unfold stateESign
  by_cases h1 : isDigit c = true
  · rw [if_pos h1]
    exact ⟨q, sg ++ i ++ f ++ e :: (x ++ [c]), by simp, hq, fun _ => hv, sg, i, f, e, x, [c],
      rfl, hs, hi, hf, he, hx, by simp, IsDigits_snoc [] c IsDigits_nil h1⟩
  rw [if_neg h1]
  exact trivial

/-- Function `stateE`. -/
theorem e_inv (ps : List Frame) (tok : Bytes) (top : Option JVal) (p : Bytes) (c : Nat)
    (h : Inv ⟨.e, ps, tok, top⟩ p) :
    Inv (stateE ⟨.e, ps, tok, top⟩ c) (p ++ [c]) := by
  obtain ⟨q, t, rfl, hq, hvt, sg, i, f, e, rfl, hs, hi, hf, he⟩ := h
  unfold stateE
  by_cases h1 : c = 0x2B ∨ c = 0x2D
  · rw [if_pos h1]
    exact ⟨q, sg ++ i ++ f ++ [e, c], by simp, hq, hvt, sg, i, f, e, c, rfl, hs, hi, hf, he, h1⟩
  rw [if_neg h1]
  exact stateESign_inv _ ps tok top q sg i f e [] c hq (hvt rfl) hs hi hf he (Or.inl rfl)

/-- Function `stateESign` in the state of that name. -/
theorem eSign_inv (ps : List Frame) (tok : Bytes) (top : Option JVal) (p : Bytes) (c : Nat)
    (h : Inv ⟨.eSign, ps, tok, top⟩ p) :
    Inv (stateESign ⟨.eSign, ps, tok, top⟩ c) (p ++ [c]) := by
  obtain ⟨q, t, rfl, hq, hvt, sg, i, f, e, x, rfl, hs, hi, hf, he, hx⟩ := h
  have hx2 : [x] = [] ∨ [x] = [0x2B] ∨ [x] = [0x2D] := by
    rcases hx with hx | hx
    · exact Or.inr (Or.inl (by rw [hx]))
    · exact Or.inr (Or.inr (by rw [hx]))
  exact stateESign_inv _ ps tok top q sg i f e [x] c hq (hvt rfl) hs hi hf he hx2

/-- Function `stateE0`. -/
theorem e0_inv (ps : List Frame) (tok : Bytes) (top : Option JVal) (p : Bytes) (c : Nat)
    (h : Inv ⟨.e0, ps, tok, top⟩ p) :
    Inv (stateE0 ⟨.e0, ps, tok, top⟩ c) (p ++ [c]) := by
  obtain ⟨q, t, rfl, hq, hvt, sg, i, f, e, x, ds, rfl, hs, hi, hf, he, hx, hne, hds⟩ := h
  unfold stateE0
  by_cases h1 : isDigit c = true
  · rw [if_pos h1]
    exact ⟨q, sg ++ i ++ f ++ e :: (x ++ (ds ++ [c])), by simp, hq, hvt, sg, i, f, e, x,
      ds ++ [c], rfl, hs, hi, hf, he, hx, by simp, IsDigits_snoc ds c hds h1⟩
  rw [if_neg h1]
  exact endNumber_inv _ q _ c hq (hvt rfl)
    ⟨sg, i, f, e :: (x ++ ds), rfl, hs, hi, hf, Or.inr ⟨e, x, ds, rfl, he, hx, hne, hds⟩⟩

/-! ## The grammar: the first and the last byte of a value -/

theorem isSpace_of_canStart (c : Nat) (h : canStart c = true) : isSpace c = false := by
  simp only [canStart, Bool.decide_or, Bool.or_eq_true, decide_eq_true_eq,
    Bool.decide_and, Bool.and_eq_true] at h
  simp only [isSpace, Bool.decide_or, Bool.or_eq_false_iff, decide_eq_false_iff_not]
  omega

theorem isSpace_of_isDigit (c : Nat) (h : isDigit c = true) : isSpace c = false := by
  simp only [isDigit, Bool.decide_and, Bool.and_eq_true, decide_eq_true_eq] at h
  simp only [isSpace, Bool.decide_or, Bool.or_eq_false_iff, decide_eq_false_iff_not]
  omega

theorem IsDigits_last (ds : Bytes) (hne : ds ≠ []) (hds : IsDigits ds) :
    ∃ init l, ds = init ++ [l] ∧ isDigit l = true :=
  ⟨ds.dropLast, ds.getLast hne, (List.dropLast_append_getLast hne).symm,
    hds _ (List.getLast_mem hne)⟩

theorem IsInt_last (i : Bytes) (hi : IsInt i) : ∃ init l, i = init ++ [l] ∧ isDigit l = true := by
  rcases hi with rfl | ⟨d, ds, rfl, h1, h2, hds⟩
  · exact ⟨[], 0x30, rfl, by decide⟩
  · by_cases hne : ds = []
    · subst hne
      refine ⟨[], d, rfl, ?_⟩
      simp only [isDigit, Bool.decide_and, Bool.and_eq_true, decide_eq_true_eq]
      omega
    · obtain ⟨init, l, rfl, hl⟩ := IsDigits_last ds hne hds
      exact ⟨d :: init, l, rfl, hl⟩

theorem IsNumber_last (n : Bytes) (hn : IsNumber n) :
    ∃ init l, n = init ++ [l] ∧ isDigit l = true := by
  obtain ⟨sg, i, f, x, rfl, _, hi, hf, hx⟩ := hn
  rcases hx with rfl | ⟨e, xs, ds, rfl, _, _, hne, hds⟩
  · rcases hf with rfl | ⟨ds, rfl, hne, hds⟩
    · obtain ⟨init, l, rfl, hl⟩ := IsInt_last i hi
      exact ⟨sg ++ init, l, by simp, hl⟩
    · obtain ⟨init, l, rfl, hl⟩ := IsDigits_last ds hne hds
      exact ⟨sg ++ i ++ 0x2E :: init, l, by simp, hl⟩
  · obtain ⟨init, l, rfl, hl⟩ := IsDigits_last ds hne hds
    exact ⟨sg ++ i ++ f ++ e :: (xs ++ init), l, by simp, hl⟩

/-- A value ends with a byte that is not whitespace. -/
theorem IsValue_last (v : Bytes) (hv : IsValue v) :
    ∃ init l, v = init ++ [l] ∧ isSpace l = false := by
  cases hv with
  | null => exact ⟨[0x6E, 0x75, 0x6C], 0x6C, rfl, by decide⟩
  | true => exact ⟨[0x74, 0x72, 0x75], 0x65, rfl, by decide⟩
  | false => exact ⟨[0x66, 0x61, 0x6C, 0x73], 0x65, rfl, by decide⟩
  | number _ hn =>
    obtain ⟨init, l, rfl, hl⟩ := IsNumber_last v hn
    exact ⟨init, l, rfl, isSpace_of_isDigit l hl⟩
  | string _ hs =>
    obtain ⟨cs, rfl, _⟩ := hs
    exact ⟨0x22 :: cs, 0x22, rfl, by decide⟩
  | emptyArray w _ => exact ⟨0x5B :: w, 0x5D, rfl, by decide⟩
  | array body v w _ _ _ => exact ⟨0x5B :: (body ++ v ++ w), 0x5D, by simp, by decide⟩
  | emptyObject w _ => exact ⟨0x7B :: w, 0x7D, rfl, by decide⟩
  | object body v w _ _ _ => exact ⟨0x7B :: (body ++ v ++ w), 0x7D, by simp, by decide⟩

theorem IsInt_first (i : Bytes) (hi : IsInt i) : ∃ c rest, i = c :: rest ∧ canStart c = true := by
  rcases hi with rfl | ⟨d, ds, rfl, h1, h2, _⟩
  · exact ⟨0x30, [], rfl, by decide⟩
  · refine ⟨d, ds, rfl, ?_⟩
    simp only [canStart, Bool.decide_or, Bool.or_eq_true, decide_eq_true_eq,
      Bool.decide_and, Bool.and_eq_true]
    omega

/-- A value begins with a byte that can start one. -/
theorem IsValue_first (v : Bytes) (hv : IsValue v) :
    ∃ c rest, v = c :: rest ∧ canStart c = true := by
  cases hv with
  | null => exact ⟨_, _, rfl, by decide⟩
  | true => exact ⟨_, _, rfl, by decide⟩
  | false => exact ⟨_, _, rfl, by decide⟩
  | number _ hn =>
    obtain ⟨sg, i, f, x, rfl, hs, hi, _, _⟩ := hn
    rcases hs with rfl | rfl
    · obtain ⟨c, rest, rfl, hc⟩ := IsInt_first i hi
      exact ⟨c, rest ++ f ++ x, by simp, hc⟩
    · exact ⟨0x2D, i ++ f ++ x, by simp, by decide⟩
  | string _ hs =>
    obtain ⟨cs, rfl, _⟩ := hs
    exact ⟨_, _, rfl, by decide⟩
  | emptyArray w _ => exact ⟨_, _, rfl, by decide⟩
  | array body v w _ _ _ => exact ⟨_, _, rfl, by decide⟩
  | emptyObject w _ => exact ⟨_, _, rfl, by decide⟩
  | object body v w _ _ _ => exact ⟨_, _, rfl, by decide⟩

theorem dropWhile_ws (w rest : Bytes) (hw : IsWs w) :
    (w ++ rest).dropWhile isSpace = rest.dropWhile isSpace := by
  induction w with
  | nil => rfl
  | cons c cs ih =>
    rw [List.cons_append, List.dropWhile_cons, if_pos (hw c (List.mem_cons_self _ _))]
    exact ih (fun x hx => hw x (List.mem_cons_of_mem _ hx))

/-- A JSON text passes the test `startsValue`. -/
theorem IsJSON_startsValue (p : Bytes) (h : IsJSON p) : startsValue p = true := by
  obtain ⟨w1, v, w2, rfl, h1, hv, _⟩ := h
  obtain ⟨c, rest, rfl, hc⟩ := IsValue_first v hv
  unfold startsValue
  rw [List.append_assoc, dropWhile_ws w1 _ h1, List.cons_append, List.dropWhile_cons,
    if_neg (by rw [isSpace_of_canStart c hc]; exact Bool.false_ne_true)]
  exact hc

theorem IsJSON_snoc (p : Bytes) (c : Nat) (h : IsJSON p) (hc : isSpace c = true) :
    IsJSON (p ++ [c]) := by
  obtain ⟨w1, v, w2, rfl, h1, hv, h2⟩ := h
  exact ⟨w1, v, w2 ++ [c], by simp, h1, hv, IsWs_snoc w2 c h2 hc⟩

/-- Whitespace at the end of a JSON text can be left out. -/
theorem IsJSON_of_snoc (p : Bytes) (c : Nat) (h : IsJSON (p ++ [c])) (hc : isSpace c = true) :
    IsJSON p := by
  obtain ⟨w1, v, w2, e, h1, hv, h2⟩ := h
  by_cases hne : w2 = []
  · subst hne
    obtain ⟨init, l, rfl, hl⟩ := IsValue_last v hv
    have e2 : p ++ [c] = (w1 ++ init) ++ [l] := by
      rw [e]
      simp
    have hcl : c = l := by
      have := congrArg List.getLast? e2
      simpa using this
    rw [hcl, hl] at hc
    exact absurd hc Bool.false_ne_true
  · have e2 : p ++ [c] = (w1 ++ v ++ w2.dropLast) ++ [w2.getLast hne] := by
      rw [e, List.append_assoc _ w2.dropLast, List.dropLast_append_getLast hne]
    have hp : p = w1 ++ v ++ w2.dropLast := by
      have := congrArg List.dropLast e2
      simpa using this
    exact ⟨w1, v, w2.dropLast, hp, h1, hv, fun x hx => h2 x (List.mem_of_mem_dropLast hx)⟩

/-! ## The scanner accepts JSON texts only -/

/-- Function `stateEndTop`. -/
theorem endTop_inv (ps : List Frame) (tok : Bytes) (top : Option JVal) (p : Bytes) (c : Nat)
    (h : Inv ⟨.endTop, ps, tok, top⟩ p) :
    Inv (stateEndTop ⟨.endTop, ps, tok, top⟩ c) (p ++ [c]) := by
  unfold stateEndTop
  by_cases hc : isSpace c = true
  · simp only [hc, Bool.not_true, Bool.false_eq_true, if_false]
    exact ⟨h.1, IsJSON_snoc p c h.2 hc⟩
  · simp only [hc, Bool.not_false, if_true]
    exact trivial

/-- One call `s.step(s, c)` keeps the invariant. -/
theorem next_inv (s : Scanner) (p : Bytes) (c : Nat) (h : Inv s p) :
    Inv (s.next c) (p ++ [c]) := by
  obtain ⟨st, ps, tok, top⟩ := s
  cases st with
  | beginValueOrEmpty => exact beginValueOrEmpty_inv ps tok top p c h
  | beginValue => exact beginValue_inv ps tok top p c h
  | beginStringOrEmpty => exact beginStringOrEmpty_inv ps tok top p c h
  | beginString => exact beginString_inv ps tok top p c h
  | endValue => exact stateEndValue_inv _ p c h
  | endTop => exact endTop_inv ps tok top p c h
  | inString => exact inString_inv ps tok top p c h
  | inStringEsc => exact inStringEsc_inv ps tok top p c h
  | inStringEscU => exact inStringEscU_inv ps tok top p c h
  | inStringEscU1 => exact inStringEscU1_inv ps tok top p c h
  | inStringEscU12 => exact inStringEscU12_inv ps tok top p c h
  | inStringEscU123 => exact inStringEscU123_inv ps tok top p c h
  | neg => exact neg_inv ps tok top p c h
  | one => exact one_inv ps tok top p c h
  | zero => exact zero_inv ps tok top p c h
  | dot => exact dot_inv ps tok top p c h
  | dot0 => exact dot0_inv ps tok top p c h
  | e => exact e_inv ps tok top p c h
  | eSign => exact eSign_inv ps tok top p c h
  | e0 => exact e0_inv ps tok top p c h
  | t =>
    exact stateLetter_inv .t .tr 0x72 [0x74] rfl (fun _ h => h) rfl (fun _ _ h => h)
      (fun _ _ h => h) ps tok top p c h
  | tr =>
    exact stateLetter_inv .tr .tru 0x75 [0x74, 0x72] rfl (fun _ h => h) rfl (fun _ _ h => h)
      (fun _ _ h => h) ps tok top p c h
  | tru =>
    exact stateLastLetter_inv .tru 0x65 [0x74, 0x72, 0x75] (.bool true) rfl (fun _ h => h)
      .true (fun _ _ h => h) ps tok top p c h
  | f =>
    exact stateLetter_inv .f .fa 0x61 [0x66] rfl (fun _ h => h) rfl (fun _ _ h => h)
      (fun _ _ h => h) ps tok top p c h
  | fa =>
    exact stateLetter_inv .fa .fal 0x6C [0x66, 0x61] rfl (fun _ h => h) rfl (fun _ _ h => h)
      (fun _ _ h => h) ps tok top p c h
  | fal =>
    exact stateLetter_inv .fal .fals 0x73 [0x66, 0x61, 0x6C] rfl (fun _ h => h) rfl
      (fun _ _ h => h) (fun _ _ h => h) ps tok top p c h
  | fals =>
    exact stateLastLetter_inv .fals 0x65 [0x66, 0x61, 0x6C, 0x73] (.bool false) rfl
      (fun _ h => h) .false (fun _ _ h => h) ps tok top p c h
  | n =>
    exact stateLetter_inv .n .nu 0x75 [0x6E] rfl (fun _ h => h) rfl (fun _ _ h => h)
      (fun _ _ h => h) ps tok top p c h
  | nu =>
    exact stateLetter_inv .nu .nul 0x6C [0x6E, 0x75] rfl (fun _ h => h) rfl (fun _ _ h => h)
      (fun _ _ h => h) ps tok top p c h
  | nul =>
    exact stateLastLetter_inv .nul 0x6C [0x6E, 0x75, 0x6C] .null rfl (fun _ h => h)
      .null (fun _ _ h => h) ps tok top p c h
  | error => exact trivial

/-- The scanner keeps the invariant over any input. -/
theorem foldl_inv (bs : Bytes) : ∀ (s : Scanner) (p : Bytes), Inv s p →
    Inv (bs.foldl Scanner.next s) (p ++ bs) := by
  induction bs with
  | nil =>
    intro s p h
    simpa using h
  | cons c cs ih =>
    intro s p h
    have := ih (s.next c) (p ++ [c]) (next_inv s p c h)
    simpa using this

/-- Method `scanner.reset` sets up the invariant. -/
theorem reset_inv : Inv Scanner.reset [] :=
  ⟨IsWs_nil, trivial⟩

/-- Method `scanner.eof` yields a value only when a JSON text has been read. -/
theorem eof_inv (s : Scanner) (p : Bytes) (v : JVal) (h : Inv s p) (he : s.eof = some v) :
    IsJSON p := by
  unfold Scanner.eof at he
  by_cases h1 : s.step = .error
  · rw [if_pos h1] at he
    cases he
  rw [if_neg h1] at he
  by_cases h2 : s.step = .endTop
  · unfold Inv at h
    rw [h2] at h
    exact h.2
  rw [if_neg h2] at he
  simp only [] at he
  by_cases h3 : (s.next 0x20).step = .endTop
  · have hn := next_inv s p 0x20 h
    unfold Inv at hn
    rw [h3] at hn
    exact IsJSON_of_snoc p 0x20 hn.2 (by decide)
  · rw [if_neg h3] at he
    cases he

/-- Function `checkValid` accepts only texts of the JSON grammar: whenever the scan of
`data` yields a value, `data` is a JSON text. -/
theorem scan_sound (data : Bytes) (v : JVal) (h : scan data = some v) : IsJSON data := by
  have hi := foldl_inv data Scanner.reset [] reset_inv
  rw [List.nil_append] at hi
  exact eof_inv _ data v hi h

/-- Function `checkValid` rejects every text that is not of the JSON grammar. -/
theorem scan_not_json (data : Bytes) (h : ¬ IsJSON data) : scan data = none := by
  cases hs : scan data with
  | none => rfl
  | some v => exact absurd (scan_sound data v hs) h

/-! ## The control flow of `main` -/

theorem main_no_args (lib : Lib) (args : List Bytes) (h : args.length < 2) :
    main lib args = osExit [.println (.text (ascii "No query was provided."))] 1 := by
  unfold main
  simp [h]

theorem main_marshal_error (lib : Lib) (args : List Bytes) (h : 2 ≤ args.length)
    (err : GoError) (hM : lib.Marshal (payload (args.getD 1 [])) = .error err) :
    main lib args = osExit [.marshal (payload (args.getD 1 [])), .println (.error err)] 1 := by
  unfold main
  rw [if_neg (Nat.not_lt.mpr h)]
  simp only [hM]
  rfl

theorem main_newRequest_error (lib : Lib) (args : List Bytes) (h : 2 ≤ args.length)
    (reqBody : Bytes) (err : GoError)
    (hM : lib.Marshal (payload (args.getD 1 [])) = .ok reqBody)
    (hN : lib.NewRequest "POST" completionsURL reqBody = .error err) :
    main lib args
      = osExit [.marshal (payload (args.getD 1 [])), .newRequest, .println (.error err)] 1 := by
  unfold main
  rw [if_neg (Nat.not_lt.mpr h)]
  simp only [hM, hN]
  rfl

theorem main_do_error (lib : Lib) (args : List Bytes) (h : 2 ≤ args.length)
    (reqBody : Bytes) (request0 : Request) (err : GoError)
    (hM : lib.Marshal (payload (args.getD 1 [])) = .ok reqBody)
    (hN : lib.NewRequest "POST" completionsURL reqBody = .ok request0)
    (hD : lib.Do (setHeaders request0) = .error err) :
    main lib args
      = osExit [.marshal (payload (args.getD 1 [])), .newRequest, .send (setHeaders request0),
          .println (.error err)] 1 := by
  unfold main
  rw [if_neg (Nat.not_lt.mpr h)]
  simp only [hM, hN, hD]
  rfl

theorem main_readAll_error (lib : Lib) (args : List Bytes) (h : 2 ≤ args.length)
    (reqBody : Bytes) (request0 : Request) (resp : Response) (err : GoError)
    (hM : lib.Marshal (payload (args.getD 1 [])) = .ok reqBody)
    (hN : lib.NewRequest "POST" completionsURL reqBody = .ok request0)
    (hD : lib.Do (setHeaders request0) = .ok resp)
    (hR : resp.body = .error err) :
    main lib args
      = osExit [.marshal (payload (args.getD 1 [])), .newRequest, .send (setHeaders request0),
          .readAll, .println (.error err)] 1 := by
  unfold main
  rw [if_neg (Nat.not_lt.mpr h)]
  simp only [hM, hN, hD, hR]
  rfl

theorem main_unmarshal_error (lib : Lib) (args : List Bytes) (h : 2 ≤ args.length)
    (reqBody : Bytes) (request0 : Request) (resp : Response) (respBody : Bytes)
    (v : OpenAIResponse) (err : GoError)
    (hM : lib.Marshal (payload (args.getD 1 [])) = .ok reqBody)
    (hN : lib.NewRequest "POST" completionsURL reqBody = .ok request0)
    (hD : lib.Do (setHeaders request0) = .ok resp)
    (hR : resp.body = .ok respBody)
    (hU : lib.Unmarshal respBody ⟨[]⟩ = (v, some err)) :
    main lib args
      = osExit [.marshal (payload (args.getD 1 [])), .newRequest, .send (setHeaders request0),
          .readAll, .unmarshal respBody, .println (.error err)] 1 := by
  unfold main
  rw [if_neg (Nat.not_lt.mpr h)]
  simp only [hM, hN, hD, hR, hU]
  rfl

theorem main_no_choice (lib : Lib) (args : List Bytes) (h : 2 ≤ args.length)
    (reqBody : Bytes) (request0 : Request) (resp : Response) (respBody : Bytes)
    (hM : lib.Marshal (payload (args.getD 1 [])) = .ok reqBody)
    (hN : lib.NewRequest "POST" completionsURL reqBody = .ok request0)
    (hD : lib.Do (setHeaders request0) = .ok resp)
    (hR : resp.body = .ok respBody)
    (hU : lib.Unmarshal respBody ⟨[]⟩ = (⟨[]⟩, none)) :
    main lib args
      = runtimePanic [.marshal (payload (args.getD 1 [])), .newRequest,
          .send (setHeaders request0), .readAll, .unmarshal respBody] [.closeBody] := by
  unfold main
  rw [if_neg (Nat.not_lt.mpr h)]
  simp only [hM, hN, hD, hR, hU]
  rfl

theorem main_first_choice (lib : Lib) (args : List Bytes) (h : 2 ≤ args.length)
    (reqBody : Bytes) (request0 : Request) (resp : Response) (respBody : Bytes)
    (c : Choice) (rest : List Choice)
    (hM : lib.Marshal (payload (args.getD 1 [])) = .ok reqBody)
    (hN : lib.NewRequest "POST" completionsURL reqBody = .ok request0)
    (hD : lib.Do (setHeaders request0) = .ok resp)
    (hR : resp.body = .ok respBody)
    (hU : lib.Unmarshal respBody ⟨[]⟩ = (⟨c :: rest⟩, none)) :
    main lib args
      = mainReturn [.marshal (payload (args.getD 1 [])), .newRequest,
          .send (setHeaders request0), .readAll, .unmarshal respBody,
          .println (.text c.Text)] [.closeBody] := by
  unfold main
  rw [if_neg (Nat.not_lt.mpr h)]
  simp only [hM, hN, hD, hR, hU]
  rfl

/-- C1: with no query in the argument vector (fewer than 2 elements), `main` prints the
fixed line "No query was provided.", ends with exit status 1 and makes no library call at
all: no request is built or sent. -/
theorem C1_no_query (lib : Lib) (args : List Bytes) (h : args.length < 2) :
    (main lib args).events = [.println (.text (ascii "No query was provided."))] ∧
    (main lib args).stdout = [.text (ascii "No query was provided.")] ∧
    (main lib args).termination = .exit 1 ∧
    (main lib args).termination.status = 1 ∧
    (main lib args).requests = [] := by
  rw [main_no_args lib args h]
  simp [osExit, Run.stdout, Run.requests, Termination.status]

/-- C1 at the argument vector that holds only the program name. -/
theorem C1_no_query_witness :
    (main (goLib foldRuneKS (replyWith 200 (.ok []))) [ascii "gpt2gpt"]).stdout
        = [.text (ascii "No query was provided.")] ∧
    (main (goLib foldRuneKS (replyWith 200 (.ok []))) [ascii "gpt2gpt"]).termination.status = 1 ∧
    (main (goLib foldRuneKS (replyWith 200 (.ok []))) [ascii "gpt2gpt"]).requests = [] :=
  have h := C1_no_query (goLib foldRuneKS (replyWith 200 (.ok []))) [ascii "gpt2gpt"] (by decide)
  ⟨h.2.1, h.2.2.2.1, h.2.2.2.2⟩

/-- C9: every handled failure is handled the same way. Whichever of `json.Marshal`,
`http.NewRequest`, `client.Do`, `ioutil.ReadAll` and `json.Unmarshal` is the first to
return an error, `main` prints that error as one line and calls `os.Exit(1)`; the steps
of the run are exactly the calls up to the failing one followed by that one print, so
none of the later steps is made (after a transport failure: no body read, no parse, no
completion printed). -/
theorem C9_failures_handled_alike (lib : Lib) (args : List Bytes) (h : 2 ≤ args.length) :
    (∀ err, lib.Marshal (payload (args.getD 1 [])) = .error err →
      main lib args = ⟨[.marshal (payload (args.getD 1 [])), .println (.error err)], .exit 1⟩) ∧
    (∀ reqBody err, lib.Marshal (payload (args.getD 1 [])) = .ok reqBody →
      lib.NewRequest "POST" completionsURL reqBody = .error err →
      main lib args = ⟨[.marshal (payload (args.getD 1 [])), .newRequest,
        .println (.error err)], .exit 1⟩) ∧
    (∀ reqBody request0 err, lib.Marshal (payload (args.getD 1 [])) = .ok reqBody →
      lib.NewRequest "POST" completionsURL reqBody = .ok request0 →
      lib.Do (setHeaders request0) = .error err →
      main lib args = ⟨[.marshal (payload (args.getD 1 [])), .newRequest,
        .send (setHeaders request0), .println (.error err)], .exit 1⟩) ∧
    (∀ reqBody request0 resp err, lib.Marshal (payload (args.getD 1 [])) = .ok reqBody →
      lib.NewRequest "POST" completionsURL reqBody = .ok request0 →
      lib.Do (setHeaders request0) = .ok resp →
      resp.body = .error err →
      main lib args = ⟨[.marshal (payload (args.getD 1 [])), .newRequest,
        .send (setHeaders request0), .readAll, .println (.error err)], .exit 1⟩) ∧
    (∀ reqBody request0 resp respBody v err,
      lib.Marshal (payload (args.getD 1 [])) = .ok reqBody →
      lib.NewRequest "POST" completionsURL reqBody = .ok request0 →
      lib.Do (setHeaders request0) = .ok resp →
      resp.body = .ok respBody →
      lib.Unmarshal respBody ⟨[]⟩ = (v, some err) →
      main lib args = ⟨[.marshal (payload (args.getD 1 [])), .newRequest,
        .send (setHeaders request0), .readAll, .unmarshal respBody,
        .println (.error err)], .exit 1⟩) :=
  ⟨fun err hM => main_marshal_error lib args h err hM,
   fun reqBody err hM hN => main_newRequest_error lib args h reqBody err hM hN,
   fun reqBody request0 err hM hN hD => main_do_error lib args h reqBody request0 err hM hN hD,
   fun reqBody request0 resp err hM hN hD hR =>
     main_readAll_error lib args h reqBody request0 resp err hM hN hD hR,
   fun reqBody request0 resp respBody v err hM hN hD hR hU =>
     main_unmarshal_error lib args h reqBody request0 resp respBody v err hM hN hD hR hU⟩

/-- C9 at the query `hello`: a transport failure, a body-read failure and a response that
does not parse each end in one printed error and exit status 1; after the transport
failure the body is neither read nor parsed. -/
theorem C9_failures_handled_alike_witness :
    main (goLib foldRuneKS (failWith (.other "connection refused")))
        [ascii "gpt2gpt", ascii "hello"]
      = ⟨[.marshal (payload (ascii "hello")), .newRequest,
          .send (setHeaders ⟨"POST", completionsURL, [], marshalRequest (payload (ascii "hello"))⟩),
          .println (.error (.other "connection refused"))], .exit 1⟩ ∧
    main (goLib foldRuneKS (replyWith 200 (.error (.other "unexpected EOF"))))
        [ascii "gpt2gpt", ascii "hello"]
      = ⟨[.marshal (payload (ascii "hello")), .newRequest,
          .send (setHeaders ⟨"POST", completionsURL, [], marshalRequest (payload (ascii "hello"))⟩),
          .readAll, .println (.error (.other "unexpected EOF"))], .exit 1⟩ ∧
    main (goLib foldRuneKS (replyWith 200 (.ok (ascii "<html>"))))
        [ascii "gpt2gpt", ascii "hello"]
      = ⟨[.marshal (payload (ascii "hello")), .newRequest,
          .send (setHeaders ⟨"POST", completionsURL, [], marshalRequest (payload (ascii "hello"))⟩),
          .readAll, .unmarshal (ascii "<html>"), .println (.error .syntaxError)], .exit 1⟩ :=
  ⟨(C9_failures_handled_alike (goLib foldRuneKS (failWith (.other "connection refused")))
      [ascii "gpt2gpt", ascii "hello"] (by decide)).2.2.1 _ _ _ rfl rfl rfl,
   (C9_failures_handled_alike (goLib foldRuneKS (replyWith 200 (.error (.other "unexpected EOF"))))
      [ascii "gpt2gpt", ascii "hello"] (by decide)).2.2.2.1 _ _ _ _ rfl rfl rfl rfl,
   (C9_failures_handled_alike (goLib foldRuneKS (replyWith 200 (.ok (ascii "<html>"))))
      [ascii "gpt2gpt", ascii "hello"] (by decide)).2.2.2.2 _ _ _ _ ⟨[]⟩ _ rfl rfl rfl rfl rfl⟩


/-- C3: when the response body decodes without error to a choices list with at least one
element, `main` prints the text of the first choice and nothing else, whatever the later
choices are, then returns (exit status 0). -/
theorem C3_prints_first_choice (lib : Lib) (args : List Bytes) (h : 2 ≤ args.length)
    (reqBody : Bytes) (request0 : Request) (resp : Response) (respBody : Bytes)
    (c : Choice) (rest : List Choice)
    (hM : lib.Marshal (payload (args.getD 1 [])) = .ok reqBody)
    (hN : lib.NewRequest "POST" completionsURL reqBody = .ok request0)
    (hD : lib.Do (setHeaders request0) = .ok resp)
    (hR : resp.body = .ok respBody)
    (hU : lib.Unmarshal respBody ⟨[]⟩ = (⟨c :: rest⟩, none)) :
    (main lib args).stdout = [.text c.Text] ∧
    (main lib args).termination = .returned ∧
    (main lib args).termination.status = 0 := by
  rw [main_first_choice lib args h reqBody request0 resp respBody c rest hM hN hD hR hU]
  simp [mainReturn, Run.stdout, Termination.status]

/-- C3 at the response body `{"choices":[{"text":"world"}]}`: the output is `world` and
the exit status 0; a second choice in the body changes nothing. -/
theorem C3_prints_first_choice_witness :
    Unmarshal foldRuneKS (ascii "\x7b\"choices\":[\x7b\"text\":\"world\"\x7d]\x7d") ⟨[]⟩
      = (⟨[⟨ascii "world"⟩]⟩, none) ∧
    (main (goLib foldRuneKS (replyWith 200 (.ok (ascii "\x7b\"choices\":[\x7b\"text\":\"world\"\x7d]\x7d"))))
      [ascii "gpt2gpt", ascii "hello"]).stdout = [.text (ascii "world")] ∧
    (main (goLib foldRuneKS (replyWith 200 (.ok (ascii "\x7b\"choices\":[\x7b\"text\":\"world\"\x7d]\x7d"))))
      [ascii "gpt2gpt", ascii "hello"]).termination.status = 0 ∧
    (main (goLib foldRuneKS (replyWith 200
        (.ok (ascii "\x7b\"choices\":[\x7b\"text\":\"world\"\x7d,\x7b\"text\":\"moon\"\x7d]\x7d"))))
      [ascii "gpt2gpt", ascii "hello"]).stdout = [.text (ascii "world")] :=
  have h1 := C3_prints_first_choice
    (goLib foldRuneKS (replyWith 200 (.ok (ascii "\x7b\"choices\":[\x7b\"text\":\"world\"\x7d]\x7d"))))
    [ascii "gpt2gpt", ascii "hello"] (by decide) _ _ _ _ ⟨ascii "world"⟩ [] rfl rfl rfl rfl rfl
  have h2 := C3_prints_first_choice
    (goLib foldRuneKS (replyWith 200
      (.ok (ascii "\x7b\"choices\":[\x7b\"text\":\"world\"\x7d,\x7b\"text\":\"moon\"\x7d]\x7d"))))
    [ascii "gpt2gpt", ascii "hello"] (by decide) _ _ _ _ ⟨ascii "world"⟩ [⟨ascii "moon"⟩]
    rfl rfl rfl rfl rfl
  ⟨rfl, h1.1, h1.2.2, h2.1⟩

/-- C5: when the response body decodes without error to an empty choices list, the index
expression `Choices[0]` is out of range: the run ends in a run-time panic (exit status 2),
with nothing printed on standard output; it does not end with status 0 and does not go
through a print-error-and-exit-1 branch. -/
theorem C5_empty_choices_panics (lib : Lib) (args : List Bytes) (h : 2 ≤ args.length)
    (reqBody : Bytes) (request0 : Request) (resp : Response) (respBody : Bytes)
    (hM : lib.Marshal (payload (args.getD 1 [])) = .ok reqBody)
    (hN : lib.NewRequest "POST" completionsURL reqBody = .ok request0)
    (hD : lib.Do (setHeaders request0) = .ok resp)
    (hR : resp.body = .ok respBody)
    (hU : lib.Unmarshal respBody ⟨[]⟩ = (⟨[]⟩, none)) :
    (main lib args).termination = .panicked ∧
    (main lib args).stdout = [] ∧
    (main lib args).termination.status ≠ 0 ∧
    (main lib args).termination ≠ .exit 1 ∧
    (main lib args).events = [.marshal (payload (args.getD 1 [])), .newRequest,
      .send (setHeaders request0), .readAll, .unmarshal respBody, .closeBody] := by
  rw [main_no_choice lib args h reqBody request0 resp respBody hM hN hD hR hU]
  simp [runtimePanic, Run.stdout, Termination.status]

/-- C5 at the response body `{"choices":[]}`. -/
theorem C5_empty_choices_panics_witness :
    Unmarshal foldRuneKS (ascii "\x7b\"choices\":[]\x7d") ⟨[]⟩ = (⟨[]⟩, none) ∧
    (main (goLib foldRuneKS (replyWith 200 (.ok (ascii "\x7b\"choices\":[]\x7d"))))
      [ascii "gpt2gpt", ascii "hello"]).termination = .panicked ∧
    (main (goLib foldRuneKS (replyWith 200 (.ok (ascii "\x7b\"choices\":[]\x7d"))))
      [ascii "gpt2gpt", ascii "hello"]).stdout = [] :=
  have h := C5_empty_choices_panics
    (goLib foldRuneKS (replyWith 200 (.ok (ascii "\x7b\"choices\":[]\x7d"))))
    [ascii "gpt2gpt", ascii "hello"] (by decide) _ _ _ _ rfl rfl rfl rfl rfl
  ⟨rfl, h.1, h.2.1⟩

/-- C6 (evaluated where the code departs from it): after a successful request whose body
does not parse, and after one whose body cannot be read, `main` calls `os.Exit(1)`, which
does not run the deferred `resp.Body.Close()`: the run ends with the body still open.
Only on return and on the panic is the body closed. -/
theorem C6_body_left_open_on_exit :
    (main (goLib foldRuneKS (replyWith 200 (.ok (ascii "not json"))))
      [ascii "gpt2gpt", ascii "hello"]).termination = .exit 1 ∧
    Event.closeBody ∉ (main (goLib foldRuneKS (replyWith 200 (.ok (ascii "not json"))))
      [ascii "gpt2gpt", ascii "hello"]).events ∧
    Event.readAll ∈ (main (goLib foldRuneKS (replyWith 200 (.ok (ascii "not json"))))
      [ascii "gpt2gpt", ascii "hello"]).events ∧
    (main (goLib foldRuneKS (replyWith 200 (.error (.other "unexpected EOF"))))
      [ascii "gpt2gpt", ascii "hello"]).termination = .exit 1 ∧
    Event.closeBody ∉ (main (goLib foldRuneKS (replyWith 200 (.error (.other "unexpected EOF"))))
      [ascii "gpt2gpt", ascii "hello"]).events ∧
    Event.closeBody ∈ (main (goLib foldRuneKS
        (replyWith 200 (.ok (ascii "\x7b\"choices\":[\x7b\"text\":\"world\"\x7d]\x7d"))))
      [ascii "gpt2gpt", ascii "hello"]).events := by
  refine ⟨rfl, ?_, ?_, rfl, ?_, ?_⟩
  · rw [main_unmarshal_error _ _ (by decide) _ _ _ _ ⟨[]⟩ .syntaxError rfl rfl rfl rfl rfl]
    simp [osExit]
  · rw [main_unmarshal_error _ _ (by decide) _ _ _ _ ⟨[]⟩ .syntaxError rfl rfl rfl rfl rfl]
    simp [osExit]
  · rw [main_readAll_error _ _ (by decide) _ _ _ (.other "unexpected EOF") rfl rfl rfl rfl]
    simp [osExit]
  · rw [main_first_choice _ _ (by decide) _ _ _ _ ⟨ascii "world"⟩ [] rfl rfl rfl rfl rfl]
    simp [mainReturn]

/-- The status code plays no part: the run is a function of the other library results. -/
theorem main_status_irrelevant (lib1 lib2 : Lib) (args : List Bytes)
    (hM : lib1.Marshal = lib2.Marshal) (hN : lib1.NewRequest = lib2.NewRequest)
    (hU : lib1.Unmarshal = lib2.Unmarshal)
    (hD : ∀ r, (lib1.Do r).map Response.body = (lib2.Do r).map Response.body) :
    main lib1 args = main lib2 args := by
  unfold main
  rw [hM, hN, hU]
  split
  · rfl
  · dsimp only
    cases lib2.Marshal (payload (args.getD 1 [])) with
    | error e => rfl
    | ok reqBody =>
      dsimp only
      cases lib2.NewRequest "POST" completionsURL reqBody with
      | error e => rfl
      | ok request0 =>
        dsimp only
        have hd := hD (setHeaders request0)
        cases h1 : lib1.Do (setHeaders request0) with
        | error e1 =>
          cases h2 : lib2.Do (setHeaders request0) with
          | error e2 =>
            rw [h1, h2] at hd
            simp [Except.map] at hd
            subst hd; rfl
          | ok r2 => rw [h1, h2] at hd; simp [Except.map] at hd
        | ok r1 =>
          cases h2 : lib2.Do (setHeaders request0) with
          | error e2 => rw [h1, h2] at hd; simp [Except.map] at hd
          | ok r2 =>
            rw [h1, h2] at hd
            simp [Except.map] at hd
            dsimp only
            rw [hd]

/-- C7: two runs with the same query whose library calls behave alike except that the
transport may answer with different status codes (same error, or same response body)
take the same steps, print the same lines and end the same way: the status code is never
looked at, and the body is read and parsed whatever it is. -/
theorem C7_status_code_ignored (lib1 lib2 : Lib) (args : List Bytes)
    (hM : lib1.Marshal = lib2.Marshal) (hN : lib1.NewRequest = lib2.NewRequest)
    (hU : lib1.Unmarshal = lib2.Unmarshal)
    (hD : ∀ r, (lib1.Do r).map Response.body = (lib2.Do r).map Response.body) :
    (main lib1 args).stdout = (main lib2 args).stdout ∧
    (main lib1 args).termination.status = (main lib2 args).termination.status ∧
    (main lib1 args).events = (main lib2 args).events := by
  rw [main_status_irrelevant lib1 lib2 args hM hN hU hD]
  exact ⟨rfl, rfl, rfl⟩

/-- C7 at the statuses 200 and 429 with the same body `{"choices":[{"text":"world"}]}`:
both runs print `world` and end with status 0. -/
theorem C7_status_code_ignored_witness :
    (main (goLib foldRuneKS (replyWith 200 (.ok (ascii "\x7b\"choices\":[\x7b\"text\":\"world\"\x7d]\x7d"))))
      [ascii "gpt2gpt", ascii "hello"]).stdout
    = (main (goLib foldRuneKS (replyWith 429 (.ok (ascii "\x7b\"choices\":[\x7b\"text\":\"world\"\x7d]\x7d"))))
      [ascii "gpt2gpt", ascii "hello"]).stdout ∧
    (main (goLib foldRuneKS (replyWith 200 (.ok (ascii "\x7b\"choices\":[\x7b\"text\":\"world\"\x7d]\x7d"))))
      [ascii "gpt2gpt", ascii "hello"]).termination.status
    = (main (goLib foldRuneKS (replyWith 429 (.ok (ascii "\x7b\"choices\":[\x7b\"text\":\"world\"\x7d]\x7d"))))
      [ascii "gpt2gpt", ascii "hello"]).termination.status :=
  have h := C7_status_code_ignored
    (goLib foldRuneKS (replyWith 200 (.ok (ascii "\x7b\"choices\":[\x7b\"text\":\"world\"\x7d]\x7d"))))
    (goLib foldRuneKS (replyWith 429 (.ok (ascii "\x7b\"choices\":[\x7b\"text\":\"world\"\x7d]\x7d"))))
    [ascii "gpt2gpt", ascii "hello"] rfl rfl rfl (fun _ => rfl)
  ⟨h.1, h.2.1⟩

/-! ## Decoding the response -/

theorem foldName_choices (foldRune : Nat → Nat) :
    foldName foldRune (ascii "choices") = ascii "CHOICES" := by
  rfl

theorem lookupField_choices_none (foldRune : Nat → Nat) (key : Bytes)
    (h : foldName foldRune key ≠ ascii "CHOICES") :
    lookupField foldRune [ascii "choices"] key = none := by
  have hne : key ≠ ascii "choices" := by
    intro he
    exact h (he ▸ foldName_choices foldRune)
  have h1 : ([ascii "choices"] : List Bytes).indexOf? key = none := by
    simp [List.indexOf?, List.findIdx?_cons, List.findIdx?_nil]
    exact fun he => hne he.symm
  have h2 : ([ascii "choices"].map (foldName foldRune)).indexOf? (foldName foldRune key) = none := by
    simp [List.indexOf?, List.findIdx?_cons, List.findIdx?_nil, foldName_choices]
    exact fun he => h he.symm
  unfold lookupField
  rw [h1]
  exact h2

theorem decodeMembers_skip (foldRune : Nat → Nat) (ms : List (Bytes × JVal))
    (acc : ChoiceSlice × Option GoError)
    (hK : ∀ m ∈ ms, foldName foldRune m.1 ≠ ascii "CHOICES") :
    ms.foldl (fun acc m =>
        let r := storeResponseField foldRune m.1 m.2 acc.1; (r.1, saveError acc.2 r.2)) acc
      = acc := by
  induction ms generalizing acc with
  | nil => rfl
  | cons m ms ih =>
    rw [List.foldl_cons]
    have hm : storeResponseField foldRune m.1 m.2 acc.1 = (acc.1, none) := by
      unfold storeResponseField
      rw [lookupField_choices_none foldRune m.1 (hK m (List.mem_cons_self _ _))]
    have hs : saveError acc.2 none = acc.2 := by
      unfold saveError
      cases acc.2 <;> rfl
    simp only [hm, hs]
    exact ih acc (fun m' hm' => hK m' (List.mem_cons_of_mem _ hm'))

theorem Unmarshal_no_choices (foldRune : Nat → Nat) (data : Bytes) (ms : List (Bytes × JVal))
    (cur : OpenAIResponse)
    (hS : scan data = some (.object ms))
    (hK : ∀ m ∈ ms, foldName foldRune m.1 ≠ ascii "CHOICES") :
    Unmarshal foldRune data cur = (cur, none) := by
  unfold Unmarshal
  rw [hS]
  simp only [decodeResponse, decodeStruct, decodeMembers]
  rw [decodeMembers_skip foldRune ms _ hK]

theorem Unmarshal_syntax_error (foldRune : Nat → Nat) (data : Bytes) (cur : OpenAIResponse)
    (hS : scan data = none) :
    Unmarshal foldRune data cur = (cur, some .syntaxError) := by
  unfold Unmarshal
  rw [hS]

/-- C4, amended: when the response body is not a text of the JSON grammar read over bytes
(in which the bytes inside a string literal need not be valid UTF-8), `json.Unmarshal`
returns a syntax error; `main` prints that error, calls
`os.Exit(1)` and prints no completion text: the index expression and the last print are
not reached. -/
theorem C4_malformed_body (foldRune : Nat → Nat) (transport : Request → Except GoError Response)
    (args : List Bytes) (h : 2 ≤ args.length) (resp : Response) (respBody : Bytes)
    (hD : transport (setHeaders ⟨"POST", completionsURL, [],
      marshalRequest (payload (args.getD 1 []))⟩) = .ok resp)
    (hR : resp.body = .ok respBody)
    (hJ : ¬ IsJSON respBody) :
    Unmarshal foldRune respBody ⟨[]⟩ = (⟨[]⟩, some .syntaxError) ∧
    (main (goLib foldRune transport) args).stdout = [.error .syntaxError] ∧
    (main (goLib foldRune transport) args).termination = .exit 1 ∧
    (main (goLib foldRune transport) args).termination.status ≠ 0 ∧
    (main (goLib foldRune transport) args).events =
      [.marshal (payload (args.getD 1 [])), .newRequest,
       .send (setHeaders ⟨"POST", completionsURL, [], marshalRequest (payload (args.getD 1 []))⟩),
       .readAll, .unmarshal respBody, .println (.error .syntaxError)] := by
  have hU := Unmarshal_syntax_error foldRune respBody ⟨[]⟩ (scan_not_json respBody hJ)
  rw [main_unmarshal_error (goLib foldRune transport) args h _ _ resp respBody ⟨[]⟩ .syntaxError
    rfl rfl hD hR hU]
  simp [hU, osExit, Run.stdout, Termination.status]

/-- C4 at the response body `<html>Bad Gateway</html>`, which is not a JSON text: no value
begins with `<`. -/
theorem C4_malformed_body_witness :
    ¬ IsJSON (ascii "<html>Bad Gateway</html>") ∧
    (main (goLib foldRuneKS (replyWith 502 (.ok (ascii "<html>Bad Gateway</html>"))))
      [ascii "gpt2gpt", ascii "hello"]).stdout = [.error .syntaxError] ∧
    (main (goLib foldRuneKS (replyWith 502 (.ok (ascii "<html>Bad Gateway</html>"))))
      [ascii "gpt2gpt", ascii "hello"]).termination = .exit 1 :=
  have hJ : ¬ IsJSON (ascii "<html>Bad Gateway</html>") :=
    fun hj => absurd (IsJSON_startsValue _ hj) (by decide)
  have h := C4_malformed_body foldRuneKS (replyWith 502 (.ok (ascii "<html>Bad Gateway</html>")))
    [ascii "gpt2gpt", ascii "hello"] (by decide) _ _ rfl rfl hJ
  ⟨hJ, h.2.1, h.2.2.1⟩

/-- C4 as stated fails at the body `{"choices":[{"text":"?"}]}` in which `?` is the single
byte `0xFF`: the body is not valid UTF-8, so it is not a JSON text in the strict sense of
RFC 8259, yet `json.Unmarshal` returns no error (it reads the byte as U+FFFD) and `main`
prints the replacement character as the completion and returns with status 0. The only
defect of the body is the encoding inside the string: it is a text of the grammar. -/
theorem C4_counterexample :
    utf8Valid (ascii "\x7b\"choices\":[\x7b\"text\":\"" ++ [0xFF] ++ ascii "\"\x7d]\x7d") = false ∧
    ¬ IsStrictJSON (ascii "\x7b\"choices\":[\x7b\"text\":\"" ++ [0xFF] ++ ascii "\"\x7d]\x7d") ∧
    IsJSON (ascii "\x7b\"choices\":[\x7b\"text\":\"" ++ [0xFF] ++ ascii "\"\x7d]\x7d") ∧
    Unmarshal foldRuneKS (ascii "\x7b\"choices\":[\x7b\"text\":\"" ++ [0xFF] ++ ascii "\"\x7d]\x7d") ⟨[]⟩
      = (⟨[⟨[0xEF, 0xBF, 0xBD]⟩]⟩, none) ∧
    (main (goLib foldRuneKS (replyWith 200
        (.ok (ascii "\x7b\"choices\":[\x7b\"text\":\"" ++ [0xFF] ++ ascii "\"\x7d]\x7d"))))
      [ascii "gpt2gpt", ascii "hello"]).stdout = [.text [0xEF, 0xBF, 0xBD]] ∧
    (main (goLib foldRuneKS (replyWith 200
        (.ok (ascii "\x7b\"choices\":[\x7b\"text\":\"" ++ [0xFF] ++ ascii "\"\x7d]\x7d"))))
      [ascii "gpt2gpt", ascii "hello"]).termination = .returned ∧
    (main (goLib foldRuneKS (replyWith 200
        (.ok (ascii "\x7b\"choices\":[\x7b\"text\":\"" ++ [0xFF] ++ ascii "\"\x7d]\x7d"))))
      [ascii "gpt2gpt", ascii "hello"]).termination.status = 0 := by
  have hm := main_first_choice
    (goLib foldRuneKS (replyWith 200
      (.ok (ascii "\x7b\"choices\":[\x7b\"text\":\"" ++ [0xFF] ++ ascii "\"\x7d]\x7d"))))
    [ascii "gpt2gpt", ascii "hello"] (by decide) _ _ _ _ ⟨[0xEF, 0xBF, 0xBD]⟩ []
    rfl rfl rfl rfl (by rfl)
  refine ⟨by decide, fun hs => absurd hs.2 (by decide), scan_sound _ _ (by rfl), by rfl,
    ?_, ?_, ?_⟩
  · rw [hm]
    simp [mainReturn, Run.stdout]
  · rw [hm]
    simp [mainReturn]
  · rw [hm]
    simp [mainReturn, Termination.status]

/-! ## UTF-8: `decodeRune` and `encodeRune` -/

theorem first_ascii (b : Nat) (h : b < 0x80) : first b = 0xF0 := by
  unfold first
  rw [if_pos h]

theorem first_invalid (b : Nat) (h : 0x80 ≤ b ∧ b < 0xC2 ∨ 0xF5 ≤ b) : first b = 0xF1 := by
  unfold first
  split_ifs <;> omega

theorem first_two (b : Nat) (h0 : 0xC2 ≤ b) (h1 : b ≤ 0xDF) : first b = 0x02 := by
  unfold first
  split_ifs <;> omega

theorem first_three (b : Nat) (h : 0xE1 ≤ b ∧ b ≤ 0xEC ∨ 0xEE ≤ b ∧ b ≤ 0xEF) :
    first b = 0x03 := by
  unfold first
  split_ifs <;> omega

theorem first_four (b : Nat) (h0 : 0xF1 ≤ b) (h1 : b ≤ 0xF3) : first b = 0x04 := by
  unfold first
  split_ifs <;> omega

/-- The value of `first` on each range of lead bytes. -/
theorem first_cases (b : Nat) :
    (b < 0x80 ∧ first b = 0xF0) ∨
    ((0x80 ≤ b ∧ b < 0xC2 ∨ 0xF5 ≤ b) ∧ first b = 0xF1) ∨
    (0xC2 ≤ b ∧ b ≤ 0xDF ∧ first b = 0x02) ∨
    (b = 0xE0 ∧ first b = 0x13) ∨
    ((0xE1 ≤ b ∧ b ≤ 0xEC ∨ 0xEE ≤ b ∧ b ≤ 0xEF) ∧ first b = 0x03) ∨
    (b = 0xED ∧ first b = 0x23) ∨
    (b = 0xF0 ∧ first b = 0x34) ∨
    (0xF1 ≤ b ∧ b ≤ 0xF3 ∧ first b = 0x04) ∨
    (b = 0xF4 ∧ first b = 0x44) := by
  by_cases h1 : b < 0x80
  · exact Or.inl ⟨h1, first_ascii b h1⟩
  by_cases h2 : b < 0xC2 ∨ 0xF5 ≤ b
  · exact Or.inr (Or.inl ⟨by omega, first_invalid b (by omega)⟩)
  by_cases h3 : b ≤ 0xDF
  · exact Or.inr (Or.inr (Or.inl ⟨by omega, h3, first_two b (by omega) h3⟩))
  by_cases h4 : b = 0xE0
  · exact Or.inr (Or.inr (Or.inr (Or.inl ⟨h4, by subst h4; rfl⟩)))
  by_cases h5 : b = 0xED
  · exact Or.inr (Or.inr (Or.inr (Or.inr (Or.inr (Or.inl ⟨h5, by subst h5; rfl⟩)))))
  by_cases h6 : b ≤ 0xEF
  · exact Or.inr (Or.inr (Or.inr (Or.inr (Or.inl ⟨by omega, first_three b (by omega)⟩))))
  by_cases h7 : b = 0xF0
  · exact Or.inr (Or.inr (Or.inr (Or.inr (Or.inr (Or.inr (Or.inl ⟨h7, by subst h7; rfl⟩))))))
  by_cases h8 : b = 0xF4
  · exact Or.inr (Or.inr (Or.inr (Or.inr (Or.inr (Or.inr (Or.inr (Or.inr
      ⟨h8, by subst h8; rfl⟩)))))))
  · exact Or.inr (Or.inr (Or.inr (Or.inr (Or.inr (Or.inr (Or.inr (Or.inl
      ⟨by omega, by omega, first_four b (by omega) (by omega)⟩)))))))

/-- The continuation-byte tests of `decodeRune` for a lead byte with `first b = x`. -/
theorem decodeRune_eq (b : Nat) (rest : Bytes) (x : Nat) (hx : first b = x) (hlt : x < 0xF0) :
    decodeRune (b :: rest) =
      match rest with
      | [] => (RuneError, 1)
      | b1 :: rest1 =>
        if b1 < (acceptRanges (x / 16)).1 ∨ (acceptRanges (x / 16)).2 < b1 then (RuneError, 1)
        else if x % 8 ≤ 2 then ((b % 32) * 64 + b1 % 64, 2)
        else
          match rest1 with
          | [] => (RuneError, 1)
          | b2 :: rest2 =>
            if b2 < 0x80 ∨ 0xBF < b2 then (RuneError, 1)
            else if x % 8 ≤ 3 then ((b % 16) * 4096 + (b1 % 64) * 64 + b2 % 64, 3)
            else
              match rest2 with
              | [] => (RuneError, 1)
              | b3 :: _ =>
                if b3 < 0x80 ∨ 0xBF < b3 then (RuneError, 1)
                else ((b % 8) * 262144 + (b1 % 64) * 4096 + (b2 % 64) * 64 + b3 % 64, 4) := by
  subst hx
  conv_lhs => unfold decodeRune
  simp only
  rw [if_neg (by omega)]
  rcases rest with _ | ⟨b1, _ | ⟨b2, _ | ⟨b3, tl⟩⟩⟩ <;> rfl

theorem decodeRune_invalid_lead (b : Nat) (rest : Bytes)
    (h : 0x80 ≤ b ∧ b < 0xC2 ∨ 0xF5 ≤ b) : decodeRune (b :: rest) = (RuneError, 1) := by
  unfold decodeRune
  simp only [first_invalid b h]
  rfl

theorem runeAt_two (b b1 : Nat) (tl : Bytes) (h0 : 0xC2 ≤ b) (h1 : b ≤ 0xDF)
    (h2 : 0x80 ≤ b1) (h3 : b1 ≤ 0xBF) :
    RuneAt b (b1 :: tl) [b, b1] ((b % 32) * 64 + b1 % 64) := by
  refine ⟨⟨tl, rfl⟩, by simp, ?_, ?_, ?_, ?_, ?_, ?_⟩
  · intro c hc
    simp at hc
    omega
  · unfold encodeRune
    rw [if_neg (by omega), if_pos (by omega)]
    congr 1
    · omega
    · congr 1; omega
  · intro ys
    rw [List.cons_append, List.cons_append, List.nil_append,
      decodeRune_eq b _ _ (first_two b h0 h1) (by norm_num)]
    simp only [acceptRanges]
    rw [if_neg (by omega), if_pos (by norm_num)]
    rfl
  · intro h; omega
  · intro h; omega
  · omega


theorem runeAt_three (b b1 b2 : Nat) (tl : Bytes) (x lo hi : Nat)
    (hx : first b = x) (hxlt : x < 0xF0) (hsz : x % 8 = 3)
    (hacc : acceptRanges (x / 16) = (lo, hi))
    (hb0 : 0xE0 ≤ b) (hb1 : b ≤ 0xEF) (h1 : lo ≤ b1) (h1' : b1 ≤ hi)
    (hlo : 0x80 ≤ lo) (hhi : hi ≤ 0xBF) (hE0 : b = 0xE0 → 0xA0 ≤ lo) (hED : b = 0xED → hi ≤ 0x9F)
    (h2 : 0x80 ≤ b2) (h2' : b2 ≤ 0xBF) :
    RuneAt b (b1 :: b2 :: tl) [b, b1, b2] ((b % 16) * 4096 + (b1 % 64) * 64 + b2 % 64) := by
  refine ⟨⟨tl, rfl⟩, by simp, ?_, ?_, ?_, ?_, ?_, ?_⟩
  · intro c hc
    simp at hc
    omega
  · unfold encodeRune
    rw [if_neg (by omega), if_neg (by omega), if_neg (by omega), if_pos (by omega)]
    congr 1
    · omega
    · congr 1
      · omega
      · congr 1; omega
  · intro ys
    rw [List.cons_append, List.cons_append, List.cons_append, List.nil_append,
      decodeRune_eq b _ _ hx hxlt]
    simp only [hacc, hsz]
    rw [if_neg (by omega), if_neg (by norm_num)]
    show (if b2 < 0x80 ∨ 0xBF < b2 then _ else _) = _
    rw [if_neg (by omega), if_pos (by norm_num)]
    rfl
  · intro h
    have e0 : b = 0xE2 := by omega
    have e1 : b1 = 0x80 := by omega
    have e2 : b2 = 0xA8 := by omega
    subst e0 e1 e2; rfl
  · intro h
    have e0 : b = 0xE2 := by omega
    have e1 : b1 = 0x80 := by omega
    have e2 : b2 = 0xA9 := by omega
    subst e0 e1 e2; rfl
  · omega

theorem runeAt_four (b b1 b2 b3 : Nat) (tl : Bytes) (x lo hi : Nat)
    (hx : first b = x) (hxlt : x < 0xF0) (hsz : x % 8 = 4)
    (hacc : acceptRanges (x / 16) = (lo, hi))
    (hb0 : 0xF0 ≤ b) (hb1 : b ≤ 0xF4) (h1 : lo ≤ b1) (h1' : b1 ≤ hi)
    (hlo : 0x80 ≤ lo) (hhi : hi ≤ 0xBF) (hF0 : b = 0xF0 → 0x90 ≤ lo) (hF4 : b = 0xF4 → hi ≤ 0x8F)
    (h2 : 0x80 ≤ b2) (h2' : b2 ≤ 0xBF) (h3 : 0x80 ≤ b3) (h3' : b3 ≤ 0xBF) :
    RuneAt b (b1 :: b2 :: b3 :: tl) [b, b1, b2, b3]
      ((b % 8) * 262144 + (b1 % 64) * 4096 + (b2 % 64) * 64 + b3 % 64) := by
  refine ⟨⟨tl, rfl⟩, by simp, ?_, ?_, ?_, ?_, ?_, ?_⟩
  · intro c hc
    simp at hc
    omega
  · unfold encodeRune
    rw [if_neg (by omega), if_neg (by omega), if_neg (by omega), if_neg (by omega)]
    congr 1
    · omega
    · congr 1
      · omega
      · congr 1
        · omega
        · congr 1; omega
  · intro ys
    rw [List.cons_append, List.cons_append, List.cons_append, List.cons_append, List.nil_append,
      decodeRune_eq b _ _ hx hxlt]
    simp only [hacc, hsz]
    rw [if_neg (by omega), if_neg (by norm_num)]
    show (if b2 < 0x80 ∨ 0xBF < b2 then _ else _) = _
    rw [if_neg (by omega), if_neg (by norm_num)]
    show (if b3 < 0x80 ∨ 0xBF < b3 then _ else _) = _
    rw [if_neg (by omega)]
    rfl
  · intro h; omega
  · intro h; omega
  · omega


/-- The continuation of `decodeRune_eq` for a three-byte lead. -/
theorem decodeRune_three_cases (b : Nat) (rest : Bytes) (x lo hi : Nat)
    (hx : first b = x) (hxlt : x < 0xF0) (hsz : x % 8 = 3)
    (hacc : acceptRanges (x / 16) = (lo, hi))
    (hb0 : 0xE0 ≤ b) (hb1 : b ≤ 0xEF)
    (hlo : 0x80 ≤ lo) (hhi : hi ≤ 0xBF) (hE0 : b = 0xE0 → 0xA0 ≤ lo) (hED : b = 0xED → hi ≤ 0x9F) :
    decodeRune (b :: rest) = (RuneError, 1) ∨
    ∃ chunk r, decodeRune (b :: rest) = (r, chunk.length) ∧ RuneAt b rest chunk r := by
  by_cases hr : ∃ b1 b2 tl, rest = b1 :: b2 :: tl ∧
      lo ≤ b1 ∧ b1 ≤ hi ∧ 0x80 ≤ b2 ∧ b2 ≤ 0xBF
  · obtain ⟨b1, b2, tl, rfl, h1, h1', h2, h2'⟩ := hr
    right
    have hR := runeAt_three b b1 b2 tl x lo hi hx hxlt hsz hacc hb0 hb1 h1 h1' hlo hhi
      hE0 hED h2 h2'
    exact ⟨_, _, hR.2.2.2.2.1 tl, hR⟩
  · left
    rw [decodeRune_eq b _ _ hx hxlt]
    rcases rest with _ | ⟨b1, rest1⟩
    · rfl
    simp only [hacc, hsz]
    by_cases hc1 : b1 < lo ∨ hi < b1
    · rw [if_pos hc1]
    rw [if_neg hc1, if_neg (by norm_num)]
    rcases rest1 with _ | ⟨b2, tl⟩
    · rfl
    show (if b2 < 0x80 ∨ 0xBF < b2 then _ else _) = _
    by_cases hc2 : b2 < 0x80 ∨ 0xBF < b2
    · rw [if_pos hc2]
    · exact absurd ⟨b1, b2, tl, rfl, by omega, by omega, by omega, by omega⟩ hr

theorem decodeRune_four_cases (b : Nat) (rest : Bytes) (x lo hi : Nat)
    (hx : first b = x) (hxlt : x < 0xF0) (hsz : x % 8 = 4)
    (hacc : acceptRanges (x / 16) = (lo, hi))
    (hb0 : 0xF0 ≤ b) (hb1 : b ≤ 0xF4)
    (hlo : 0x80 ≤ lo) (hhi : hi ≤ 0xBF) (hF0 : b = 0xF0 → 0x90 ≤ lo) (hF4 : b = 0xF4 → hi ≤ 0x8F) :
    decodeRune (b :: rest) = (RuneError, 1) ∨
    ∃ chunk r, decodeRune (b :: rest) = (r, chunk.length) ∧ RuneAt b rest chunk r := by
  by_cases hr : ∃ b1 b2 b3 tl, rest = b1 :: b2 :: b3 :: tl ∧
      lo ≤ b1 ∧ b1 ≤ hi ∧ 0x80 ≤ b2 ∧ b2 ≤ 0xBF ∧ 0x80 ≤ b3 ∧ b3 ≤ 0xBF
  · obtain ⟨b1, b2, b3, tl, rfl, h1, h1', h2, h2', h3, h3'⟩ := hr
    right
    have hR := runeAt_four b b1 b2 b3 tl x lo hi hx hxlt hsz hacc hb0 hb1 h1 h1' hlo hhi
      hF0 hF4 h2 h2' h3 h3'
    exact ⟨_, _, hR.2.2.2.2.1 tl, hR⟩
  · left
    rw [decodeRune_eq b _ _ hx hxlt]
    rcases rest with _ | ⟨b1, rest1⟩
    · rfl
    simp only [hacc, hsz]
    by_cases hc1 : b1 < lo ∨ hi < b1
    · rw [if_pos hc1]
    rw [if_neg hc1, if_neg (by norm_num)]
    rcases rest1 with _ | ⟨b2, rest2⟩
    · rfl
    show (if b2 < 0x80 ∨ 0xBF < b2 then _ else _) = _
    by_cases hc2 : b2 < 0x80 ∨ 0xBF < b2
    · rw [if_pos hc2]
    rw [if_neg hc2, if_neg (by norm_num)]
    rcases rest2 with _ | ⟨b3, tl⟩
    · rfl
    show (if b3 < 0x80 ∨ 0xBF < b3 then _ else _) = _
    by_cases hc3 : b3 < 0x80 ∨ 0xBF < b3
    · rw [if_pos hc3]
    · exact absurd ⟨b1, b2, b3, tl, rfl, by omega, by omega, by omega, by omega, by omega,
        by omega⟩ hr

/-- At a byte that is not ASCII, `decodeRune` either fails with `(RuneError, 1)` or
decodes a valid encoding `chunk` of the rune `r`. -/
theorem decodeRune_cases (b : Nat) (rest : Bytes) (hb : 0x80 ≤ b) :
    decodeRune (b :: rest) = (RuneError, 1) ∨
    ∃ chunk r, decodeRune (b :: rest) = (r, chunk.length) ∧ RuneAt b rest chunk r := by
  rcases first_cases b with ⟨h, _⟩ | ⟨h, _⟩ | ⟨h0, h1, hf⟩ | ⟨h, hf⟩ | ⟨h, hf⟩ | ⟨h, hf⟩ |
    ⟨h, hf⟩ | ⟨h0, h1, hf⟩ | ⟨h, hf⟩
  · omega
  · exact Or.inl (decodeRune_invalid_lead b rest h)
  · rcases rest with _ | ⟨b1, tl⟩
    · left; rw [decodeRune_eq b _ _ hf (by norm_num)]
    · by_cases hr : 0x80 ≤ b1 ∧ b1 ≤ 0xBF
      · right
        have hR := runeAt_two b b1 tl h0 h1 hr.1 hr.2
        exact ⟨_, _, hR.2.2.2.2.1 tl, hR⟩
      · left
        rw [decodeRune_eq b _ _ hf (by norm_num)]
        simp only [acceptRanges]
        rw [if_pos (by omega)]
  · exact decodeRune_three_cases b rest _ 0xA0 0xBF hf (by norm_num) (by norm_num) rfl
      (by omega) (by omega) (by norm_num) (by norm_num) (by intro; norm_num) (by omega)
  · exact decodeRune_three_cases b rest _ 0x80 0xBF hf (by norm_num) (by norm_num) rfl
      (by omega) (by omega) (by norm_num) (by norm_num) (by omega) (by omega)
  · exact decodeRune_three_cases b rest _ 0x80 0x9F hf (by norm_num) (by norm_num) rfl
      (by omega) (by omega) (by norm_num) (by norm_num) (by omega) (by intro; norm_num)
  · exact decodeRune_four_cases b rest _ 0x90 0xBF hf (by norm_num) (by norm_num) rfl
      (by omega) (by omega) (by norm_num) (by norm_num) (by intro; norm_num) (by omega)
  · exact decodeRune_four_cases b rest _ 0x80 0xBF hf (by norm_num) (by norm_num) rfl
      (by omega) (by omega) (by norm_num) (by norm_num) (by omega) (by omega)
  · exact decodeRune_four_cases b rest _ 0x80 0x8F hf (by norm_num) (by norm_num) rfl
      (by omega) (by omega) (by norm_num) (by norm_num) (by omega) (by intro; norm_num)

/-! ## The string encoder on text it does not escape -/

theorem runeAt_drop (b : Nat) (rest chunk : Bytes) (r : Nat) (h : RuneAt b rest chunk r) :
    (b :: rest).take chunk.length = chunk ∧
    chunk ++ rest.drop (chunk.length - 1) = b :: rest := by
  obtain ⟨⟨tl, htl⟩, hlen, -⟩ := h
  rw [htl]
  constructor
  · simp
  · rcases chunk with _ | ⟨c, cs⟩
    · simp at hlen
    · simp only [List.cons_append, List.cons.injEq] at htl
      rw [htl.2]
      simp

theorem appendStringLoop_plain (q : Bytes) :
    ∀ skip : Nat, validLoop skip q = true → (∀ b ∈ q, b < 0x80 → htmlSafe b = true) →
      ¬ [0xE2, 0x80, 0xA8] <:+: q → ¬ [0xE2, 0x80, 0xA9] <:+: q →
      appendStringLoop skip q = q.drop skip := by
  induction q with
  | nil => intro skip _ _ _ _; simp [appendStringLoop]
  | cons b rest ih =>
    intro skip hv hs h8 h9
    have hs' : ∀ c ∈ rest, c < 0x80 → htmlSafe c = true :=
      fun c hc => hs c (List.mem_cons_of_mem _ hc)
    have h8' : ¬ [0xE2, 0x80, 0xA8] <:+: rest :=
      fun h => h8 (h.trans (List.suffix_cons b rest).isInfix)
    have h9' : ¬ [0xE2, 0x80, 0xA9] <:+: rest :=
      fun h => h9 (h.trans (List.suffix_cons b rest).isInfix)
    cases skip with
    | succ k =>
      rw [appendStringLoop, List.drop_succ_cons]
      rw [validLoop] at hv
      exact ih k hv hs' h8' h9'
    | zero =>
      rw [appendStringLoop]
      rw [validLoop] at hv
      by_cases hb : b < 0x80
      · rw [if_pos hb, if_pos (hs b (List.mem_cons_self _ _) hb)]
        rw [if_pos hb] at hv
        rw [ih 0 hv hs' h8' h9']
        simp
      · rw [if_neg hb]
        rw [if_neg hb] at hv
        rcases decodeRune_cases b rest (by omega) with hd | ⟨chunk, r, hd, hR⟩
        · simp [hd] at hv
        · have hlen : 2 ≤ chunk.length := hR.2.1
          have hpre : chunk <+: b :: rest := by
            obtain ⟨tl, htl⟩ := hR.1
            exact ⟨tl, htl.symm⟩
          simp only [hd] at hv ⊢
          rw [if_neg (by omega)] at hv
          rw [if_neg (by omega), if_neg]
          · rw [ih (chunk.length - 1) hv hs' h8' h9', (runeAt_drop b rest chunk r hR).1,
              (runeAt_drop b rest chunk r hR).2]
            simp
          · rintro (h | h)
            · exact h8 ((hR.2.2.2.2.2.1 h) ▸ hpre.isInfix)
            · exact h9 ((hR.2.2.2.2.2.2.1 h) ▸ hpre.isInfix)

/-! ## The request -/

theorem main_goLib_requests (foldRune : Nat → Nat)
    (transport : Request → Except GoError Response) (args : List Bytes) :
    (main (goLib foldRune transport) args).requests =
      if args.length < 2 then []
      else [setHeaders ⟨"POST", completionsURL, [], marshalRequest (payload (args.getD 1 []))⟩] := by
  unfold main
  split
  · rfl
  · simp only [goLib]
    cases transport (setHeaders ⟨"POST", completionsURL, [],
        marshalRequest (payload (args.getD 1 []))⟩) with
    | error e => rfl
    | ok resp =>
      simp only
      cases resp.body with
      | error e => rfl
      | ok respBody =>
        simp only
        rcases Unmarshal foldRune respBody ⟨[]⟩ with ⟨v, _ | e⟩
        · rcases v with ⟨_ | ⟨c, cs⟩⟩ <;> rfl
        · rfl

theorem marshalRequest_plain (q : Bytes) (hv : utf8Valid q = true)
    (hs : ∀ b ∈ q, 0x20 ≤ b ∧ b ≠ 0x22 ∧ b ≠ 0x5C ∧ b ≠ 0x3C ∧ b ≠ 0x3E ∧ b ≠ 0x26)
    (h8 : ¬ [0xE2, 0x80, 0xA8] <:+: q) (h9 : ¬ [0xE2, 0x80, 0xA9] <:+: q) :
    marshalRequest (payload q) =
      ascii "\x7b\"model\":\"text-davinci-002\",\"prompt\":\"" ++ q ++ ascii "\",\"max_tokens\":4000\x7d" := by
  have hq : appendStringLoop 0 q = q := by
    have := appendStringLoop_plain q 0 hv (fun b hb hlt => by
      have := hs b hb
      simp only [htmlSafe, decide_eq_true_eq]
      omega) h8 h9
    simpa using this
  have hm : appendString (ascii "text-davinci-002") = ascii "\"text-davinci-002\"" := by decide
  have hn : formatInt 4000 = ascii "4000" := by decide
  simp only [marshalRequest, payload, appendString, hq]
  rw [show ([0x22] ++ appendStringLoop 0 (ascii "text-davinci-002") ++ [0x22])
    = ascii "\"text-davinci-002\"" from hm, hn]
  simp [ascii]


/-- C8 as stated fails at the query `<`: the character needs no escaping in JSON (it is
not a control character, a quote or a backslash), yet the body sent is not
`{"model":"text-davinci-002","prompt":"<","max_tokens":4000}`: the encoder of
`json.Marshal` writes `\u003c` for it. -/
theorem C8_counterexample :
    (∀ b ∈ ascii "<", 0x20 ≤ b ∧ b ≠ 0x22 ∧ b ≠ 0x5C) ∧
    (main (goLib foldRuneKS (replyWith 200 (.ok []))) [ascii "gpt2gpt", ascii "<"]).requests.map
        Request.body
      = [ascii "\x7b\"model\":\"text-davinci-002\",\"prompt\":\"\\u003c\",\"max_tokens\":4000\x7d"] ∧
    (main (goLib foldRuneKS (replyWith 200 (.ok []))) [ascii "gpt2gpt", ascii "<"]).requests.map
        Request.body
      ≠ [ascii "\x7b\"model\":\"text-davinci-002\",\"prompt\":\"" ++ ascii "<" ++
          ascii "\",\"max_tokens\":4000\x7d"] := by
  rw [main_goLib_requests]
  decide

/-- C8, amended: `main` hands at most one request to the transport; that request is a
POST to `https://api.openai.com/v1/completions` with the headers
`Content-Type: application/json` and `Authorization: Bearer ` followed by the API key,
and its body is the marshalled payload. For every query that is valid UTF-8 and has none
of the characters the encoder escapes (control characters, the double quote, the
backslash, `<`, `>`, `&`, U+2028, U+2029), that body is exactly
`{"model":"text-davinci-002","prompt":"<q>","max_tokens":4000}`. -/
theorem C8_one_post_request (foldRune : Nat → Nat)
    (transport : Request → Except GoError Response) (args : List Bytes) :
    (main (goLib foldRune transport) args).requests.length ≤ 1 ∧
    (∀ r ∈ (main (goLib foldRune transport) args).requests,
      r = ⟨"POST", "https://api.openai.com/v1/completions",
        [("Content-Type", ascii "application/json"),
         ("Authorization", ascii "Bearer " ++ apiKey)],
        marshalRequest (payload (args.getD 1 []))⟩) ∧
    (∀ q : Bytes, utf8Valid q = true →
      (∀ b ∈ q, 0x20 ≤ b ∧ b ≠ 0x22 ∧ b ≠ 0x5C ∧ b ≠ 0x3C ∧ b ≠ 0x3E ∧ b ≠ 0x26) →
      ¬ [0xE2, 0x80, 0xA8] <:+: q → ¬ [0xE2, 0x80, 0xA9] <:+: q →
      marshalRequest (payload q) =
        ascii "\x7b\"model\":\"text-davinci-002\",\"prompt\":\"" ++ q ++
          ascii "\",\"max_tokens\":4000\x7d") := by
  refine ⟨?_, ?_, fun q hv hs h8 h9 => marshalRequest_plain q hv hs h8 h9⟩
  · rw [main_goLib_requests]
    split <;> simp
  · intro r hr
    rw [main_goLib_requests] at hr
    split at hr
    · simp at hr
    · simp only [List.mem_singleton] at hr
      rw [hr]
      rfl

/-- C8 (amended) at the query `hello`: one request, with the body
`{"model":"text-davinci-002","prompt":"hello","max_tokens":4000}`. -/
theorem C8_one_post_request_witness :
    (main (goLib foldRuneKS (replyWith 200 (.ok []))) [ascii "gpt2gpt", ascii "hello"]).requests
      = [⟨"POST", "https://api.openai.com/v1/completions",
          [("Content-Type", ascii "application/json"),
           ("Authorization", ascii "Bearer SET_YOUR_API_KEY")],
          ascii "\x7b\"model\":\"text-davinci-002\",\"prompt\":\"hello\",\"max_tokens\":4000\x7d"⟩] ∧
    marshalRequest (payload (ascii "hello"))
      = ascii "\x7b\"model\":\"text-davinci-002\",\"prompt\":\"" ++ ascii "hello" ++
          ascii "\",\"max_tokens\":4000\x7d" :=
  ⟨by rw [main_goLib_requests]; rfl,
   (C8_one_post_request foldRuneKS (replyWith 200 (.ok [])) [ascii "gpt2gpt", ascii "hello"]).2.2
     (ascii "hello") (by decide) (by decide) (by decide) (by decide)⟩

/-! ## The scanner inside a string literal written by the encoder -/

theorem next_plain (ps : List Frame) (tok : Bytes) (top : Option JVal) (c : Nat)
    (hc : 0x20 ≤ c ∧ c ≠ 0x22 ∧ c ≠ 0x5C) :
    Scanner.next ⟨.inString, ps, tok, top⟩ c = ⟨.inString, ps, tok ++ [c], top⟩ := by
  simp only [Scanner.next, stateInString]
  rw [if_neg hc.2.1, if_neg hc.2.2, if_neg (by omega)]

theorem foldl_plain (bs : Bytes) :
    ∀ (ps : List Frame) (tok : Bytes) (top : Option JVal),
      (∀ c ∈ bs, 0x20 ≤ c ∧ c ≠ 0x22 ∧ c ≠ 0x5C) →
      bs.foldl Scanner.next ⟨.inString, ps, tok, top⟩ = ⟨.inString, ps, tok ++ bs, top⟩ := by
  induction bs with
  | nil => intro ps tok top _; simp
  | cons c cs ih =>
    intro ps tok top h
    rw [List.foldl_cons, next_plain ps tok top c (h c (List.mem_cons_self _ _)),
      ih ps _ top (fun c' hc' => h c' (List.mem_cons_of_mem _ hc'))]
    simp

theorem hexDigit_isHex : ∀ n < 16, isHex (hexDigit n) = true := by decide

theorem foldl_escapeByte : ∀ b < 0x80, htmlSafe b = false →
    ∀ (ps : List Frame) (tok : Bytes) (top : Option JVal),
      (escapeByte b).foldl Scanner.next ⟨.inString, ps, tok, top⟩
        = ⟨.inString, ps, tok ++ escapeByte b, top⟩ := by
  intro b hb
  interval_cases b <;> first
    | (intro h; exact absurd h (by decide))
    | (intro _ ps tok top
       simp [escapeByte, ascii, hexDigit, List.foldl, Scanner.next, stateInString,
         stateInStringEsc, stateInStringEscHex, isHex])


theorem foldl_appendStringLoop (q : Bytes) :
    ∀ (skip : Nat) (ps : List Frame) (tok : Bytes) (top : Option JVal),
      (appendStringLoop skip q).foldl Scanner.next ⟨.inString, ps, tok, top⟩
        = ⟨.inString, ps, tok ++ appendStringLoop skip q, top⟩ := by
  induction q with
  | nil => intro skip ps tok top; simp [appendStringLoop]
  | cons b rest ih =>
    intro skip ps tok top
    cases skip with
    | succ k => rw [appendStringLoop]; exact ih k ps tok top
    | zero =>
      rw [appendStringLoop]
      by_cases hb : b < 0x80
      · rw [if_pos hb]
        by_cases hsafe : htmlSafe b = true
        · rw [if_pos hsafe, List.foldl_cons, next_plain ps tok top b (by
            simp only [htmlSafe, decide_eq_true_eq] at hsafe; omega), ih 0 ps _ top]
          simp
        · rw [if_neg hsafe, List.foldl_append,
            foldl_escapeByte b hb (by simpa using hsafe) ps tok top, ih 0 ps _ top]
          simp
      · rw [if_neg hb]
        rcases decodeRune_cases b rest (by omega) with hd | ⟨chunk, r, hd, hR⟩
        · simp only [hd]
          rw [if_pos (by simp), List.foldl_append]
          have h1 : (ascii "\\ufffd").foldl Scanner.next ⟨.inString, ps, tok, top⟩
              = ⟨.inString, ps, tok ++ ascii "\\ufffd", top⟩ := by
            simp [ascii, List.foldl, Scanner.next, stateInString, stateInStringEsc,
              stateInStringEscHex, isHex]
          rw [h1, ih 0 ps _ top]
          simp
        · have hlen : 2 ≤ chunk.length := hR.2.1
          simp only [hd]
          rw [if_neg (by omega)]
          by_cases h8 : r = 0x2028
          · subst h8
            rw [if_pos (Or.inl rfl), List.foldl_append]
            have h1 : (ascii "\\u202" ++ [hexDigit (0x2028 % 16)]).foldl Scanner.next
                ⟨.inString, ps, tok, top⟩
                = ⟨.inString, ps, tok ++ (ascii "\\u202" ++ [hexDigit (0x2028 % 16)]), top⟩ := by
              simp [ascii, hexDigit, List.foldl, Scanner.next, stateInString, stateInStringEsc,
                stateInStringEscHex, isHex]
            rw [h1, ih _ ps _ top]
            simp
          by_cases h9 : r = 0x2029
          · subst h9
            rw [if_pos (Or.inr rfl), List.foldl_append]
            have h1 : (ascii "\\u202" ++ [hexDigit (0x2029 % 16)]).foldl Scanner.next
                ⟨.inString, ps, tok, top⟩
                = ⟨.inString, ps, tok ++ (ascii "\\u202" ++ [hexDigit (0x2029 % 16)]), top⟩ := by
              simp [ascii, hexDigit, List.foldl, Scanner.next, stateInString, stateInStringEsc,
                stateInStringEscHex, isHex]
            rw [h1, ih _ ps _ top]
            simp
          rw [if_neg (by omega), (runeAt_drop b rest chunk r hR).1, List.foldl_append,
            foldl_plain chunk ps tok top (fun c hc => by have := hR.2.2.1 c hc; omega),
            ih _ ps _ top]
          simp

/-! ## Unquoting what the encoder wrote -/

theorem unquoteLoop_skip (ys : Bytes) :
    ∀ (k : Nat) (X : Bytes), ys.length = k → unquoteLoop k (ys ++ X) = unquoteLoop 0 X := by
  induction ys with
  | nil => intro k X h; simp at h; subst h; rfl
  | cons y ys ih =>
    intro k X h
    cases k with
    | zero => simp at h
    | succ k =>
      rw [List.cons_append, unquoteLoop]
      exact ih k X (by simpa using h)

theorem unquoteLoop_safe (c : Nat) (X : Bytes) (hc : c < 0x80) (hs : htmlSafe c = true) :
    unquoteLoop 0 (c :: X) = (unquoteLoop 0 X).map (c :: ·) := by
  simp only [htmlSafe, decide_eq_true_eq] at hs
  rw [unquoteLoop.eq_def]
  simp only
  rw [if_neg (by omega), if_neg (by omega), if_pos hc]

theorem unquoteLoop_escapeByte : ∀ b < 0x80, htmlSafe b = false →
    ∀ X : Bytes, unquoteLoop 0 (escapeByte b ++ X) = (unquoteLoop 0 X).map (b :: ·) := by
  intro b hb
  interval_cases b <;> first
    | (intro h; exact absurd h (by decide))
    | (intro _ X; rfl)

theorem unquoteLoop_chunk (b : Nat) (rest chunk : Bytes) (r : Nat) (hR : RuneAt b rest chunk r)
    (X : Bytes) : unquoteLoop 0 (chunk ++ X) = (unquoteLoop 0 X).map (chunk ++ ·) := by
  obtain ⟨-, hlen, hge, henc, hdec, -⟩ := hR
  rcases chunk with _ | ⟨c, cs⟩
  · simp at hlen
  have hc : 0x80 ≤ c := hge c (List.mem_cons_self _ _)
  have hd := hdec X
  rw [List.cons_append] at hd ⊢
  rw [unquoteLoop.eq_def]
  simp only
  rw [if_neg (by omega), if_neg (by omega), if_neg (by omega)]
  simp only [hd, henc]
  rw [show (c :: cs).length - 1 = cs.length by simp, unquoteLoop_skip cs cs.length X rfl]


theorem unquoteLoop_appendStringLoop (q : Bytes) :
    ∀ skip : Nat, validLoop skip q = true →
      unquoteLoop 0 (appendStringLoop skip q) = some (q.drop skip) := by
  induction q with
  | nil => intro skip _; simp [appendStringLoop, unquoteLoop]
  | cons b rest ih =>
    intro skip hv
    cases skip with
    | succ k =>
      rw [appendStringLoop, List.drop_succ_cons]
      rw [validLoop] at hv
      exact ih k hv
    | zero =>
      rw [appendStringLoop]
      rw [validLoop] at hv
      by_cases hb : b < 0x80
      · rw [if_pos hb] at hv ⊢
        by_cases hsafe : htmlSafe b = true
        · rw [if_pos hsafe, unquoteLoop_safe b _ hb hsafe, ih 0 hv]
          simp
        · rw [if_neg hsafe, unquoteLoop_escapeByte b hb (by simpa using hsafe), ih 0 hv]
          simp
      · rw [if_neg hb] at hv ⊢
        rcases decodeRune_cases b rest (by omega) with hd | ⟨chunk, r, hd, hR⟩
        · simp [hd] at hv
        · have hlen : 2 ≤ chunk.length := hR.2.1
          simp only [hd] at hv ⊢
          rw [if_neg (by omega)] at hv
          rw [if_neg (by omega)]
          have hfin : (chunk ++ rest.drop (chunk.length - 1)) = (b :: rest).drop 0 := by
            rw [(runeAt_drop b rest chunk r hR).2]; rfl
          by_cases h8 : r = 0x2028
          · have hc := hR.2.2.2.2.2.1 h8
            subst h8
            rw [if_pos (Or.inl rfl)]
            have h1 : ∀ X : Bytes, unquoteLoop 0 (ascii "\\u202" ++ [hexDigit (0x2028 % 16)] ++ X)
                = (unquoteLoop 0 X).map ([0xE2, 0x80, 0xA8] ++ ·) := fun X => rfl
            rw [h1, ih _ hv, Option.map_some', ← hc, hfin]
          by_cases h9 : r = 0x2029
          · have hc := hR.2.2.2.2.2.2.1 h9
            subst h9
            rw [if_pos (Or.inr rfl)]
            have h1 : ∀ X : Bytes, unquoteLoop 0 (ascii "\\u202" ++ [hexDigit (0x2029 % 16)] ++ X)
                = (unquoteLoop 0 X).map ([0xE2, 0x80, 0xA9] ++ ·) := fun X => rfl
            rw [h1, ih _ hv, Option.map_some', ← hc, hfin]
          rw [if_neg (by omega), (runeAt_drop b rest chunk r hR).1,
            unquoteLoop_chunk b rest chunk r hR, ih _ hv, Option.map_some', hfin]

/-- Unquoting the string literal written for a valid UTF-8 string gives the string back. -/
theorem unquote_appendStringLoop (q : Bytes) (hv : utf8Valid q = true) :
    unquote (appendStringLoop 0 q) = some q := by
  have := unquoteLoop_appendStringLoop q 0 hv
  simpa [unquote] using this

/-! ## Marshalling the payload and parsing it back -/

theorem marshalRequest_payload (q : Bytes) :
    marshalRequest (payload q) =
      ascii "\x7b\"model\":\"text-davinci-002\",\"prompt\":\"" ++
        (appendStringLoop 0 q ++ ascii "\",\"max_tokens\":4000\x7d") := by
  have hm : appendString (ascii "text-davinci-002") = ascii "\"text-davinci-002\"" := by decide
  have hn : formatInt 4000 = ascii "4000" := by decide
  simp only [marshalRequest, payload, hm, hn]
  simp [appendString, ascii]

theorem next_quote (ps : List Frame) (tok : Bytes) (top : Option JVal) (q : Bytes)
    (h : unquote tok = some q) :
    Scanner.next ⟨.inString, ps, tok, top⟩ 0x22
      = { Scanner.complete ⟨.inString, ps, tok, top⟩ (.string q) with step := .endValue } := by
  simp only [Scanner.next, stateInString]
  rw [if_pos trivial, h]

theorem unquoteLoop_appendStringLoop_some (q : Bytes) :
    ∀ skip : Nat, ∃ p, unquoteLoop 0 (appendStringLoop skip q) = some p := by
  induction q with
  | nil => intro skip; exact ⟨[], by simp [appendStringLoop, unquoteLoop]⟩
  | cons b rest ih =>
    intro skip
    cases skip with
    | succ k => rw [appendStringLoop]; exact ih k
    | zero =>
      rw [appendStringLoop]
      by_cases hb : b < 0x80
      · rw [if_pos hb]
        obtain ⟨p, hp⟩ := ih 0
        by_cases hsafe : htmlSafe b = true
        · exact ⟨b :: p, by rw [if_pos hsafe, unquoteLoop_safe b _ hb hsafe, hp]; rfl⟩
        · exact ⟨b :: p, by
            rw [if_neg hsafe, unquoteLoop_escapeByte b hb (by simpa using hsafe), hp]; rfl⟩
      · rw [if_neg hb]
        rcases decodeRune_cases b rest (by omega) with hd | ⟨chunk, r, hd, hR⟩
        · obtain ⟨p, hp⟩ := ih 0
          simp only [hd]
          rw [if_pos (by simp)]
          have h1 : ∀ X : Bytes, unquoteLoop 0 (ascii "\\ufffd" ++ X)
              = (unquoteLoop 0 X).map ([0xEF, 0xBF, 0xBD] ++ ·) := fun X => rfl
          exact ⟨[0xEF, 0xBF, 0xBD] ++ p, by rw [h1, hp]; rfl⟩
        · have hlen : 2 ≤ chunk.length := hR.2.1
          obtain ⟨p, hp⟩ := ih (chunk.length - 1)
          simp only [hd]
          rw [if_neg (by omega)]
          by_cases h8 : r = 0x2028
          · subst h8
            rw [if_pos (Or.inl rfl)]
            have h1 : ∀ X : Bytes, unquoteLoop 0 (ascii "\\u202" ++ [hexDigit (0x2028 % 16)] ++ X)
                = (unquoteLoop 0 X).map ([0xE2, 0x80, 0xA8] ++ ·) := fun X => rfl
            exact ⟨[0xE2, 0x80, 0xA8] ++ p, by rw [h1, hp]; rfl⟩
          by_cases h9 : r = 0x2029
          · subst h9
            rw [if_pos (Or.inr rfl)]
            have h1 : ∀ X : Bytes, unquoteLoop 0 (ascii "\\u202" ++ [hexDigit (0x2029 % 16)] ++ X)
                = (unquoteLoop 0 X).map ([0xE2, 0x80, 0xA9] ++ ·) := fun X => rfl
            exact ⟨[0xE2, 0x80, 0xA9] ++ p, by rw [h1, hp]; rfl⟩
          exact ⟨chunk ++ p, by
            rw [if_neg (by omega), (runeAt_drop b rest chunk r hR).1,
              unquoteLoop_chunk b rest chunk r hR, hp]; rfl⟩

theorem scan_marshalRequest (q p : Bytes) (hp : unquote (appendStringLoop 0 q) = some p) :
    scan (marshalRequest (payload q)) = some (.object
      [(ascii "model", .string (ascii "text-davinci-002")),
       (ascii "prompt", .string p),
       (ascii "max_tokens", .number (ascii "4000"))]) := by
  have h0 : (ascii "\x7b\"model\":\"text-davinci-002\",\"prompt\":\"").foldl Scanner.next Scanner.reset
      = ⟨.inString, [.objectValue [(ascii "model", .string (ascii "text-davinci-002"))]
          (ascii "prompt")], [], none⟩ := by rfl
  rw [marshalRequest_payload, scan, List.foldl_append, List.foldl_append, h0,
    foldl_appendStringLoop]
  have h1 : ascii "\",\"max_tokens\":4000\x7d" = 0x22 :: ascii ",\"max_tokens\":4000\x7d" := by rfl
  rw [h1, List.foldl_cons, next_quote _ _ _ p (by simpa using hp)]
  simp [ascii, List.foldl, Scanner.next, Scanner.complete, Scanner.eof, Scanner.popParseState,
    Scanner.error, stateEndValue, stateEndTop, stateBeginValue, stateBeginString, stateInString,
    state0, state1, endNumber, isSpace, isDigit, unquote, unquoteLoop]

theorem UnmarshalRequest_marshalRequest (foldRune : Nat → Nat) (q p : Bytes)
    (cur : OpenAIRequest) (hp : unquote (appendStringLoop 0 q) = some p) :
    UnmarshalRequest foldRune (marshalRequest (payload q)) cur = (payload p, none) := by
  unfold UnmarshalRequest
  rw [scan_marshalRequest q p hp]
  rfl

/-- C2 as stated fails at the query that is the single byte `0xFF` (not valid UTF-8):
the payload marshals to valid JSON, but parsing it back gives the prompt U+FFFD
(`EF BF BD`), not the original string: `json.Marshal` replaces invalid bytes. -/
theorem C2_counterexample :
    (goLib foldRuneKS (replyWith 200 (.ok []))).Marshal (payload [0xFF])
      = .ok (ascii "\x7b\"model\":\"text-davinci-002\",\"prompt\":\"\\ufffd\",\"max_tokens\":4000\x7d") ∧
    UnmarshalRequest foldRuneKS (marshalRequest (payload [0xFF])) ⟨[], [], 0⟩
      = (⟨ascii "text-davinci-002", [0xEF, 0xBF, 0xBD], 4000⟩, none) ∧
    (UnmarshalRequest foldRuneKS (marshalRequest (payload [0xFF])) ⟨[], [], 0⟩).1.Prompt ≠ [0xFF] :=
  ⟨rfl, rfl, by decide⟩

/-- C2, amended: for every query `q`, marshalling the payload built by `main` succeeds and
gives a JSON text which, parsed back into an `OpenAIRequest`, has
`model == "text-davinci-002"` and `max_tokens == 4000`; its prompt is `q` itself whenever
`q` is valid UTF-8 (quotes, backslashes, control characters and non-ASCII runes
included). -/
theorem C2_marshal_round_trip (foldRune : Nat → Nat)
    (transport : Request → Except GoError Response) (q : Bytes) (cur : OpenAIRequest) :
    (goLib foldRune transport).Marshal (payload q) = .ok (marshalRequest (payload q)) ∧
    IsJSON (marshalRequest (payload q)) ∧
    ∃ p, UnmarshalRequest foldRune (marshalRequest (payload q)) cur
        = (⟨ascii "text-davinci-002", p, 4000⟩, none) ∧
      (utf8Valid q = true → p = q) := by
  obtain ⟨p, hp⟩ := unquoteLoop_appendStringLoop_some q 0
  refine ⟨rfl, ?_, p, UnmarshalRequest_marshalRequest foldRune q p cur hp, fun hv => ?_⟩
  · exact scan_sound _ _ (scan_marshalRequest q p hp)
  · have h := unquote_appendStringLoop q hv
    rw [unquote, hp] at h
    exact Option.some.inj h

/-- C2 (amended) at the query `hello` and at the query `"\é` followed by a newline. -/
theorem C2_marshal_round_trip_witness :
    UnmarshalRequest foldRuneKS (marshalRequest (payload (ascii "hello"))) ⟨[], [], 0⟩
      = (⟨ascii "text-davinci-002", ascii "hello", 4000⟩, none) ∧
    UnmarshalRequest foldRuneKS
        (marshalRequest (payload [0x22, 0x5C, 0xC3, 0xA9, 0x0A])) ⟨[], [], 0⟩
      = (⟨ascii "text-davinci-002", [0x22, 0x5C, 0xC3, 0xA9, 0x0A], 4000⟩, none) := by
  obtain ⟨p1, h1, e1⟩ := (C2_marshal_round_trip foldRuneKS (replyWith 200 (.ok []))
    (ascii "hello") ⟨[], [], 0⟩).2.2
  obtain ⟨p2, h2, e2⟩ := (C2_marshal_round_trip foldRuneKS (replyWith 200 (.ok []))
    [0x22, 0x5C, 0xC3, 0xA9, 0x0A] ⟨[], [], 0⟩).2.2
  rw [e1 (by decide)] at h1
  rw [e2 (by decide)] at h2
  exact ⟨h1, h2⟩

/-! ## String literals: `unquoteBytes` succeeds on the characters of the grammar -/

theorem IsChars_append (xs ys : Bytes) (hx : IsChars xs) (hy : IsChars ys) :
    IsChars (xs ++ ys) := by
  induction hy with
  | nil => simpa using hx
  | plain cs c _ h1 h2 h3 ih =>
    rw [← List.append_assoc]
    exact .plain _ c ih h1 h2 h3
  | escape cs e _ he ih =>
    rw [← List.append_assoc]
    exact .escape _ e ih he
  | unicode cs a b c d _ ha hb hc hd ih =>
    rw [← List.append_assoc]
    exact .unicode _ a b c d ih ha hb hc hd

/-- A run of string characters read from its first character on. -/
theorem IsChars_cases (cs : Bytes) (h : IsChars cs) :
    cs = [] ∨
    (∃ c rest, cs = c :: rest ∧ 0x20 ≤ c ∧ c ≠ 0x22 ∧ c ≠ 0x5C ∧ IsChars rest) ∨
    (∃ e rest, cs = 0x5C :: e :: rest ∧
      (e = 0x22 ∨ e = 0x5C ∨ e = 0x2F ∨ e = 0x62 ∨ e = 0x66 ∨ e = 0x6E ∨ e = 0x72 ∨ e = 0x74) ∧
      IsChars rest) ∨
    (∃ a b c d rest, cs = 0x5C :: 0x75 :: a :: b :: c :: d :: rest ∧ isHex a = true ∧
      isHex b = true ∧ isHex c = true ∧ isHex d = true ∧ IsChars rest) := by
  induction h with
  | nil => exact Or.inl rfl
  | plain cs c hcs h1 h2 h3 ih =>
    have hit : IsChars [c] := .plain [] c .nil h1 h2 h3
    right
    rcases ih with rfl | ⟨c0, rest, rfl, g1, g2, g3, hr⟩ | ⟨e0, rest, rfl, g, hr⟩ |
      ⟨a0, b0, c0, d0, rest, rfl, g1, g2, g3, g4, hr⟩
    · exact Or.inl ⟨c, [], rfl, h1, h2, h3, .nil⟩
    · exact Or.inl ⟨c0, rest ++ [c], rfl, g1, g2, g3, IsChars_append _ _ hr hit⟩
    · exact Or.inr (Or.inl ⟨e0, rest ++ [c], rfl, g, IsChars_append _ _ hr hit⟩)
    · exact Or.inr (Or.inr ⟨a0, b0, c0, d0, rest ++ [c], rfl, g1, g2, g3, g4,
        IsChars_append _ _ hr hit⟩)
  | escape cs e hcs he ih =>
    have hit : IsChars [0x5C, e] := .escape [] e .nil he
    right
    rcases ih with rfl | ⟨c0, rest, rfl, g1, g2, g3, hr⟩ | ⟨e0, rest, rfl, g, hr⟩ |
      ⟨a0, b0, c0, d0, rest, rfl, g1, g2, g3, g4, hr⟩
    · exact Or.inr (Or.inl ⟨e, [], rfl, he, .nil⟩)
    · exact Or.inl ⟨c0, rest ++ [0x5C, e], rfl, g1, g2, g3, IsChars_append _ _ hr hit⟩
    · exact Or.inr (Or.inl ⟨e0, rest ++ [0x5C, e], rfl, g, IsChars_append _ _ hr hit⟩)
    · exact Or.inr (Or.inr ⟨a0, b0, c0, d0, rest ++ [0x5C, e], rfl, g1, g2, g3, g4,
        IsChars_append _ _ hr hit⟩)
  | unicode cs a b c d hcs ha hb hc hd ih =>
    have hit : IsChars [0x5C, 0x75, a, b, c, d] := .unicode [] a b c d .nil ha hb hc hd
    right
    rcases ih with rfl | ⟨c0, rest, rfl, g1, g2, g3, hr⟩ | ⟨e0, rest, rfl, g, hr⟩ |
      ⟨a0, b0, c0, d0, rest, rfl, g1, g2, g3, g4, hr⟩
    · exact Or.inr (Or.inr ⟨a, b, c, d, [], rfl, ha, hb, hc, hd, .nil⟩)
    · exact Or.inl ⟨c0, rest ++ [0x5C, 0x75, a, b, c, d], rfl, g1, g2, g3,
        IsChars_append _ _ hr hit⟩
    · exact Or.inr (Or.inl ⟨e0, rest ++ [0x5C, 0x75, a, b, c, d], rfl, g,
        IsChars_append _ _ hr hit⟩)
    · exact Or.inr (Or.inr ⟨a0, b0, c0, d0, rest ++ [0x5C, 0x75, a, b, c, d], rfl, g1, g2, g3,
        g4, IsChars_append _ _ hr hit⟩)

/-- After a character that is not a backslash the characters go on. -/
theorem IsChars_tail (b : Nat) (xs : Bytes) (h : IsChars (b :: xs)) (hb : b ≠ 0x5C) :
    IsChars xs := by
  rcases IsChars_cases _ h with h0 | ⟨c0, rest, e, _, _, _, hr⟩ | ⟨e0, rest, e, _, _⟩ |
    ⟨a0, b0, c0, d0, rest, e, _⟩
  · cases h0
  · rw [(List.cons.inj e).2]
    exact hr
  · exact absurd (List.cons.inj e).1 hb
  · exact absurd (List.cons.inj e).1 hb

theorem IsChars_drop_high (chunk tl : Bytes) (hge : ∀ b ∈ chunk, 0x80 ≤ b)
    (h : IsChars (chunk ++ tl)) : IsChars tl := by
  induction chunk with
  | nil => exact h
  | cons b bs ih =>
    have hb := hge b (List.mem_cons_self _ _)
    exact ih (fun x hx => hge x (List.mem_cons_of_mem _ hx))
      (IsChars_tail b _ h (by omega))

/-- After `\u` the characters go on with four hex digits. -/
theorem IsChars_unicode (xs : Bytes) (h : IsChars (0x5C :: 0x75 :: xs)) :
    ∃ a b c d rest, xs = a :: b :: c :: d :: rest ∧ isHex a = true ∧ isHex b = true ∧
      isHex c = true ∧ isHex d = true ∧ IsChars rest := by
  rcases IsChars_cases _ h with h0 | ⟨c0, rest, e, _, _, g3, hr⟩ | ⟨e0, rest, e, g, _⟩ |
    ⟨a0, b0, c0, d0, rest, e, g1, g2, g3, g4, hr⟩
  · cases h0
  · exact absurd (List.cons.inj e).1.symm g3
  · have e2 := (List.cons.inj (List.cons.inj e).2).1
    subst e2
    exact absurd g (by decide)
  · have e2 := (List.cons.inj (List.cons.inj e).2).2
    exact ⟨a0, b0, c0, d0, rest, e2, g1, g2, g3, g4, hr⟩

/-! ## String literals: `unquoteBytes` succeeds on the characters of the grammar (the loop) -/

theorem getu4_shape (s : Bytes) (r : Nat) (h : getu4 s = some r) :
    ∃ a b c d tl, s = 0x5C :: 0x75 :: a :: b :: c :: d :: tl := by
  unfold getu4 at h
  split at h
  · exact ⟨_, _, _, _, _, rfl⟩
  · cases h

theorem getu4_hex (a b c d : Nat) (tl : Bytes) (ha : isHex a = true) (hb : isHex b = true)
    (hc : isHex c = true) (hd : isHex d = true) :
    ∃ r, getu4 (0x5C :: 0x75 :: a :: b :: c :: d :: tl) = some r := by
  have key : ∀ x, isHex x = true →
      ∃ y, (if 0x30 ≤ x ∧ x ≤ 0x39 then some (x - 0x30)
        else if 0x61 ≤ x ∧ x ≤ 0x66 then some (x - 0x61 + 10)
        else if 0x41 ≤ x ∧ x ≤ 0x46 then some (x - 0x41 + 10)
        else (none : Option Nat)) = some y := by
    intro x hx
    simp only [isHex, Bool.decide_or, Bool.decide_and, Bool.or_eq_true, Bool.and_eq_true,
      decide_eq_true_eq] at hx
    by_cases h1 : 0x30 ≤ x ∧ x ≤ 0x39
    · rw [if_pos h1]
      exact ⟨_, rfl⟩
    rw [if_neg h1]
    by_cases h2 : 0x61 ≤ x ∧ x ≤ 0x66
    · rw [if_pos h2]
      exact ⟨_, rfl⟩
    rw [if_neg h2]
    by_cases h3 : 0x41 ≤ x ∧ x ≤ 0x46
    · rw [if_pos h3]
      exact ⟨_, rfl⟩
    exfalso
    omega
  obtain ⟨x, hx⟩ := key a ha
  obtain ⟨y, hy⟩ := key b hb
  obtain ⟨z, hz⟩ := key c hc
  obtain ⟨w, hw⟩ := key d hd
  simp only [getu4]
  rw [hx, hy, hz, hw]
  exact ⟨_, rfl⟩

theorem unquoteLoop_escape (e : Nat) (rest : Bytes)
    (he : e = 0x22 ∨ e = 0x5C ∨ e = 0x2F ∨ e = 0x62 ∨ e = 0x66 ∨ e = 0x6E ∨ e = 0x72 ∨
      e = 0x74) :
    ∃ b, unquoteLoop 0 (0x5C :: e :: rest) = (unquoteLoop 0 rest).map (b :: ·) := by
  rcases he with rfl | rfl | rfl | rfl | rfl | rfl | rfl | rfl <;> exact ⟨_, rfl⟩

theorem unquoteLoop_unicode (a b c d : Nat) (rest : Bytes) (r : Nat)
    (hr : getu4 (0x5C :: 0x75 :: a :: b :: c :: d :: rest) = some r) :
    (∃ pre, unquoteLoop 0 (0x5C :: 0x75 :: a :: b :: c :: d :: rest)
      = (unquoteLoop 0 rest).map (pre ++ ·)) ∨
    (∃ pre r2, getu4 rest = some r2 ∧ unquoteLoop 0 (0x5C :: 0x75 :: a :: b :: c :: d :: rest)
      = (unquoteLoop 6 rest).map (pre ++ ·)) := by
  rw [unquoteLoop.eq_def]
  simp only []
  rw [if_pos trivial, if_neg (by decide), if_neg (by decide), if_neg (by decide),
    if_neg (by decide), if_neg (by decide), if_neg (by decide), if_pos trivial, hr]
  simp only []
  by_cases hs : 0xD800 ≤ r ∧ r < 0xE000
  · rw [if_pos hs]
    by_cases hd : utf16DecodeRune r (getu4 (List.drop 5 (0x75 :: a :: b :: c :: d :: rest)))
        ≠ 0xFFFD
    · rw [if_pos hd]
      right
      have hd2 : utf16DecodeRune r (getu4 rest) ≠ 0xFFFD := hd
      cases h2 : getu4 rest with
      | none =>
        rw [h2] at hd2
        exact absurd rfl hd2
      | some r2 => exact ⟨_, r2, rfl, rfl⟩
    · rw [if_neg hd]
      exact Or.inl ⟨_, rfl⟩
  · rw [if_neg hs]
    exact Or.inl ⟨_, rfl⟩

/-- The loop of `unquoteBytes` succeeds on the characters of a string literal. -/
theorem unquoteLoop_total : ∀ (n : Nat) (cs : Bytes), cs.length ≤ n → IsChars cs →
    ∃ s, unquoteLoop 0 cs = some s := by
  intro n
  induction n with
  | zero =>
    intro cs hl _
    have : cs = [] := List.eq_nil_of_length_eq_zero (Nat.le_zero.mp hl)
    subst this
    exact ⟨[], rfl⟩
  | succ n ih =>
    intro cs hl h
    rcases IsChars_cases cs h with rfl | ⟨c, rest, rfl, g1, g2, g3, hr⟩ |
      ⟨e, rest, rfl, g, hr⟩ | ⟨a, b, c, d, rest, rfl, ha, hb, hc, hd, hr⟩
    · exact ⟨[], rfl⟩
    · have hlr : rest.length ≤ n := by
        simp only [List.length_cons] at hl
        omega
      rw [unquoteLoop.eq_def]
      simp only []
      rw [if_neg g3, if_neg (by omega)]
      by_cases h80 : c < 0x80
      · rw [if_pos h80]
        obtain ⟨s, hs⟩ := ih rest hlr hr
        rw [hs]
        exact ⟨_, rfl⟩
      · rw [if_neg h80]
        rcases decodeRune_cases c rest (by omega) with hd | ⟨chunk, r, hd, hR⟩
        · rw [hd]
          obtain ⟨s, hs⟩ := ih rest hlr hr
          show ∃ s, Option.map _ (unquoteLoop 0 rest) = some s
          rw [hs]
          exact ⟨_, rfl⟩
        · rw [hd]
          obtain ⟨⟨tl, htl⟩, hlen, hge, -⟩ := hR
          rcases chunk with _ | ⟨c1, cs1⟩
          · simp at hlen
          simp only [List.cons_append, List.cons.injEq] at htl
          obtain ⟨-, htl⟩ := htl
          subst htl
          have hk : unquoteLoop ((c1 :: cs1).length - 1) (cs1 ++ tl) = unquoteLoop 0 tl :=
            unquoteLoop_skip cs1 _ tl (by simp)
          rw [hk]
          have htl : IsChars tl :=
            IsChars_drop_high cs1 tl (fun x hx => hge x (List.mem_cons_of_mem _ hx)) hr
          obtain ⟨s, hs⟩ := ih tl (by simp at hlr; omega) htl
          rw [hs]
          exact ⟨_, rfl⟩
    · have hlr : rest.length ≤ n := by
        simp only [List.length_cons] at hl
        omega
      obtain ⟨b, hb⟩ := unquoteLoop_escape e rest g
      obtain ⟨s, hs⟩ := ih rest hlr hr
      rw [hb, hs]
      exact ⟨_, rfl⟩
    · have hlr : rest.length ≤ n := by
        simp only [List.length_cons] at hl
        omega
      obtain ⟨r, hgr⟩ := getu4_hex a b c d rest ha hb hc hd
      rcases unquoteLoop_unicode a b c d rest r hgr with ⟨pre, hp⟩ | ⟨pre, r2, h2, hp⟩
      · obtain ⟨s, hs⟩ := ih rest hlr hr
        rw [hp, hs]
        exact ⟨_, rfl⟩
      · obtain ⟨a2, b2, c2, d2, tl, rfl⟩ := getu4_shape rest r2 h2
        obtain ⟨a3, b3, c3, d3, tl3, e3, -, -, -, -, ht⟩ := IsChars_unicode _ hr
        have e4 : tl = tl3 := by
          simp only [List.cons.injEq] at e3
          exact e3.2.2.2.2
        subst e4
        have hk : unquoteLoop 6 (0x5C :: 0x75 :: a2 :: b2 :: c2 :: d2 :: tl)
            = unquoteLoop 0 tl := rfl
        obtain ⟨s, hs⟩ := ih tl (by simp at hlr; omega) ht
        rw [hp, hk, hs]
        exact ⟨_, rfl⟩

/-- Function `unquoteBytes` succeeds on the characters of a string literal. -/
theorem unquote_total (cs : Bytes) (h : IsChars cs) : ∃ s, unquote cs = some s :=
  unquoteLoop_total cs.length cs (Nat.le_refl _) h

theorem unquote_getD (cs : Bytes) (h : IsChars cs) :
    unquote cs = some ((unquote cs).getD []) := by
  obtain ⟨s, hs⟩ := unquote_total cs h
  rw [hs]
  rfl

/-! ## Runs of the scanner: whitespace, the end of a value, string literals -/

theorem foldl_fixed (s : Scanner) (w : Bytes)
    (hs : ∀ c, isSpace c = true → s.next c = s) (hw : IsWs w) :
    w.foldl Scanner.next s = s := by
  induction w with
  | nil => rfl
  | cons c cs ih =>
    rw [List.foldl_cons, hs c (hw c (List.mem_cons_self _ _))]
    exact ih (fun x hx => hw x (List.mem_cons_of_mem _ hx))

theorem foldl_ws_begin (st : Step) (fs : List Frame) (tok : Bytes) (top : Option JVal)
    (w : Bytes)
    (hst : st = .beginValue ∨ st = .beginValueOrEmpty ∨ st = .beginString ∨
      st = .beginStringOrEmpty) (hw : IsWs w) :
    w.foldl Scanner.next ⟨st, fs, tok, top⟩ = ⟨st, fs, tok, top⟩ := by
  apply foldl_fixed _ _ _ hw
  intro c hc
  rcases hst with rfl | rfl | rfl | rfl
  · simp only [Scanner.next, stateBeginValue, if_pos hc]
  · simp only [Scanner.next, stateBeginValueOrEmpty, if_pos hc]
  · simp only [Scanner.next, stateBeginString, if_pos hc]
  · simp only [Scanner.next, stateBeginStringOrEmpty, if_pos hc]

theorem foldl_ws_endValue (f : Frame) (fs : List Frame) (tok : Bytes) (top : Option JVal)
    (w : Bytes) (hw : IsWs w) :
    w.foldl Scanner.next ⟨.endValue, f :: fs, tok, top⟩ = ⟨.endValue, f :: fs, tok, top⟩ := by
  apply foldl_fixed _ _ _ hw
  intro c hc
  simp only [Scanner.next, stateEndValue, if_pos hc]

theorem foldl_ws_endTop (fs : List Frame) (tok : Bytes) (top : Option JVal)
    (w : Bytes) (hw : IsWs w) :
    w.foldl Scanner.next ⟨.endTop, fs, tok, top⟩ = ⟨.endTop, fs, tok, top⟩ := by
  apply foldl_fixed _ _ _ hw
  intro c hc
  simp only [Scanner.next, stateEndTop, hc, Bool.not_true, Bool.false_eq_true, if_false]

/-- Handing a value on leaves the scanner in the state `post`, whatever the state function
and the token buffer were. -/
theorem complete_post (st : Step) (fs : List Frame) (tok : Bytes) (top : Option JVal)
    (jv : JVal) :
    { Scanner.complete ⟨st, fs, tok, top⟩ jv with step := .endValue } = post fs top jv := by
  rcases fs with _ | ⟨f, fs⟩
  · rfl
  · cases f with
    | objectKey ms key => cases jv <;> rfl
    | objectValue ms key => rfl
    | arrayValue vs => rfl

theorem post_step (fs : List Frame) (top : Option JVal) (jv : JVal) :
    (post fs top jv).step = .endValue :=
  step_complete _ _

theorem post_next (fs : List Frame) (top : Option JVal) (jv : JVal) (c : Nat) :
    (post fs top jv).next c = stateEndValue (post fs top jv) c := by
  have h := post_step fs top jv
  revert h
  generalize post fs top jv = s
  intro h
  obtain ⟨st, ps, tok, tp⟩ := s
  simp only at h
  subst h
  rfl

theorem popParseState_step (st : Step) (f : Frame) (fs : List Frame) (tok : Bytes)
    (top : Option JVal) (jv : JVal) :
    Scanner.popParseState ⟨st, f :: fs, tok, top⟩ jv
      = { post fs top jv with step := if fs.isEmpty then .endTop else .endValue } := by
  rcases fs with _ | ⟨f1, fs⟩
  · rfl
  · cases f1 with
    | objectKey ms key => cases jv <;> rfl
    | objectValue ms key => rfl
    | arrayValue vs => rfl

/-- After the closing bracket or brace the scanner goes on as from `post`. -/
theorem popParseState_next (st : Step) (f : Frame) (fs : List Frame) (tok : Bytes)
    (top : Option JVal) (jv : JVal) (c : Nat) :
    (Scanner.popParseState ⟨st, f :: fs, tok, top⟩ jv).next c = (post fs top jv).next c := by
  rw [popParseState_step]
  rcases fs with _ | ⟨f1, fs⟩
  · rfl
  · have e : ({ post (f1 :: fs) top jv with
          step := if (f1 :: fs).isEmpty = true then Step.endTop else Step.endValue } : Scanner)
        = post (f1 :: fs) top jv := by
      cases f1 with
      | objectKey ms key => cases jv <;> rfl
      | objectValue ms key => rfl
      | arrayValue vs => rfl
    rw [e]

theorem stateEndValue_step (st : Step) (fs : List Frame) (tok : Bytes) (top : Option JVal)
    (c : Nat) :
    stateEndValue ⟨st, fs, tok, top⟩ c = stateEndValue ⟨.endValue, fs, tok, top⟩ c := by
  rcases fs with _ | ⟨f, fs⟩
  · rfl
  · unfold stateEndValue
    cases f with
    | objectKey ms key => rfl
    | objectValue ms key =>
      simp only []
      rw [popParseState_step st, popParseState_step .endValue]
      rfl
    | arrayValue vs =>
      simp only []
      rw [popParseState_step st, popParseState_step .endValue]
      rfl

/-- Function `endNumber`: the scanner goes on as from `post`. -/
theorem endNumber_post (st : Step) (fs : List Frame) (tok : Bytes) (top : Option JVal)
    (c : Nat) :
    endNumber ⟨st, fs, tok, top⟩ c = (post fs top (.number tok)).next c := by
  rw [post_next]
  unfold endNumber
  have e : Scanner.complete ⟨st, fs, tok, top⟩ (.number tok)
      = { post fs top (.number tok) with step := st } := by
    rcases fs with _ | ⟨f, fs⟩
    · rfl
    · cases f <;> rfl
  rw [e]
  have e2 : post fs top (.number tok)
      = { post fs top (.number tok) with step := .endValue } := by
    rcases fs with _ | ⟨f, fs⟩
    · rfl
    · cases f <;> rfl
  rw [e2]
  exact stateEndValue_step st _ _ _ c

/-- The scanner inside a string literal: the characters are collected. -/
theorem foldl_chars (cs : Bytes) (h : IsChars cs) :
    ∀ (fs : List Frame) (tok : Bytes) (top : Option JVal),
      cs.foldl Scanner.next ⟨.inString, fs, tok, top⟩ = ⟨.inString, fs, tok ++ cs, top⟩ := by
  induction h with
  | nil =>
    intro fs tok top
    simp
  | plain cs c _ h1 h2 h3 ih =>
    intro fs tok top
    rw [List.foldl_append, ih, List.foldl_cons, List.foldl_nil,
      next_plain fs _ top c ⟨h1, h2, h3⟩, List.append_assoc]
  | escape cs e _ he ih =>
    intro fs tok top
    rw [List.foldl_append, ih]
    rcases he with rfl | rfl | rfl | rfl | rfl | rfl | rfl | rfl <;>
      simp [List.foldl, Scanner.next, stateInString, stateInStringEsc]
  | unicode cs a b c d _ ha hb hc hd ih =>
    intro fs tok top
    rw [List.foldl_append, ih]
    simp [List.foldl, Scanner.next, stateInString, stateInStringEsc, stateInStringEscHex,
      ha, hb, hc, hd]

/-- The scanner from the opening quote on: at the closing quote the string is handed on. -/
theorem foldl_string (fs : List Frame) (top : Option JVal) (cs rest : Bytes)
    (h : IsChars cs) :
    (cs ++ 0x22 :: rest).foldl Scanner.next ⟨.inString, fs, [], top⟩
      = rest.foldl Scanner.next (post fs top (.string ((unquote cs).getD []))) := by
  rw [List.foldl_append, foldl_chars cs h, List.foldl_cons, List.nil_append]
  congr 1
  simp only [Scanner.next, stateInString]
  rw [if_pos trivial, unquote_getD cs h]
  simp only [Option.getD_some]
  exact complete_post _ _ _ _ _

/-! ## Runs of the scanner: numbers -/

theorem isDelim_cases (c : Nat) (h : isDelim c = true) :
    c = 0x20 ∨ c = 0x09 ∨ c = 0x0D ∨ c = 0x0A ∨ c = 0x2C ∨ c = 0x5D ∨ c = 0x7D := by
  simp only [isDelim, isSpace, Bool.decide_or, Bool.or_eq_true, decide_eq_true_eq] at h
  omega

theorem isDelim_of_isSpace (c : Nat) (h : isSpace c = true) : isDelim c = true := by
  simp [isDelim, h]

theorem isDigit_iff (c : Nat) : isDigit c = true ↔ 0x30 ≤ c ∧ c ≤ 0x39 := by
  simp only [isDigit, Bool.decide_and, Bool.and_eq_true, decide_eq_true_eq]

/-- At a byte that can follow a value a complete number literal is handed on. -/
theorem number_end (st : Step) (fs : List Frame) (tok : Bytes) (top : Option JVal) (c : Nat)
    (hst : st = .zero ∨ st = .one ∨ st = .dot0 ∨ st = .e0) (hc : isDelim c = true) :
    Scanner.next ⟨st, fs, tok, top⟩ c = (post fs top (.number tok)).next c := by
  rw [← endNumber_post st]
  rcases isDelim_cases c hc with rfl | rfl | rfl | rfl | rfl | rfl | rfl <;>
    rcases hst with rfl | rfl | rfl | rfl <;> rfl

theorem foldl_digits (st : Step) (hst : st = .one ∨ st = .dot0 ∨ st = .e0) (ds : Bytes) :
    ∀ (fs : List Frame) (tok : Bytes) (top : Option JVal), IsDigits ds →
      ds.foldl Scanner.next ⟨st, fs, tok, top⟩ = ⟨st, fs, tok ++ ds, top⟩ := by
  induction ds with
  | nil =>
    intro fs tok top _
    simp
  | cons d ds ih =>
    intro fs tok top h
    have hd : isDigit d = true := h d (List.mem_cons_self _ _)
    have e : Scanner.next ⟨st, fs, tok, top⟩ d = ⟨st, fs, tok ++ [d], top⟩ := by
      rcases hst with rfl | rfl | rfl
      · simp only [Scanner.next, state1, if_pos hd]
      · simp only [Scanner.next, stateDot0, if_pos hd]
      · simp only [Scanner.next, stateE0, if_pos hd]
    rw [List.foldl_cons, e, ih fs _ top (fun x hx => h x (List.mem_cons_of_mem _ hx))]
    simp

theorem isSpace_digit (d : Nat) (h1 : 0x31 ≤ d) (h2 : d ≤ 0x39) : isSpace d = false := by
  simp only [isSpace, Bool.decide_or, Bool.or_eq_false_iff, decide_eq_false_iff_not]
  omega

theorem stateBeginValue_digit (s : Scanner) (d : Nat) (h1 : 0x31 ≤ d) (h2 : d ≤ 0x39) :
    stateBeginValue s d = { s with step := .one, tok := [d] } := by
  unfold stateBeginValue
  rw [if_neg (by rw [isSpace_digit d h1 h2]; exact Bool.false_ne_true),
    if_neg (by omega), if_neg (by omega), if_neg (by omega), if_neg (by omega),
    if_neg (by omega), if_neg (by omega), if_neg (by omega), if_neg (by omega),
    if_pos ⟨h1, h2⟩]

/-- The sign and the integer part of a number, from a state where a value begins. -/
theorem foldl_int (st : Step) (hst : st = .beginValue ∨ st = .beginValueOrEmpty)
    (fs : List Frame) (tok : Bytes) (top : Option JVal) (sg i : Bytes)
    (hs : IsSign sg) (hi : IsInt i) :
    ∃ sti, (sti = .zero ∨ sti = .one) ∧
      (sg ++ i).foldl Scanner.next ⟨st, fs, tok, top⟩ = ⟨sti, fs, sg ++ i, top⟩ := by
  rcases hs with rfl | rfl
  · rcases hi with rfl | ⟨d, ds, rfl, h1, h2, hds⟩
    · refine ⟨.zero, Or.inl rfl, ?_⟩
      rcases hst with rfl | rfl <;> rfl
    · refine ⟨.one, Or.inr rfl, ?_⟩
      have e : Scanner.next ⟨st, fs, tok, top⟩ d = ⟨.one, fs, [d], top⟩ := by
        rcases hst with rfl | rfl
        · exact stateBeginValue_digit _ d h1 h2
        · simp only [Scanner.next, stateBeginValueOrEmpty]
          rw [if_neg (by rw [isSpace_digit d h1 h2]; exact Bool.false_ne_true),
            if_neg (by omega)]
          exact stateBeginValue_digit _ d h1 h2
      rw [List.nil_append, List.foldl_cons, e, foldl_digits .one (Or.inl rfl) ds fs _ top hds]
      rfl
  · rcases hi with rfl | ⟨d, ds, rfl, h1, h2, hds⟩
    · refine ⟨.zero, Or.inl rfl, ?_⟩
      rcases hst with rfl | rfl <;> rfl
    · refine ⟨.one, Or.inr rfl, ?_⟩
      have e0 : Scanner.next ⟨st, fs, tok, top⟩ 0x2D = ⟨.neg, fs, [0x2D], top⟩ := by
        rcases hst with rfl | rfl <;> rfl
      have e : Scanner.next ⟨.neg, fs, [0x2D], top⟩ d = ⟨.one, fs, [0x2D, d], top⟩ := by
        simp only [Scanner.next, stateNeg]
        rw [if_neg (by omega), if_pos ⟨h1, h2⟩]
        rfl
      rw [List.singleton_append, List.foldl_cons, e0, List.foldl_cons, e,
        foldl_digits .one (Or.inl rfl) ds fs _ top hds]
      rfl

/-- The fraction of a number. -/
theorem foldl_frac (st : Step) (hst : st = .zero ∨ st = .one)
    (fs : List Frame) (tok : Bytes) (top : Option JVal) (f : Bytes) (hf : IsFrac f) :
    ∃ stf, (stf = .zero ∨ stf = .one ∨ stf = .dot0) ∧
      f.foldl Scanner.next ⟨st, fs, tok, top⟩ = ⟨stf, fs, tok ++ f, top⟩ := by
  rcases hf with rfl | ⟨ds, rfl, hne, hds⟩
  · refine ⟨st, ?_, by simp⟩
    rcases hst with rfl | rfl
    · exact Or.inl rfl
    · exact Or.inr (Or.inl rfl)
  · refine ⟨.dot0, Or.inr (Or.inr rfl), ?_⟩
    rcases ds with _ | ⟨d, ds⟩
    · exact absurd rfl hne
    have hd : isDigit d = true := hds d (List.mem_cons_self _ _)
    have e1 : Scanner.next ⟨st, fs, tok, top⟩ 0x2E = ⟨.dot, fs, tok ++ [0x2E], top⟩ := by
      rcases hst with rfl | rfl <;> rfl
    have e2 : Scanner.next ⟨.dot, fs, tok ++ [0x2E], top⟩ d
        = ⟨.dot0, fs, tok ++ [0x2E] ++ [d], top⟩ := by
      simp only [Scanner.next, stateDot, if_pos hd]
    rw [List.foldl_cons, e1, List.foldl_cons, e2,
      foldl_digits .dot0 (Or.inr (Or.inl rfl)) ds fs _ top
        (fun x hx => hds x (List.mem_cons_of_mem _ hx))]
    simp

/-- The exponent of a number. -/
theorem foldl_exp (st : Step) (hst : st = .zero ∨ st = .one ∨ st = .dot0)
    (fs : List Frame) (tok : Bytes) (top : Option JVal) (x : Bytes) (hx : IsExp x) :
    ∃ ste, (ste = .zero ∨ ste = .one ∨ ste = .dot0 ∨ ste = .e0) ∧
      x.foldl Scanner.next ⟨st, fs, tok, top⟩ = ⟨ste, fs, tok ++ x, top⟩ := by
  rcases hx with rfl | ⟨e, sg, ds, rfl, he, hsg, hne, hds⟩
  · refine ⟨st, ?_, by simp⟩
    rcases hst with rfl | rfl | rfl
    · exact Or.inl rfl
    · exact Or.inr (Or.inl rfl)
    · exact Or.inr (Or.inr (Or.inl rfl))
  · refine ⟨.e0, Or.inr (Or.inr (Or.inr rfl)), ?_⟩
    rcases ds with _ | ⟨d, ds⟩
    · exact absurd rfl hne
    have hd : isDigit d = true := hds d (List.mem_cons_self _ _)
    have hd2 := (isDigit_iff d).mp hd
    have e1 : Scanner.next ⟨st, fs, tok, top⟩ e = ⟨.e, fs, tok ++ [e], top⟩ := by
      rcases he with rfl | rfl <;> rcases hst with rfl | rfl | rfl <;> rfl
    have e3 : ∀ t, Scanner.next ⟨.eSign, fs, t, top⟩ d = ⟨.e0, fs, t ++ [d], top⟩ := by
      intro t
      simp only [Scanner.next, stateESign, if_pos hd]
    have e2 : Scanner.next ⟨.e, fs, tok ++ [e], top⟩ d = ⟨.e0, fs, tok ++ [e] ++ [d], top⟩ := by
      simp only [Scanner.next, stateE, stateESign, if_pos hd]
      rw [if_neg (by omega)]
    rw [List.foldl_cons, e1]
    rcases hsg with rfl | rfl | rfl
    · rw [List.nil_append, List.foldl_cons, e2,
        foldl_digits .e0 (Or.inr (Or.inr rfl)) ds fs _ top
          (fun x hx => hds x (List.mem_cons_of_mem _ hx))]
      simp
    · have e4 : Scanner.next ⟨.e, fs, tok ++ [e], top⟩ 0x2B
          = ⟨.eSign, fs, tok ++ [e] ++ [0x2B], top⟩ := rfl
      rw [List.singleton_append, List.foldl_cons, e4, List.foldl_cons, e3,
        foldl_digits .e0 (Or.inr (Or.inr rfl)) ds fs _ top
          (fun x hx => hds x (List.mem_cons_of_mem _ hx))]
      simp
    · have e4 : Scanner.next ⟨.e, fs, tok ++ [e], top⟩ 0x2D
          = ⟨.eSign, fs, tok ++ [e] ++ [0x2D], top⟩ := rfl
      rw [List.singleton_append, List.foldl_cons, e4, List.foldl_cons, e3,
        foldl_digits .e0 (Or.inr (Or.inr rfl)) ds fs _ top
          (fun x hx => hds x (List.mem_cons_of_mem _ hx))]
      simp

/-- The scanner over a number literal followed by a byte that can follow a value. -/
theorem foldl_number (st : Step) (hst : st = .beginValue ∨ st = .beginValueOrEmpty)
    (fs : List Frame) (tok : Bytes) (top : Option JVal) (n : Bytes) (hn : IsNumber n)
    (x : Nat) (rest : Bytes) (hx : isDelim x = true) :
    (n ++ x :: rest).foldl Scanner.next ⟨st, fs, tok, top⟩
      = (x :: rest).foldl Scanner.next (post fs top (.number n)) := by
  obtain ⟨sg, i, f, ex, rfl, hs, hi, hf, he⟩ := hn
  obtain ⟨sti, hsti, e1⟩ := foldl_int st hst fs tok top sg i hs hi
  obtain ⟨stf, hstf, e2⟩ := foldl_frac sti hsti fs (sg ++ i) top f hf
  obtain ⟨ste, hste, e3⟩ := foldl_exp stf hstf fs (sg ++ i ++ f) top ex he
  rw [List.foldl_append, List.foldl_append, List.foldl_append, e1, e2, e3, List.foldl_cons,
    List.foldl_cons, number_end ste fs _ top x hste hx]

/-! ## Runs of the scanner: the rules of the grammar -/

theorem first_delim (w : Bytes) (x : Nat) (rest : Bytes) (hw : IsWs w)
    (hx : isDelim x = true) : ∃ c r, w ++ x :: rest = c :: r ∧ isDelim c = true := by
  rcases w with _ | ⟨c, cs⟩
  · exact ⟨x, rest, rfl, hx⟩
  · exact ⟨c, cs ++ x :: rest, rfl, isDelim_of_isSpace c (hw c (List.mem_cons_self _ _))⟩

theorem runs_null (d : Nat) : RunsValue d [0x6E, 0x75, 0x6C, 0x6C] .null := by
  intro st fs tok top x rest hst _ _
  have e : [0x6E, 0x75, 0x6C, 0x6C].foldl Scanner.next ⟨st, fs, tok, top⟩
      = post fs top .null := by
    rcases hst with rfl | rfl <;> exact complete_post .nul fs tok top .null
  rw [List.foldl_append, e]

theorem runs_true (d : Nat) : RunsValue d [0x74, 0x72, 0x75, 0x65] (.bool true) := by
  intro st fs tok top x rest hst _ _
  have e : [0x74, 0x72, 0x75, 0x65].foldl Scanner.next ⟨st, fs, tok, top⟩
      = post fs top (.bool true) := by
    rcases hst with rfl | rfl <;> exact complete_post .tru fs tok top (.bool true)
  rw [List.foldl_append, e]

theorem runs_false (d : Nat) : RunsValue d [0x66, 0x61, 0x6C, 0x73, 0x65] (.bool false) := by
  intro st fs tok top x rest hst _ _
  have e : [0x66, 0x61, 0x6C, 0x73, 0x65].foldl Scanner.next ⟨st, fs, tok, top⟩
      = post fs top (.bool false) := by
    rcases hst with rfl | rfl <;> exact complete_post .fals fs tok top (.bool false)
  rw [List.foldl_append, e]

theorem runs_number (d : Nat) (n : Bytes) (hn : IsNumber n) : RunsValue d n (.number n) := by
  intro st fs tok top x rest hst _ hx
  exact foldl_number st hst fs tok top n hn x rest hx

theorem runs_string (d : Nat) (cs : Bytes) (h : IsChars cs) :
    RunsValue d (0x22 :: (cs ++ [0x22])) (.string ((unquote cs).getD [])) := by
  intro st fs tok top x rest hst _ _
  have e : 0x22 :: (cs ++ [0x22]) ++ x :: rest = 0x22 :: (cs ++ 0x22 :: (x :: rest)) := by
    simp
  have e1 : Scanner.next ⟨st, fs, tok, top⟩ 0x22 = ⟨.inString, fs, [], top⟩ := by
    rcases hst with rfl | rfl <;> rfl
  rw [e, List.foldl_cons, e1, foldl_string fs top cs _ h]

theorem next_bracket (st : Step) (hst : st = .beginValue ∨ st = .beginValueOrEmpty)
    (fs : List Frame) (tok : Bytes) (top : Option JVal)
    (hd : fs.length + 1 ≤ maxNestingDepth) :
    Scanner.next ⟨st, fs, tok, top⟩ 0x5B = ⟨.beginValueOrEmpty, .arrayValue [] :: fs, tok, top⟩ := by
  have e : Scanner.next ⟨st, fs, tok, top⟩ 0x5B
      = Scanner.pushParseState ⟨st, fs, tok, top⟩ (.arrayValue []) .beginValueOrEmpty := by
    rcases hst with rfl | rfl <;> rfl
  rw [e]
  unfold Scanner.pushParseState
  rw [if_pos hd]

theorem next_brace (st : Step) (hst : st = .beginValue ∨ st = .beginValueOrEmpty)
    (fs : List Frame) (tok : Bytes) (top : Option JVal)
    (hd : fs.length + 1 ≤ maxNestingDepth) :
    Scanner.next ⟨st, fs, tok, top⟩ 0x7B
      = ⟨.beginStringOrEmpty, .objectKey [] none :: fs, tok, top⟩ := by
  have e : Scanner.next ⟨st, fs, tok, top⟩ 0x7B
      = Scanner.pushParseState ⟨st, fs, tok, top⟩ (.objectKey [] none) .beginStringOrEmpty := by
    rcases hst with rfl | rfl <;> rfl
  rw [e]
  unfold Scanner.pushParseState
  rw [if_pos hd]

theorem runs_emptyArray (d : Nat) (w : Bytes) (hw : IsWs w) :
    RunsValue (d + 1) (0x5B :: (w ++ [0x5D])) (.array []) := by
  intro st fs tok top x rest hst hd _
  have e : 0x5B :: (w ++ [0x5D]) ++ x :: rest = 0x5B :: (w ++ 0x5D :: (x :: rest)) := by
    simp
  have e2 : Scanner.next ⟨.beginValueOrEmpty, .arrayValue [] :: fs, tok, top⟩ 0x5D
      = Scanner.popParseState ⟨.beginValueOrEmpty, .arrayValue [] :: fs, tok, top⟩
          (.array []) := rfl
  rw [e, List.foldl_cons, next_bracket st hst fs tok top (by omega), List.foldl_append,
    foldl_ws_begin _ _ _ _ w (Or.inr (Or.inl rfl)) hw, List.foldl_cons, e2, List.foldl_cons,
    popParseState_next, List.foldl_cons]

theorem runs_array (d : Nat) (body v w : Bytes) (vs : List JVal) (jv : JVal)
    (hb : RunsElements d body vs) (hv : RunsValue d v jv) (hw : IsWs w) :
    RunsValue (d + 1) (0x5B :: (body ++ v ++ w ++ [0x5D])) (.array (vs ++ [jv])) := by
  intro st fs tok top x rest hst hd _
  have e : 0x5B :: (body ++ v ++ w ++ [0x5D]) ++ x :: rest
      = 0x5B :: (body ++ (v ++ (w ++ 0x5D :: (x :: rest)))) := by
    simp
  obtain ⟨st1, tok1, hst1, hb1⟩ := hb fs tok top (by omega)
  obtain ⟨c, r, ec, hc⟩ := first_delim w 0x5D (x :: rest) hw (by decide)
  have hv1 := hv st1 (.arrayValue vs :: fs) tok1 top c r hst1
    (by simp only [List.length_cons]; omega) hc
  have ep : post (.arrayValue vs :: fs) top jv
      = ⟨.endValue, .arrayValue (vs ++ [jv]) :: fs, [], top⟩ := rfl
  have e2 : Scanner.next ⟨.endValue, .arrayValue (vs ++ [jv]) :: fs, [], top⟩ 0x5D
      = Scanner.popParseState ⟨.endValue, .arrayValue (vs ++ [jv]) :: fs, [], top⟩
          (.array (vs ++ [jv])) := rfl
  rw [e, List.foldl_cons, next_bracket st hst fs tok top (by omega), List.foldl_append, hb1,
    ec, hv1, ← ec, ep, List.foldl_append, foldl_ws_endValue _ _ _ _ w hw, List.foldl_cons, e2,
    List.foldl_cons, popParseState_next, List.foldl_cons]

theorem runs_emptyObject (d : Nat) (w : Bytes) (hw : IsWs w) :
    RunsValue (d + 1) (0x7B :: (w ++ [0x7D])) (.object []) := by
  intro st fs tok top x rest hst hd _
  have e : 0x7B :: (w ++ [0x7D]) ++ x :: rest = 0x7B :: (w ++ 0x7D :: (x :: rest)) := by
    simp
  have e2 : Scanner.next ⟨.beginStringOrEmpty, .objectKey [] none :: fs, tok, top⟩ 0x7D
      = Scanner.popParseState ⟨.beginStringOrEmpty, .objectValue [] [] :: fs, tok, top⟩
          (.object []) := rfl
  rw [e, List.foldl_cons, next_brace st hst fs tok top (by omega), List.foldl_append,
    foldl_ws_begin _ _ _ _ w (Or.inr (Or.inr (Or.inr rfl))) hw, List.foldl_cons, e2,
    List.foldl_cons, popParseState_next, List.foldl_cons]

theorem runs_object (d : Nat) (body v w : Bytes) (ms : List (Bytes × JVal)) (k : Bytes)
    (jv : JVal) (hb : RunsMembers d body ms k) (hv : RunsValue d v jv) (hw : IsWs w) :
    RunsValue (d + 1) (0x7B :: (body ++ v ++ w ++ [0x7D])) (.object (ms ++ [(k, jv)])) := by
  intro st fs tok top x rest hst hd _
  have e : 0x7B :: (body ++ v ++ w ++ [0x7D]) ++ x :: rest
      = 0x7B :: (body ++ (v ++ (w ++ 0x7D :: (x :: rest)))) := by
    simp
  obtain ⟨tok1, hb1⟩ := hb fs tok top (by omega)
  obtain ⟨c, r, ec, hc⟩ := first_delim w 0x7D (x :: rest) hw (by decide)
  have hv1 := hv .beginValue (.objectValue ms k :: fs) tok1 top c r (Or.inl rfl)
    (by simp only [List.length_cons]; omega) hc
  have ep : post (.objectValue ms k :: fs) top jv
      = ⟨.endValue, .objectValue (ms ++ [(k, jv)]) k :: fs, [], top⟩ := rfl
  have e2 : Scanner.next ⟨.endValue, .objectValue (ms ++ [(k, jv)]) k :: fs, [], top⟩ 0x7D
      = Scanner.popParseState ⟨.endValue, .objectValue (ms ++ [(k, jv)]) k :: fs, [], top⟩
          (.object (ms ++ [(k, jv)])) := rfl
  rw [e, List.foldl_cons, next_brace st hst fs tok top (by omega), List.foldl_append, hb1,
    ec, hv1, ← ec, ep, List.foldl_append, foldl_ws_endValue _ _ _ _ w hw, List.foldl_cons, e2,
    List.foldl_cons, popParseState_next, List.foldl_cons]

theorem runs_elements_ws (d : Nat) (w : Bytes) (hw : IsWs w) : RunsElements d w [] := by
  intro fs tok top _
  exact ⟨.beginValueOrEmpty, tok, Or.inr rfl,
    foldl_ws_begin _ _ _ _ w (Or.inr (Or.inl rfl)) hw⟩

theorem runs_elements_more (d : Nat) (body v w1 w2 : Bytes) (vs : List JVal) (jv : JVal)
    (hb : RunsElements d body vs) (hv : RunsValue d v jv) (h1 : IsWs w1) (h2 : IsWs w2) :
    RunsElements d (body ++ v ++ w1 ++ 0x2C :: w2) (vs ++ [jv]) := by
  intro fs tok top hd
  have e : body ++ v ++ w1 ++ 0x2C :: w2 = body ++ (v ++ (w1 ++ 0x2C :: w2)) := by
    simp
  obtain ⟨st1, tok1, hst1, hb1⟩ := hb fs tok top hd
  obtain ⟨c, r, ec, hc⟩ := first_delim w1 0x2C w2 h1 (by decide)
  have hv1 := hv st1 (.arrayValue vs :: fs) tok1 top c r hst1
    (by simp only [List.length_cons]; omega) hc
  have ep : post (.arrayValue vs :: fs) top jv
      = ⟨.endValue, .arrayValue (vs ++ [jv]) :: fs, [], top⟩ := rfl
  have e2 : Scanner.next ⟨.endValue, .arrayValue (vs ++ [jv]) :: fs, [], top⟩ 0x2C
      = ⟨.beginValue, .arrayValue (vs ++ [jv]) :: fs, [], top⟩ := rfl
  refine ⟨.beginValue, [], Or.inl rfl, ?_⟩
  rw [e, List.foldl_append, hb1, ec, hv1, ← ec, ep, List.foldl_append,
    foldl_ws_endValue _ _ _ _ w1 h1, List.foldl_cons, e2,
    foldl_ws_begin _ _ _ _ w2 (Or.inl rfl) h2]

/-- The scanner over a key: whitespace, a string literal, whitespace, a colon, whitespace. -/
theorem foldl_key (st : Step) (hst : st = .beginString ∨ st = .beginStringOrEmpty)
    (ms : List (Bytes × JVal)) (fs : List Frame) (tok : Bytes) (top : Option JVal)
    (w1 cs w2 w3 : Bytes) (h1 : IsWs w1) (hcs : IsChars cs) (h2 : IsWs w2) (h3 : IsWs w3) :
    (w1 ++ (0x22 :: (cs ++ 0x22 :: (w2 ++ 0x3A :: w3)))).foldl Scanner.next
        ⟨st, .objectKey ms none :: fs, tok, top⟩
      = ⟨.beginValue, .objectValue ms ((unquote cs).getD []) :: fs, [], top⟩ := by
  have e1 : Scanner.next ⟨st, .objectKey ms none :: fs, tok, top⟩ 0x22
      = ⟨.inString, .objectKey ms none :: fs, [], top⟩ := by
    rcases hst with rfl | rfl <;> rfl
  have ep : post (.objectKey ms none :: fs) top (.string ((unquote cs).getD []))
      = ⟨.endValue, .objectKey ms (some ((unquote cs).getD [])) :: fs, [], top⟩ := rfl
  have e2 : Scanner.next
      ⟨.endValue, .objectKey ms (some ((unquote cs).getD [])) :: fs, [], top⟩ 0x3A
      = ⟨.beginValue, .objectValue ms ((unquote cs).getD []) :: fs, [], top⟩ := rfl
  have hst2 : st = .beginValue ∨ st = .beginValueOrEmpty ∨ st = .beginString ∨
      st = .beginStringOrEmpty := by
    rcases hst with rfl | rfl
    · exact Or.inr (Or.inr (Or.inl rfl))
    · exact Or.inr (Or.inr (Or.inr rfl))
  rw [List.foldl_append, foldl_ws_begin _ _ _ _ w1 hst2 h1, List.foldl_cons, e1,
    foldl_string _ top cs _ hcs, ep, List.foldl_append, foldl_ws_endValue _ _ _ _ w2 h2,
    List.foldl_cons, e2, foldl_ws_begin _ _ _ _ w3 (Or.inl rfl) h3]

theorem runs_members_first (d : Nat) (w1 cs w2 w3 : Bytes) (h1 : IsWs w1) (hcs : IsChars cs)
    (h2 : IsWs w2) (h3 : IsWs w3) :
    RunsMembers d (w1 ++ 0x22 :: (cs ++ [0x22]) ++ w2 ++ 0x3A :: w3) []
      ((unquote cs).getD []) := by
  intro fs tok top _
  have e : w1 ++ 0x22 :: (cs ++ [0x22]) ++ w2 ++ 0x3A :: w3
      = w1 ++ (0x22 :: (cs ++ 0x22 :: (w2 ++ 0x3A :: w3))) := by
    simp
  rw [e]
  exact ⟨[], foldl_key _ (Or.inr rfl) [] fs tok top w1 cs w2 w3 h1 hcs h2 h3⟩

theorem runs_members_more (d : Nat) (body v w1 w2 cs w3 w4 : Bytes)
    (ms : List (Bytes × JVal)) (k : Bytes) (jv : JVal)
    (hb : RunsMembers d body ms k) (hv : RunsValue d v jv) (h1 : IsWs w1) (h2 : IsWs w2)
    (hcs : IsChars cs) (h3 : IsWs w3) (h4 : IsWs w4) :
    RunsMembers d
      (body ++ v ++ w1 ++ 0x2C :: w2 ++ 0x22 :: (cs ++ [0x22]) ++ w3 ++ 0x3A :: w4)
      (ms ++ [(k, jv)]) ((unquote cs).getD []) := by
  intro fs tok top hd
  have e : body ++ v ++ w1 ++ 0x2C :: w2 ++ 0x22 :: (cs ++ [0x22]) ++ w3 ++ 0x3A :: w4
      = body ++ (v ++ (w1 ++ 0x2C :: (w2 ++ (0x22 :: (cs ++ 0x22 :: (w3 ++ 0x3A :: w4)))))) := by
    simp
  obtain ⟨tok1, hb1⟩ := hb fs tok top hd
  obtain ⟨c, r, ec, hc⟩ := first_delim w1 0x2C
    (w2 ++ (0x22 :: (cs ++ 0x22 :: (w3 ++ 0x3A :: w4)))) h1 (by decide)
  have hv1 := hv .beginValue (.objectValue ms k :: fs) tok1 top c r (Or.inl rfl)
    (by simp only [List.length_cons]; omega) hc
  have ep : post (.objectValue ms k :: fs) top jv
      = ⟨.endValue, .objectValue (ms ++ [(k, jv)]) k :: fs, [], top⟩ := rfl
  have e2 : Scanner.next ⟨.endValue, .objectValue (ms ++ [(k, jv)]) k :: fs, [], top⟩ 0x2C
      = ⟨.beginString, .objectKey (ms ++ [(k, jv)]) none :: fs, [], top⟩ := rfl
  refine ⟨[], ?_⟩
  rw [e, List.foldl_append, hb1, ec, hv1, ← ec, ep, List.foldl_append,
    foldl_ws_endValue _ _ _ _ w1 h1, List.foldl_cons, e2]
  exact foldl_key _ (Or.inl rfl) _ fs [] top w2 cs w3 w4 h2 hcs h3 h4

/-- The scanner reads every value text of the grammar, within the depth its stack allows. -/
theorem Reads_runs (d : Nat) (t : Bytes) (jv : JVal) (h : Reads d t jv) : RunsValue d t jv :=
  @Reads.rec (fun d t jv _ => RunsValue d t jv) (fun d body vs _ => RunsElements d body vs)
    (fun d body ms k _ => RunsMembers d body ms k)
    runs_null runs_true runs_false
    (fun d n hn => runs_number d n hn)
    (fun d cs hcs => runs_string d cs hcs)
    (fun d w hw => runs_emptyArray d w hw)
    (fun d body v w vs jv _ _ hw hb hv => runs_array d body v w vs jv hb hv hw)
    (fun d w hw => runs_emptyObject d w hw)
    (fun d body v w ms k jv _ _ hw hb hv => runs_object d body v w ms k jv hb hv hw)
    (fun d w hw => runs_elements_ws d w hw)
    (fun d body v w1 w2 vs jv _ _ h1 h2 hb hv =>
      runs_elements_more d body v w1 w2 vs jv hb hv h1 h2)
    (fun d w1 cs w2 w3 h1 hcs h2 h3 => runs_members_first d w1 cs w2 w3 h1 hcs h2 h3)
    (fun d body v w1 w2 cs w3 w4 ms k jv _ _ h1 h2 hcs h3 h4 hb hv =>
      runs_members_more d body v w1 w2 cs w3 w4 ms k jv hb hv h1 h2 hcs h3 h4)
    d t jv h

/-! ## The scanner accepts every JSON text within its nesting limit -/

theorem eof_of_next (s : Scanner) (v : JVal)
    (h : s.next 0x20 = ⟨.endTop, [], [], some v⟩) : s.eof = some v := by
  obtain ⟨st, ps, tok, tp⟩ := s
  unfold Scanner.eof
  by_cases h1 : st = .error
  · subst h1
    have h2 : (⟨.error, ps, tok, tp⟩ : Scanner) = ⟨.endTop, [], [], some v⟩ := h
    cases h2
  · rw [if_neg h1]
    by_cases h2 : st = .endTop
    · subst h2
      have h3 : (⟨.endTop, ps, tok, tp⟩ : Scanner) = ⟨.endTop, [], [], some v⟩ := h
      rw [if_pos rfl, h3]
    · rw [if_neg h2]
      simp only []
      rw [h, if_pos rfl]

theorem post_space (top : Option JVal) (v : JVal) (c : Nat) (hc : isSpace c = true) :
    (post [] top v).next c = ⟨.endTop, [], [], some v⟩ := by
  have e : post [] top v = ⟨.endValue, [], [], some v⟩ := rfl
  rw [e]
  simp only [Scanner.next, stateEndValue, stateEndTop, hc, Bool.not_true, Bool.false_eq_true,
    if_false]

/-- Function `checkValid` accepts every JSON text whose arrays and objects are nested no
deeper than `maxNestingDepth`, and the decoder then reads the value the text denotes. -/
theorem scan_complete (d : Nat) (p : Bytes) (v : JVal) (h : ReadsText d p v)
    (hd : d ≤ maxNestingDepth) : scan p = some v := by
  obtain ⟨w1, t, w2, rfl, h1, ht, h2⟩ := h
  have run := Reads_runs d t v ht .beginValue [] [] none
  unfold scan Scanner.reset
  rw [List.append_assoc, List.foldl_append, foldl_ws_begin _ _ _ _ w1 (Or.inl rfl) h1]
  rcases w2 with _ | ⟨c, w2⟩
  · rw [List.append_nil]
    apply eof_of_next
    have r := run 0x20 [] (Or.inl rfl) (by simpa using hd) (by decide)
    rw [List.foldl_append, List.foldl_cons, List.foldl_nil, List.foldl_cons, List.foldl_nil,
      post_space none v 0x20 (by decide)] at r
    exact r
  · have hc : isSpace c = true := h2 c (List.mem_cons_self _ _)
    rw [run c w2 (Or.inl rfl) (by simpa using hd) (isDelim_of_isSpace c hc), List.foldl_cons,
      post_space none v c hc,
      foldl_ws_endTop _ _ _ w2 (fun x hx => h2 x (List.mem_cons_of_mem _ hx))]
    rfl

/-! ## The two forms of the grammar agree -/

/-- A text that denotes a value is a value of the grammar. -/
theorem Reads_IsValue (d : Nat) (t : Bytes) (jv : JVal) (h : Reads d t jv) : IsValue t :=
  @Reads.rec (fun _ t _ _ => IsValue t) (fun _ body _ _ => IsElements body)
    (fun _ body _ _ _ => IsMembers body)
    (fun _ => .null) (fun _ => .true) (fun _ => .false)
    (fun _ n hn => .number n hn)
    (fun _ cs hcs => .string _ ⟨cs, rfl, hcs⟩)
    (fun _ w hw => .emptyArray w hw)
    (fun _ body v w _ _ _ _ hw hb hv => .array body v w hb hv hw)
    (fun _ w hw => .emptyObject w hw)
    (fun _ body v w _ _ _ _ _ hw hb hv => .object body v w hb hv hw)
    (fun _ w hw => .ws w hw)
    (fun _ body v w1 w2 _ _ _ _ h1 h2 hb hv => .more body v w1 w2 hb hv h1 h2)
    (fun _ w1 cs w2 w3 h1 hcs h2 h3 => .first w1 _ w2 w3 h1 ⟨cs, rfl, hcs⟩ h2 h3)
    (fun _ body v w1 w2 cs w3 w4 _ _ _ _ _ h1 h2 hcs h3 h4 hb hv =>
      .more body v w1 w2 _ w3 w4 hb hv h1 h2 ⟨cs, rfl, hcs⟩ h3 h4)
    d t jv h

/-- A text that denotes a value is a JSON text. -/
theorem ReadsText_IsJSON (d : Nat) (p : Bytes) (v : JVal) (h : ReadsText d p v) : IsJSON p := by
  obtain ⟨w1, t, w2, e, h1, ht, h2⟩ := h
  exact ⟨w1, t, w2, e, h1, Reads_IsValue d t v ht, h2⟩

theorem succ_of_le (d e : Nat) (h : d + 1 ≤ e) : ∃ e1, e = e1 + 1 ∧ d ≤ e1 :=
  ⟨e - 1, by omega, by omega⟩

theorem mono_emptyArray (d : Nat) (w : Bytes) (hw : IsWs w) (e : Nat) (he : d + 1 ≤ e) :
    Reads e (0x5B :: (w ++ [0x5D])) (.array []) := by
  obtain ⟨e1, rfl, _⟩ := succ_of_le d e he
  exact .emptyArray e1 w hw

theorem mono_array (d : Nat) (body v w : Bytes) (vs : List JVal) (jv : JVal)
    (hb : ∀ e, d ≤ e → ReadsElements e body vs) (hv : ∀ e, d ≤ e → Reads e v jv)
    (hw : IsWs w) (e : Nat) (he : d + 1 ≤ e) :
    Reads e (0x5B :: (body ++ v ++ w ++ [0x5D])) (.array (vs ++ [jv])) := by
  obtain ⟨e1, rfl, h1⟩ := succ_of_le d e he
  exact .array e1 body v w vs jv (hb e1 h1) (hv e1 h1) hw

theorem mono_emptyObject (d : Nat) (w : Bytes) (hw : IsWs w) (e : Nat) (he : d + 1 ≤ e) :
    Reads e (0x7B :: (w ++ [0x7D])) (.object []) := by
  obtain ⟨e1, rfl, _⟩ := succ_of_le d e he
  exact .emptyObject e1 w hw

theorem mono_object (d : Nat) (body v w : Bytes) (ms : List (Bytes × JVal)) (k : Bytes)
    (jv : JVal) (hb : ∀ e, d ≤ e → ReadsMembers e body ms k)
    (hv : ∀ e, d ≤ e → Reads e v jv) (hw : IsWs w) (e : Nat) (he : d + 1 ≤ e) :
    Reads e (0x7B :: (body ++ v ++ w ++ [0x7D])) (.object (ms ++ [(k, jv)])) := by
  obtain ⟨e1, rfl, h1⟩ := succ_of_le d e he
  exact .object e1 body v w ms k jv (hb e1 h1) (hv e1 h1) hw

/-- The depth bound of `Reads` can be raised. -/
theorem Reads_mono (d : Nat) (t : Bytes) (jv : JVal) (h : Reads d t jv) :
    ∀ e, d ≤ e → Reads e t jv :=
  @Reads.rec (fun d t jv _ => ∀ e, d ≤ e → Reads e t jv)
    (fun d body vs _ => ∀ e, d ≤ e → ReadsElements e body vs)
    (fun d body ms k _ => ∀ e, d ≤ e → ReadsMembers e body ms k)
    (fun _ e _ => .null e) (fun _ e _ => .true e) (fun _ e _ => .false e)
    (fun _ n hn e _ => .number e n hn)
    (fun _ cs hcs e _ => .string e cs hcs)
    (fun d w hw e he => mono_emptyArray d w hw e he)
    (fun d body v w vs jv _ _ hw hb hv e he => mono_array d body v w vs jv hb hv hw e he)
    (fun d w hw e he => mono_emptyObject d w hw e he)
    (fun d body v w ms k jv _ _ hw hb hv e he => mono_object d body v w ms k jv hb hv hw e he)
    (fun _ w hw e _ => .ws e w hw)
    (fun _ body v w1 w2 vs jv _ _ h1 h2 hb hv e he =>
      .more e body v w1 w2 vs jv (hb e he) (hv e he) h1 h2)
    (fun _ w1 cs w2 w3 h1 hcs h2 h3 e _ => .first e w1 cs w2 w3 h1 hcs h2 h3)
    (fun _ body v w1 w2 cs w3 w4 ms k jv _ _ h1 h2 hcs h3 h4 hb hv e he =>
      .more e body v w1 w2 cs w3 w4 ms k jv (hb e he) (hv e he) h1 h2 hcs h3 h4)
    d t jv h

theorem ReadsElements_mono (d : Nat) (body : Bytes) (vs : List JVal)
    (h : ReadsElements d body vs) : ∀ e, d ≤ e → ReadsElements e body vs :=
  @ReadsElements.rec (fun d t jv _ => ∀ e, d ≤ e → Reads e t jv)
    (fun d body vs _ => ∀ e, d ≤ e → ReadsElements e body vs)
    (fun d body ms k _ => ∀ e, d ≤ e → ReadsMembers e body ms k)
    (fun _ e _ => .null e) (fun _ e _ => .true e) (fun _ e _ => .false e)
    (fun _ n hn e _ => .number e n hn)
    (fun _ cs hcs e _ => .string e cs hcs)
    (fun d w hw e he => mono_emptyArray d w hw e he)
    (fun d body v w vs jv _ _ hw hb hv e he => mono_array d body v w vs jv hb hv hw e he)
    (fun d w hw e he => mono_emptyObject d w hw e he)
    (fun d body v w ms k jv _ _ hw hb hv e he => mono_object d body v w ms k jv hb hv hw e he)
    (fun _ w hw e _ => .ws e w hw)
    (fun _ body v w1 w2 vs jv _ _ h1 h2 hb hv e he =>
      .more e body v w1 w2 vs jv (hb e he) (hv e he) h1 h2)
    (fun _ w1 cs w2 w3 h1 hcs h2 h3 e _ => .first e w1 cs w2 w3 h1 hcs h2 h3)
    (fun _ body v w1 w2 cs w3 w4 ms k jv _ _ h1 h2 hcs h3 h4 hb hv e he =>
      .more e body v w1 w2 cs w3 w4 ms k jv (hb e he) (hv e he) h1 h2 hcs h3 h4)
    d body vs h

theorem ReadsMembers_mono (d : Nat) (body : Bytes) (ms : List (Bytes × JVal)) (k : Bytes)
    (h : ReadsMembers d body ms k) : ∀ e, d ≤ e → ReadsMembers e body ms k :=
  @ReadsMembers.rec (fun d t jv _ => ∀ e, d ≤ e → Reads e t jv)
    (fun d body vs _ => ∀ e, d ≤ e → ReadsElements e body vs)
    (fun d body ms k _ => ∀ e, d ≤ e → ReadsMembers e body ms k)
    (fun _ e _ => .null e) (fun _ e _ => .true e) (fun _ e _ => .false e)
    (fun _ n hn e _ => .number e n hn)
    (fun _ cs hcs e _ => .string e cs hcs)
    (fun d w hw e he => mono_emptyArray d w hw e he)
    (fun d body v w vs jv _ _ hw hb hv e he => mono_array d body v w vs jv hb hv hw e he)
    (fun d w hw e he => mono_emptyObject d w hw e he)
    (fun d body v w ms k jv _ _ hw hb hv e he => mono_object d body v w ms k jv hb hv hw e he)
    (fun _ w hw e _ => .ws e w hw)
    (fun _ body v w1 w2 vs jv _ _ h1 h2 hb hv e he =>
      .more e body v w1 w2 vs jv (hb e he) (hv e he) h1 h2)
    (fun _ w1 cs w2 w3 h1 hcs h2 h3 e _ => .first e w1 cs w2 w3 h1 hcs h2 h3)
    (fun _ body v w1 w2 cs w3 w4 ms k jv _ _ h1 h2 hcs h3 h4 hb hv e he =>
      .more e body v w1 w2 cs w3 w4 ms k jv (hb e he) (hv e he) h1 h2 hcs h3 h4)
    d body ms k h

theorem exists_array (body v w : Bytes) (hw : IsWs w)
    (hb : ∃ d vs, ReadsElements d body vs) (hv : ∃ d jv, Reads d v jv) :
    ∃ d jv, Reads d (0x5B :: (body ++ v ++ w ++ [0x5D])) jv := by
  obtain ⟨d1, vs, hb⟩ := hb
  obtain ⟨d2, jv, hv⟩ := hv
  exact ⟨max d1 d2 + 1, _, .array (max d1 d2) body v w vs jv
    (ReadsElements_mono d1 body vs hb _ (Nat.le_max_left _ _))
    (Reads_mono d2 v jv hv _ (Nat.le_max_right _ _)) hw⟩

theorem exists_object (body v w : Bytes) (hw : IsWs w)
    (hb : ∃ d ms k, ReadsMembers d body ms k) (hv : ∃ d jv, Reads d v jv) :
    ∃ d jv, Reads d (0x7B :: (body ++ v ++ w ++ [0x7D])) jv := by
  obtain ⟨d1, ms, k, hb⟩ := hb
  obtain ⟨d2, jv, hv⟩ := hv
  exact ⟨max d1 d2 + 1, _, .object (max d1 d2) body v w ms k jv
    (ReadsMembers_mono d1 body ms k hb _ (Nat.le_max_left _ _))
    (Reads_mono d2 v jv hv _ (Nat.le_max_right _ _)) hw⟩

theorem exists_elements_more (body v w1 w2 : Bytes) (h1 : IsWs w1) (h2 : IsWs w2)
    (hb : ∃ d vs, ReadsElements d body vs) (hv : ∃ d jv, Reads d v jv) :
    ∃ d vs, ReadsElements d (body ++ v ++ w1 ++ 0x2C :: w2) vs := by
  obtain ⟨d1, vs, hb⟩ := hb
  obtain ⟨d2, jv, hv⟩ := hv
  exact ⟨max d1 d2, _, .more (max d1 d2) body v w1 w2 vs jv
    (ReadsElements_mono d1 body vs hb _ (Nat.le_max_left _ _))
    (Reads_mono d2 v jv hv _ (Nat.le_max_right _ _)) h1 h2⟩

theorem exists_members_more (body v w1 w2 k w3 w4 : Bytes) (h1 : IsWs w1) (h2 : IsWs w2)
    (hk : IsString k) (h3 : IsWs w3) (h4 : IsWs w4)
    (hb : ∃ d ms k0, ReadsMembers d body ms k0) (hv : ∃ d jv, Reads d v jv) :
    ∃ d ms k0, ReadsMembers d (body ++ v ++ w1 ++ 0x2C :: w2 ++ k ++ w3 ++ 0x3A :: w4) ms k0 := by
  obtain ⟨d1, ms, k0, hb⟩ := hb
  obtain ⟨d2, jv, hv⟩ := hv
  obtain ⟨cs, rfl, hcs⟩ := hk
  exact ⟨max d1 d2, _, _, .more (max d1 d2) body v w1 w2 cs w3 w4 ms k0 jv
    (ReadsMembers_mono d1 body ms k0 hb _ (Nat.le_max_left _ _))
    (Reads_mono d2 v jv hv _ (Nat.le_max_right _ _)) h1 h2 hcs h3 h4⟩

/-- Every value of the grammar denotes a value, at some nesting depth. -/
theorem IsValue_Reads (t : Bytes) (h : IsValue t) : ∃ d jv, Reads d t jv :=
  @IsValue.rec (fun t _ => ∃ d jv, Reads d t jv) (fun body _ => ∃ d vs, ReadsElements d body vs)
    (fun body _ => ∃ d ms k, ReadsMembers d body ms k)
    ⟨0, _, .null 0⟩ ⟨0, _, .true 0⟩ ⟨0, _, .false 0⟩
    (fun n hn => ⟨0, _, .number 0 n hn⟩)
    (fun s hs => by
      obtain ⟨cs, rfl, hcs⟩ := hs
      exact ⟨0, _, .string 0 cs hcs⟩)
    (fun w hw => ⟨1, _, .emptyArray 0 w hw⟩)
    (fun body v w _ _ hw hb hv => exists_array body v w hw hb hv)
    (fun w hw => ⟨1, _, .emptyObject 0 w hw⟩)
    (fun body v w _ _ hw hb hv => exists_object body v w hw hb hv)
    (fun w hw => ⟨0, _, .ws 0 w hw⟩)
    (fun body v w1 w2 _ _ h1 h2 hb hv => exists_elements_more body v w1 w2 h1 h2 hb hv)
    (fun w1 k w2 w3 h1 hk h2 h3 => by
      obtain ⟨cs, rfl, hcs⟩ := hk
      exact ⟨0, _, _, .first 0 w1 cs w2 w3 h1 hcs h2 h3⟩)
    (fun body v w1 w2 k w3 w4 _ _ h1 h2 hk h3 h4 hb hv =>
      exists_members_more body v w1 w2 k w3 w4 h1 h2 hk h3 h4 hb hv)
    t h

/-- Every JSON text denotes a value, at some nesting depth. -/
theorem IsJSON_ReadsText (p : Bytes) (h : IsJSON p) : ∃ d v, ReadsText d p v := by
  obtain ⟨w1, t, w2, e, h1, ht, h2⟩ := h
  obtain ⟨d, jv, hr⟩ := IsValue_Reads t ht
  exact ⟨d, jv, w1, t, w2, e, h1, hr, h2⟩

/-! ## A response without a `choices` member -/

theorem IsChars_of_plain (cs : Bytes) (h : ∀ c ∈ cs, 0x20 ≤ c ∧ c ≠ 0x22 ∧ c ≠ 0x5C) :
    IsChars cs := by
  induction cs with
  | nil => exact .nil
  | cons c cs ih =>
    have hc := h c (List.mem_cons_self _ _)
    exact IsChars_append [c] cs (.plain [] c .nil hc.1 hc.2.1 hc.2.2)
      (ih (fun x hx => h x (List.mem_cons_of_mem _ hx)))

/-- The text `"x"` denotes the string `x`, nested 0 deep. -/
theorem reads_x : Reads 9998 (ascii "\"x\"") (.string (ascii "x")) :=
  Reads.string 9998 (ascii "x") (IsChars_of_plain _ (by decide))

/-- The text `{"message":"x"}` denotes an object with one member. -/
theorem reads_message :
    Reads 9999 (ascii "\x7b\"message\":\"x\"\x7d") (.object [(ascii "message", .string (ascii "x"))]) :=
  Reads.object 9998 (ascii "\"message\":") (ascii "\"x\"") [] [] (ascii "message") _
    (ReadsMembers.first 9998 [] (ascii "message") [] [] IsWs_nil
      (IsChars_of_plain _ (by decide)) IsWs_nil IsWs_nil)
    reads_x IsWs_nil

/-- The text `{"error":{"message":"x"}}` is a JSON text that denotes an object whose one
key is `error`. -/
theorem reads_error :
    ReadsText maxNestingDepth (ascii "\x7b\"error\":\x7b\"message\":\"x\"\x7d\x7d")
      (.object [(ascii "error", .object [(ascii "message", .string (ascii "x"))])]) :=
  ⟨[], ascii "\x7b\"error\":\x7b\"message\":\"x\"\x7d\x7d", [], rfl, IsWs_nil,
    Reads.object 9999 (ascii "\"error\":") (ascii "\x7b\"message\":\"x\"\x7d") [] [] (ascii "error") _
      (ReadsMembers.first 9999 [] (ascii "error") [] [] IsWs_nil
        (IsChars_of_plain _ (by decide)) IsWs_nil IsWs_nil)
      reads_message IsWs_nil,
    IsWs_nil⟩

/-- The text `{}` is a JSON text that denotes the empty object. -/
theorem reads_empty : ReadsText maxNestingDepth (ascii "\x7b\x7d") (.object []) :=
  ⟨[], ascii "\x7b\x7d", [], rfl, IsWs_nil, Reads.emptyObject 9999 [] IsWs_nil, IsWs_nil⟩

/-- The text `{"CHOICES":1}` is a JSON text that denotes an object whose one key is
`CHOICES`. -/
theorem reads_upper :
    ReadsText maxNestingDepth (ascii "\x7b\"CHOICES\":1\x7d")
      (.object [(ascii "CHOICES", .number (ascii "1"))]) :=
  ⟨[], ascii "\x7b\"CHOICES\":1\x7d", [], rfl, IsWs_nil,
    Reads.object 9999 (ascii "\"CHOICES\":") (ascii "1") [] [] (ascii "CHOICES") _
      (ReadsMembers.first 9999 [] (ascii "CHOICES") [] [] IsWs_nil
        (IsChars_of_plain _ (by decide)) IsWs_nil IsWs_nil)
      (Reads.number 9999 (ascii "1")
        ⟨[], [0x31], [], [], rfl, Or.inl rfl,
          Or.inr ⟨0x31, [], rfl, by decide, by decide, IsDigits_nil⟩, Or.inl rfl, Or.inl rfl⟩)
      IsWs_nil,
    IsWs_nil⟩

/-- The text `{"text":"hi"}` denotes an object with one member. -/
theorem reads_hi :
    Reads 9998 (ascii "\x7b\"text\":\"hi\"\x7d") (.object [(ascii "text", .string (ascii "hi"))]) :=
  Reads.object 9997 (ascii "\"text\":") (ascii "\"hi\"") [] [] (ascii "text") _
    (ReadsMembers.first 9997 [] (ascii "text") [] [] IsWs_nil
      (IsChars_of_plain _ (by decide)) IsWs_nil IsWs_nil)
    (Reads.string 9997 (ascii "hi") (IsChars_of_plain _ (by decide))) IsWs_nil

/-- The text `{"Choices":[{"text":"hi"}]}` is a JSON text that denotes an object whose one
key is `Choices`. -/
theorem reads_capital :
    ReadsText maxNestingDepth (ascii "\x7b\"Choices\":[\x7b\"text\":\"hi\"\x7d]\x7d")
      (.object [(ascii "Choices", .array [.object [(ascii "text", .string (ascii "hi"))]])]) :=
  ⟨[], ascii "\x7b\"Choices\":[\x7b\"text\":\"hi\"\x7d]\x7d", [], rfl, IsWs_nil,
    Reads.object 9999 (ascii "\"Choices\":") (ascii "[\x7b\"text\":\"hi\"\x7d]") [] []
      (ascii "Choices") _
      (ReadsMembers.first 9999 [] (ascii "Choices") [] [] IsWs_nil
        (IsChars_of_plain _ (by decide)) IsWs_nil IsWs_nil)
      (Reads.array 9998 [] (ascii "\x7b\"text\":\"hi\"\x7d") [] [] _
        (ReadsElements.ws 9998 [] IsWs_nil) reads_hi IsWs_nil)
      IsWs_nil,
    IsWs_nil⟩

/-! ## Nesting beyond `maxNestingDepth` -/

/-- The text of `n + 1` nested arrays denotes a value, nested `n + 1` deep. -/
theorem reads_deep (n : Nat) : Reads (n + 1) (deepText n) (deepValue n) := by
  induction n with
  | zero => exact Reads.emptyArray 0 [] IsWs_nil
  | succ n ih =>
    have h := Reads.array (n + 1) [] (deepText n) [] [] (deepValue n)
      (ReadsElements.ws (n + 1) [] IsWs_nil) ih IsWs_nil
    simpa [deepText, deepValue] using h

/-- The text `{"a":[[...[]...]]}` with `n + 1` nested arrays is a JSON text that denotes an
object whose one key is `a`, nested `n + 2` deep. -/
theorem reads_deep_object (n : Nat) :
    ReadsText (n + 2) ([0x7B, 0x22, 0x61, 0x22, 0x3A] ++ deepText n ++ [0x7D])
      (.object [(ascii "a", deepValue n)]) := by
  have hk : (unquote (ascii "a")).getD [] = ascii "a" := rfl
  have hm := ReadsMembers.first (n + 1) [] (ascii "a") [] [] IsWs_nil
    (IsChars_of_plain _ (by decide)) IsWs_nil IsWs_nil
  rw [hk] at hm
  have h := Reads.object (n + 1) _ (deepText n) [] [] (ascii "a") (deepValue n) hm
    (reads_deep n) IsWs_nil
  refine ⟨[], [0x7B, 0x22, 0x61, 0x22, 0x3A] ++ deepText n ++ [0x7D], [], by simp, IsWs_nil,
    ?_, IsWs_nil⟩
  have e : ([0x7B, 0x22, 0x61, 0x22, 0x3A] : Bytes) ++ deepText n ++ [0x7D]
      = 0x7B :: ([] ++ 0x22 :: (ascii "a" ++ [0x22]) ++ [] ++ 0x3A :: [] ++ deepText n ++ [] ++
          [0x7D]) := by
    have ha : ascii "a" = [0x61] := rfl
    rw [ha]
    simp
  rw [e]
  exact h

theorem foldl_error (bs : Bytes) (s : Scanner) (h : s.step = .error) :
    (bs.foldl Scanner.next s).step = .error := by
  induction bs generalizing s with
  | nil => exact h
  | cons c cs ih =>
    rw [List.foldl_cons]
    apply ih
    obtain ⟨st, ps, tok, tp⟩ := s
    simp only at h
    subst h
    rfl

/-- On arrays nested deeper than its stack allows, the scanner ends in its error state. -/
theorem deep_error (n : Nat) : ∀ (st : Step) (fs : List Frame) (tok : Bytes)
    (top : Option JVal) (rest : Bytes), (st = .beginValue ∨ st = .beginValueOrEmpty) →
    maxNestingDepth < fs.length + (n + 1) →
    ((deepText n ++ rest).foldl Scanner.next ⟨st, fs, tok, top⟩).step = .error := by
  induction n with
  | zero =>
    intro st fs tok top rest hst hd
    have e : Scanner.next ⟨st, fs, tok, top⟩ 0x5B
        = Scanner.pushParseState ⟨st, fs, tok, top⟩ (.arrayValue []) .beginValueOrEmpty := by
      rcases hst with rfl | rfl <;> rfl
    have e2 : deepText 0 ++ rest = 0x5B :: (0x5D :: rest) := rfl
    rw [e2, List.foldl_cons, e]
    apply foldl_error
    unfold Scanner.pushParseState
    rw [if_neg (by simp only []; omega)]
    rfl
  | succ n ih =>
    intro st fs tok top rest hst hd
    have e2 : deepText (n + 1) ++ rest = 0x5B :: (deepText n ++ (0x5D :: rest)) := by
      simp [deepText]
    rw [e2, List.foldl_cons]
    by_cases hl : fs.length + 1 ≤ maxNestingDepth
    · rw [next_bracket st hst fs tok top hl]
      exact ih .beginValueOrEmpty (.arrayValue [] :: fs) tok top _ (Or.inr rfl)
        (by simp only [List.length_cons]; omega)
    · have e : Scanner.next ⟨st, fs, tok, top⟩ 0x5B
          = Scanner.pushParseState ⟨st, fs, tok, top⟩ (.arrayValue []) .beginValueOrEmpty := by
        rcases hst with rfl | rfl <;> rfl
      rw [e]
      apply foldl_error
      unfold Scanner.pushParseState
      rw [if_neg (by simp only []; exact hl)]
      rfl

/-- Function `checkValid` rejects `{"a":[[...[]...]]}` once the nesting exceeds
`maxNestingDepth`. -/
theorem scan_deep_object (n : Nat) (h : maxNestingDepth < n + 2) :
    scan ([0x7B, 0x22, 0x61, 0x22, 0x3A] ++ deepText n ++ [0x7D]) = none := by
  have e1 : ([0x7B, 0x22, 0x61, 0x22, 0x3A] : Bytes).foldl Scanner.next Scanner.reset
      = ⟨.beginValue, [.objectValue [] (ascii "a")], [], none⟩ := rfl
  have hs := deep_error n .beginValue [.objectValue [] (ascii "a")] [] none [0x7D] (Or.inl rfl)
    (by simp only [List.length_cons, List.length_nil]; omega)
  unfold scan
  rw [List.append_assoc, List.foldl_append, e1]
  unfold Scanner.eof
  rw [if_pos hs]

/-- C10, amended: when the response body is a JSON text that denotes an object, with arrays
and objects nested no deeper than 10000 (the limit `maxNestingDepth` of `encoding/json`),
and none of the keys of the object is `choices` up to case (no key whose folded name is
`CHOICES`), `json.Unmarshal` returns no error and leaves the choices list empty; `main`
does not take the error branch (nothing is printed, no `os.Exit(1)`) and reaches
`Choices[0]`, which is out of range: the run panics. -/
theorem C10_no_choices_member (foldRune : Nat → Nat)
    (transport : Request → Except GoError Response)
    (args : List Bytes) (h : 2 ≤ args.length) (resp : Response) (respBody : Bytes)
    (ms : List (Bytes × JVal))
    (hD : transport (setHeaders ⟨"POST", completionsURL, [],
      marshalRequest (payload (args.getD 1 []))⟩) = .ok resp)
    (hR : resp.body = .ok respBody)
    (hJ : ReadsText maxNestingDepth respBody (.object ms))
    (hK : ∀ m ∈ ms, foldName foldRune m.1 ≠ ascii "CHOICES") :
    Unmarshal foldRune respBody ⟨[]⟩ = (⟨[]⟩, none) ∧
    (main (goLib foldRune transport) args).termination = .panicked ∧
    (main (goLib foldRune transport) args).stdout = [] ∧
    (main (goLib foldRune transport) args).events =
      [.marshal (payload (args.getD 1 [])), .newRequest,
       .send (setHeaders ⟨"POST", completionsURL, [], marshalRequest (payload (args.getD 1 []))⟩),
       .readAll, .unmarshal respBody, .closeBody] := by
  have hS := scan_complete maxNestingDepth respBody (.object ms) hJ (Nat.le_refl _)
  have hU := Unmarshal_no_choices foldRune respBody ms ⟨[]⟩ hS hK
  rw [main_no_choice (goLib foldRune transport) args h _ _ resp respBody rfl rfl hD hR hU]
  simp [hU, runtimePanic, Run.stdout]

/-- C10 (amended) at the bodies `{"error":{"message":"x"}}` and `{}`: both are JSON texts
that denote an object without a `choices` key, and the run panics on both. -/
theorem C10_no_choices_member_witness :
    ReadsText maxNestingDepth (ascii "\x7b\"error\":\x7b\"message\":\"x\"\x7d\x7d")
      (.object [(ascii "error", .object [(ascii "message", .string (ascii "x"))])]) ∧
    (main (goLib foldRuneKS (replyWith 401 (.ok (ascii "\x7b\"error\":\x7b\"message\":\"x\"\x7d\x7d"))))
      [ascii "gpt2gpt", ascii "hello"]).termination = .panicked ∧
    (main (goLib foldRuneKS (replyWith 401 (.ok (ascii "\x7b\"error\":\x7b\"message\":\"x\"\x7d\x7d"))))
      [ascii "gpt2gpt", ascii "hello"]).stdout = [] ∧
    ReadsText maxNestingDepth (ascii "\x7b\x7d") (.object []) ∧
    (main (goLib foldRuneKS (replyWith 200 (.ok (ascii "\x7b\x7d"))))
      [ascii "gpt2gpt", ascii "hello"]).termination = .panicked :=
  have h1 := C10_no_choices_member foldRuneKS
    (replyWith 401 (.ok (ascii "\x7b\"error\":\x7b\"message\":\"x\"\x7d\x7d")))
    [ascii "gpt2gpt", ascii "hello"] (by decide) _ _
    [(ascii "error", .object [(ascii "message", .string (ascii "x"))])] rfl rfl reads_error
    (by decide)
  have h2 := C10_no_choices_member foldRuneKS (replyWith 200 (.ok (ascii "\x7b\x7d")))
    [ascii "gpt2gpt", ascii "hello"] (by decide) _ _ [] rfl rfl reads_empty (by decide)
  ⟨reads_error, h1.2.1, h1.2.2.1, reads_empty, h2.2.1⟩

/-- The run of `main` on the query `hello` when the response body is rejected by the
validity check. -/
theorem main_rejects (status : Nat) (body : Bytes) (hS : scan body = none) :
    main (goLib foldRuneKS (replyWith status (.ok body))) [ascii "gpt2gpt", ascii "hello"]
      = ⟨[.marshal (payload (ascii "hello")), .newRequest,
          .send (setHeaders ⟨"POST", completionsURL, [], marshalRequest (payload (ascii "hello"))⟩),
          .readAll, .unmarshal body, .println (.error .syntaxError)], .exit 1⟩ :=
  main_unmarshal_error _ _ (by decide) _ _ _ _ ⟨[]⟩ .syntaxError rfl rfl rfl rfl
    (Unmarshal_syntax_error foldRuneKS body ⟨[]⟩ hS)

/-- C10 as stated fails. The bodies `{"CHOICES":1}` and `{"Choices":[{"text":"hi"}]}` are
JSON texts that denote an object with no member named `choices`, yet the first makes
`json.Unmarshal` return an error (and `main` exit with status 1 through the error branch),
and the second decodes to a list of one choice (and `main` prints `hi` and returns): field
names are matched without regard to case. The body `{"a":[[...[]...]]}` with 10000 nested
arrays is a JSON text that denotes an object whose one key is `a`, yet `json.Unmarshal`
returns a syntax error and `main` exits with status 1: the nesting exceeds
`maxNestingDepth`. -/
theorem C10_counterexample :
    ReadsText maxNestingDepth (ascii "\x7b\"CHOICES\":1\x7d")
      (.object [(ascii "CHOICES", .number (ascii "1"))]) ∧
    ascii "CHOICES" ≠ ascii "choices" ∧
    Unmarshal foldRuneKS (ascii "\x7b\"CHOICES\":1\x7d") ⟨[]⟩
      = (⟨[]⟩, some (.unmarshalTypeError (ascii "number"))) ∧
    main (goLib foldRuneKS (replyWith 200 (.ok (ascii "\x7b\"CHOICES\":1\x7d"))))
        [ascii "gpt2gpt", ascii "hello"]
      = ⟨[.marshal (payload (ascii "hello")), .newRequest,
          .send (setHeaders ⟨"POST", completionsURL, [], marshalRequest (payload (ascii "hello"))⟩),
          .readAll, .unmarshal (ascii "\x7b\"CHOICES\":1\x7d"),
          .println (.error (.unmarshalTypeError (ascii "number")))], .exit 1⟩ ∧
    ReadsText maxNestingDepth (ascii "\x7b\"Choices\":[\x7b\"text\":\"hi\"\x7d]\x7d")
      (.object [(ascii "Choices", .array [.object [(ascii "text", .string (ascii "hi"))]])]) ∧
    ascii "Choices" ≠ ascii "choices" ∧
    Unmarshal foldRuneKS (ascii "\x7b\"Choices\":[\x7b\"text\":\"hi\"\x7d]\x7d") ⟨[]⟩
      = (⟨[⟨ascii "hi"⟩]⟩, none) ∧
    (main (goLib foldRuneKS (replyWith 200 (.ok (ascii "\x7b\"Choices\":[\x7b\"text\":\"hi\"\x7d]\x7d"))))
        [ascii "gpt2gpt", ascii "hello"]).stdout = [.text (ascii "hi")] ∧
    (main (goLib foldRuneKS (replyWith 200 (.ok (ascii "\x7b\"Choices\":[\x7b\"text\":\"hi\"\x7d]\x7d"))))
        [ascii "gpt2gpt", ascii "hello"]).termination = .returned ∧
    ReadsText 10001 ([0x7B, 0x22, 0x61, 0x22, 0x3A] ++ deepText 9999 ++ [0x7D])
      (.object [(ascii "a", deepValue 9999)]) ∧
    ascii "a" ≠ ascii "choices" ∧
    Unmarshal foldRuneKS ([0x7B, 0x22, 0x61, 0x22, 0x3A] ++ deepText 9999 ++ [0x7D]) ⟨[]⟩
      = (⟨[]⟩, some .syntaxError) ∧
    main (goLib foldRuneKS
          (replyWith 200 (.ok ([0x7B, 0x22, 0x61, 0x22, 0x3A] ++ deepText 9999 ++ [0x7D]))))
        [ascii "gpt2gpt", ascii "hello"]
      = ⟨[.marshal (payload (ascii "hello")), .newRequest,
          .send (setHeaders ⟨"POST", completionsURL, [], marshalRequest (payload (ascii "hello"))⟩),
          .readAll, .unmarshal ([0x7B, 0x22, 0x61, 0x22, 0x3A] ++ deepText 9999 ++ [0x7D]),
          .println (.error .syntaxError)], .exit 1⟩ := by
  have hS := scan_deep_object 9999 (by decide)
  exact ⟨reads_upper, by decide, rfl, rfl, reads_capital, by decide, rfl, rfl, rfl,
    reads_deep_object 9999, by decide,
    Unmarshal_syntax_error foldRuneKS _ ⟨[]⟩ hS, main_rejects 200 _ hS⟩

end Gpt2gpt
